import Mathlib

/-!
# Spider Solitaire rules engine: a shallow embedding

This file embeds the rules engine of the Spider Solitaire repository
(`src/lib/gameLogic.ts` and `src/lib/gameStore.svelte.ts`) into Lean and
proves/refutes the specification claims about it.

Modelling conventions:
* TypeScript arrays become `List`, objects become structures, `null`/optional
  values become `Option`.
* JavaScript numbers are small integers throughout the engine; counters that
  are decremented (`moves`) are modelled as `Int`, array indices as `Nat`.
* A card's `id` is the string `` `${timestamp}-${suit}-${rank}-${globalCardId++}` ``.
  Within a process the trailing global counter makes ids equal iff the counters
  are equal, so ids are modelled by that `Nat` counter.
* Spread-clones such as `{...card}` and `pile.cards.map(c => ({...c}))` are
  identity on immutable values; where they occur we keep the plain value.
-/

/-- The four suits, `['♠', '♥', '♦', '♣']` in the source. -/
inductive Suit where
  | spades | hearts | diamonds | clubs
deriving DecidableEq, Repr

/-- The thirteen ranks `['A', '2', ..., '10', 'J', 'Q', 'K']`. -/
inductive Rank where
  | A | r2 | r3 | r4 | r5 | r6 | r7 | r8 | r9 | r10 | J | Q | K
deriving DecidableEq, Repr, Fintype

/-- The source's `ranks` array, in ascending order A..K. -/
def ranks : List Rank :=
  [.A, .r2, .r3, .r4, .r5, .r6, .r7, .r8, .r9, .r10, .J, .Q, .K]

/-- The source's `rankValues` record: A=1 .. K=13. -/
def rankValues : Rank → Nat
  | .A => 1 | .r2 => 2 | .r3 => 3 | .r4 => 4 | .r5 => 5 | .r6 => 6 | .r7 => 7
  | .r8 => 8 | .r9 => 9 | .r10 => 10 | .J => 11 | .Q => 12 | .K => 13

/-- A card (`interface Card` in `types.ts`); `id` is modelled by the unique
global counter embedded in the source's id string. -/
structure Card where
  id : Nat
  suit : Suit
  rank : Rank
  faceUp : Bool
deriving DecidableEq, Repr

/-- A tableau pile (`interface Pile`): index 0 is the bottom. -/
structure Pile where
  cards : List Card
deriving DecidableEq, Repr

/-- A completed-sequence record (`interface CompletedSequence`).  The source
id string `` `${suit}-${Date.now()}-${i}` `` is modelled by the suit plus the
pile index `i`; the engine never reads these ids. -/
structure CompletedSequence where
  suit : Suit
  mark : Nat
deriving DecidableEq, Repr

/-- Game difficulty. -/
inductive Difficulty where
  | easy | medium | hard
deriving DecidableEq, Repr

/-- The whole game state (`interface GameState`). -/
structure GameState where
  tableau : List Pile
  stock : List Card
  completedSequences : List CompletedSequence
  moves : Int
  gameWon : Bool
  difficulty : Difficulty
deriving DecidableEq, Repr

/-- `canPlaceCard(cardToPlace, targetCard)`: placement is legal on an empty
column, or when the card is exactly one rank below the target. -/
def canPlaceCard (cardToPlace : Card) (targetCard : Option Card) : Bool :=
  match targetCard with
  | none => true
  | some target => rankValues cardToPlace.rank == rankValues target.rank - 1

/-- The loop inside `getMovableCards`: checks that consecutive cards strictly
descend by one in rank (`currentValue === nextValue + 1`). -/
def descendingByOne : List Card → Bool
  | [] => true
  | [_] => true
  | a :: b :: t => (rankValues a.rank == rankValues b.rank + 1) && descendingByOne (b :: t)

/-- `getMovableCards(pile, startIndex)`: the cards from `startIndex` to the
top if they form a strictly descending-by-one chain, else `[]`. -/
def getMovableCards (pile : Pile) (startIndex : Nat) : List Card :=
  let cards := pile.cards.drop startIndex
  if descendingByOne cards then cards else []

/-- The `suitsToUse` pattern selected by the `switch (difficulty)` in
`createDeck`: 8 sub-deck suits per difficulty. -/
def suitsToUse : Difficulty → List Suit
  | .easy => [.spades, .spades, .spades, .spades, .spades, .spades, .spades, .spades]
  | .medium => [.spades, .spades, .spades, .spades, .hearts, .hearts, .hearts, .hearts]
  | .hard => [.spades, .spades, .hearts, .hearts, .diamonds, .diamonds, .clubs, .clubs]

/-- `createDeck(difficulty)`: 8 sub-decks of the 13 ranks.  The source's
`globalCardId++` counter is modelled by `startId` plus the running card index
(sub-deck `i`, rank `j` gets the `13*i + j`-th fresh id). -/
def createDeck (difficulty : Difficulty) (startId : Nat) : List Card :=
  (suitsToUse difficulty).enum.flatMap (fun si =>
    ranks.enum.map (fun rj =>
      { id := startId + (13 * si.1 + rj.1), suit := si.2, rank := rj.2, faceUp := false }))

/-- Closed form of the sequential `cardIndex` cursor in `initializeGame`'s
deal loop: the first card index dealt to column `col` (columns 0–3 take 6
cards, columns 4–9 take 5). -/
def colStart (col : Nat) : Nat := if col < 4 then 6 * col else 24 + 5 * (col - 4)

/-- One column of the initial deal: `numCards` cards from the deck cursor,
only the last dealt (`row === numCards - 1`) face up. -/
def dealtPile (deck : List Card) (col : Nat) : Pile :=
  let numCards := if col < 4 then 6 else 5
  ⟨((deck.drop (colStart col)).take numCards).enum.map
    (fun rc => { rc.2 with faceUp := rc.1 == numCards - 1 })⟩

/-- `initializeGame(difficulty)` given the already created-and-shuffled deck
(the `Math.random` Fisher–Yates shuffle is modelled by taking the shuffled
deck as input).  After the deal loop `cardIndex` is 54, so the stock is
`deck.slice(54)`. -/
def initializeGame (deck : List Card) (difficulty : Difficulty) : GameState :=
  { tableau := (List.range 10).map (dealtPile deck)
    stock := deck.drop 54
    completedSequences := []
    moves := 0
    gameWon := false
    difficulty := difficulty }

/-- Result record of `checkForCompletedSequence` (`startIndex` is `-1` when
nothing was found, mirroring the source). -/
structure SeqCheck where
  completed : Bool
  startIndex : Int
  suit : Option Suit
deriving DecidableEq, Repr

/-- Stands for the `undefined` reads the source would crash on; only used as
the default of guarded lookups that never fall through in engine states. -/
def dummyCard : Card := ⟨0, .spades, .A, false⟩

/-- Card lookup by absolute position, for stating window properties. -/
def windowCard (cards : List Card) (k : Nat) : Card := cards.getD k dummyCard

/-- Body of the scan loop of `checkForCompletedSequence` at candidate start
`i`: the 13-card slice `pile.cards.slice(i, i + 13)` must be all face up and,
taking `suit = sequence[0].suit`, read `ranks[12 - j]` (K,Q,...,A) in that
suit. -/
def windowOk (cards : List Card) (i : Nat) : Bool :=
  ((cards.drop i).take 13).all (·.faceUp) &&
    match (cards.drop i).take 13 with
    | [] => false
    | c :: _ =>
      ((cards.drop i).take 13).all (fun x => x.suit == c.suit) &&
        ((cards.drop i).take 13).map (·.rank) == ranks.reverse

/-- The `for (let i = pile.cards.length - 13; i >= 0; i--)` scan: first valid
window found while counting down from `i`. -/
def seqScan (cards : List Card) : Nat → Option Nat
  | 0 => if windowOk cards 0 then some 0 else none
  | (i+1) => if windowOk cards (i+1) then some (i+1) else seqScan cards i

/-- `checkForCompletedSequence(pile)`. -/
def checkForCompletedSequence (pile : Pile) : SeqCheck :=
  if pile.cards.length < 13 then ⟨false, -1, none⟩
  else
    match seqScan pile.cards (pile.cards.length - 13) with
    | some i => ⟨true, (i : Int), some (windowCard pile.cards i).suit⟩
    | none => ⟨false, -1, none⟩

/-- Specification predicate (from the spec's words): positions `i .. i+12`
exist, are all face up, share the suit of position `i`, and their ranks read
K,Q,...,A from bottom to top (rank value `13 - j` at offset `j`). -/
def IsCompleteWindow (cards : List Card) (i : Nat) : Prop :=
  i + 13 ≤ cards.length ∧
  (∀ j, j < 13 → (windowCard cards (i + j)).faceUp = true) ∧
  (∀ j, j < 13 → (windowCard cards (i + j)).suit = (windowCard cards i).suit) ∧
  (∀ j, j < 13 → rankValues (windowCard cards (i + j)).rank = 13 - j)

instance (cards : List Card) (i : Nat) : Decidable (IsCompleteWindow cards i) := by
  unfold IsCompleteWindow; infer_instance

/-- A full face-up King-to-Ace run of one suit (13 cards, fresh ids from
`startId`), used to build concrete test piles. -/
def fullRun (su : Suit) (startId : Nat) : List Card :=
  ranks.reverse.enum.map (fun rj =>
    { id := startId + rj.1, suit := su, rank := rj.2, faceUp := true })

/-- A 26-card pile holding two stacked complete runs: spades at positions
0–12, hearts at positions 13–25. -/
def twoWindowPile : Pile := ⟨fullRun .spades 0 ++ fullRun .hearts 13⟩

/-- `dealFromStock(state)`: no-op if the stock has fewer than 10 cards, else
append `stock[index]` face up to pile `index` for every pile, drop the first
10 stock cards, and increment `moves`.  (The per-card deep clones are
identity on values.) -/
def dealFromStock (state : GameState) : GameState :=
  if state.stock.length < 10 then state
  else
    { state with
      tableau := state.tableau.mapIdx (fun index pile =>
        ⟨pile.cards ++ [{ state.stock.getD index dummyCard with faceUp := true }]⟩)
      stock := state.stock.drop 10
      moves := state.moves + 1 }

/-- `flippedCard?: { pileIndex, cardId }` on a move record. -/
structure FlippedRef where
  pileIndex : Nat
  cardId : Nat
deriving DecidableEq, Repr

/-- One element of `completedSequences?` on a history record: pile index, the
13 removed cards, their suit, and the id of the card the removal flipped (if
any). -/
structure CompletedInfo where
  pileIndex : Nat
  cards : List Card
  suit : Suit
  flippedCard : Option Nat
deriving DecidableEq, Repr

/-- `interface MoveHistory` with the optional fields the store uses
(`type?: 'deal'`, `dealtCards?`, `completedSequences?`).  `from` is a Lean
keyword, hence `from_`; likewise `to_`. -/
structure MoveHistory where
  htype : Option String := none
  from_ : Int
  to_ : Int
  cards : List Card
  flippedCard : Option FlippedRef := none
  dealtCards : Option (List (List Card)) := none
  completedSequences : Option (List CompletedInfo) := none
deriving DecidableEq, Repr

/-- The mutable fields of `class SpiderSolitaireGame` that the engine reads
and writes (`hint`, `gameKey` and `initialState` are UI-only). -/
structure Store where
  state : GameState
  history : List MoveHistory
  selectedPile : Option Nat
  selectedCardIndex : Option Nat
deriving DecidableEq, Repr

/-- `clearSelection()`. -/
def clearSelection (st : Store) : Store :=
  { st with selectedPile := none, selectedCardIndex := none }

/-- The derived `canDeal`: stock at least 10 and no empty pile. -/
def canDeal (s : GameState) : Bool :=
  decide (10 ≤ s.stock.length) && s.tableau.all (fun pile => decide (0 < pile.cards.length))

/-- `cards.findIndex(c => c.id === cid)` followed by setting that card face
down (first occurrence only; unchanged when absent). -/
def flipDownById (cards : List Card) (cid : Nat) : List Card :=
  match cards with
  | [] => []
  | c :: t => if c.id = cid then { c with faceUp := false } :: t else c :: flipDownById t cid

/-- Per-pile body of the tableau map in `checkCompletedSequences`: when the
pile has a completed window at `startIndex`, cards `[startIndex, startIndex+13)`
are removed (`remainingCards = pile.cards.slice(0, startIndex)`), the new top
is flipped if face down (its id recorded), and the removal is reported. -/
def ccsPile (i : Nat) (pile : Pile) : Pile × Option CompletedInfo :=
  let result := checkForCompletedSequence pile
  match result.completed, result.suit with
  | true, some su =>
    let start := result.startIndex.toNat
    let completedCards := (pile.cards.drop start).take 13
    let remainingCards := pile.cards.take start
    match remainingCards.getLast? with
    | some last =>
      if ¬ last.faceUp then
        (⟨remainingCards.dropLast ++ [{ last with faceUp := true }]⟩,
          some ⟨i, completedCards, su, some last.id⟩)
      else (⟨remainingCards⟩, some ⟨i, completedCards, su, none⟩)
    | none => (⟨remainingCards⟩, some ⟨i, completedCards, su, none⟩)
  | _, _ => (pile, none)

/-- `checkCompletedSequences()`: remove one completed window per pile, append
a `CompletedSequence` per removal (in pile order), recompute `gameWon`, and
attach the removals to the most recent history entry.  When nothing completed
the store is untouched. -/
def checkCompletedSequences (st : Store) : Store :=
  let results := st.state.tableau.mapIdx ccsPile
  let newTableau := results.map Prod.fst
  let completedThisCheck := results.filterMap Prod.snd
  let newCompletedSequences := st.state.completedSequences ++
    completedThisCheck.map (fun info => ⟨info.suit, info.pileIndex⟩)
  if completedThisCheck.isEmpty then st
  else
    { st with
      state := { st.state with
        tableau := newTableau
        completedSequences := newCompletedSequences
        gameWon := newCompletedSequences.length == 8 }
      history :=
        match st.history.getLast? with
        | some last =>
          st.history.dropLast ++ [{ last with completedSequences := some completedThisCheck }]
        | none => st.history }

/-- `selectCards(pileIndex, cardIndex, skipAutoMove = true)`: only a face-up
card starting a movable run may be selected. -/
def selectCards (st : Store) (pileIndex cardIndex : Nat) : Store :=
  let pile := st.state.tableau.getD pileIndex ⟨[]⟩
  let card := pile.cards.getD cardIndex dummyCard
  if ¬ card.faceUp then st
  else if (getMovableCards pile cardIndex).isEmpty then st
  else { st with selectedPile := some pileIndex, selectedCardIndex := some cardIndex }

/-- `moveCards(targetPileIndex)`: validates the selected run and the
placement, moves the run, flips the uncovered source card (recording the
flip), pushes the history entry, clears the selection and checks for
completed sequences.  Any invalidity is a no-op that clears the selection. -/
def moveCards (st : Store) (targetPileIndex : Nat) : Store :=
  match st.selectedPile, st.selectedCardIndex with
  | some sp, some ci =>
    if sp = targetPileIndex then clearSelection st
    else
      let sourcePile := st.state.tableau.getD sp ⟨[]⟩
      let targetPile := st.state.tableau.getD targetPileIndex ⟨[]⟩
      let cardsToMove := getMovableCards sourcePile ci
      match cardsToMove with
      | [] => clearSelection st
      | firstCard :: _ =>
        if ¬ canPlaceCard firstCard targetPile.cards.getLast? then clearSelection st
        else
          let newSourceCards0 := sourcePile.cards.take ci
          let flipStep : Option FlippedRef × List Card :=
            match newSourceCards0.getLast? with
            | some last =>
              if ¬ last.faceUp then
                (some ⟨sp, last.id⟩, newSourceCards0.dropLast ++ [{ last with faceUp := true }])
              else (none, newSourceCards0)
            | none => (none, newSourceCards0)
          let historyEntry : MoveHistory :=
            { from_ := (sp : Int), to_ := (targetPileIndex : Int), cards := cardsToMove
              flippedCard := flipStep.1 }
          let newTableau := st.state.tableau.mapIdx (fun idx pile =>
            if idx = sp then ⟨flipStep.2⟩
            else if idx = targetPileIndex then ⟨targetPile.cards ++ cardsToMove⟩
            else pile)
          checkCompletedSequences
            { st with
              state := { st.state with tableau := newTableau, moves := st.state.moves + 1 }
              history := st.history ++ [historyEntry]
              selectedPile := none, selectedCardIndex := none }
  | _, _ => st

/-- `deal()`: rejected unless `canDeal`; records the 10 stock cards about to
be dealt, applies `dealFromStock`, clears the selection and checks for
completed sequences. -/
def deal (st : Store) : Store :=
  if ¬ canDeal st.state then st
  else
    let dealtCards : List (List Card) :=
      (List.range 10).map (fun i => [st.state.stock.getD i dummyCard])
    let historyEntry : MoveHistory :=
      { htype := some "deal", from_ := -1, to_ := -1, cards := [], dealtCards := some dealtCards }
    checkCompletedSequences
      { st with
        state := dealFromStock st.state
        history := st.history ++ [historyEntry]
        selectedPile := none, selectedCardIndex := none }

/-- Putting one removed sequence back on its pile during `undo`: append the
13 stored cards and, if the removal had flipped a card, find it by id and
turn it back face down. -/
def restoredCards (pcards : List Card) (info : CompletedInfo) : List Card :=
  match info.flippedCard with
  | some cid => flipDownById (pcards ++ info.cards) cid
  | none => pcards ++ info.cards

/-- The completed-sequence restoration step shared by both `undo` branches:
drop the restored entries from the tail of `completedSequences` and append
each removed run back onto its pile, flipping the recorded card back face
down. -/
def restoreCompleted (tableau : List Pile) (cs : List CompletedSequence)
    (entries : Option (List CompletedInfo)) : List Pile × List CompletedSequence :=
  match entries with
  | some infos =>
    if 0 < infos.length then
      (tableau.mapIdx (fun idx pile =>
        match infos.find? (fun info => info.pileIndex == idx) with
        | some restored => ⟨restoredCards pile.cards restored⟩
        | none => pile),
       cs.take (cs.length - infos.length))
    else (tableau, cs)
  | none => (tableau, cs)

/-- The flip-back step of undoing a move: if the move had flipped the new
source top card, find it by id in the reassembled source pile and turn it
face down again. -/
def undoFlipBack (fl : Option FlippedRef) (idx : Nat) (cards : List Card) : List Card :=
  match fl with
  | some fr => if fr.pileIndex = idx then flipDownById cards fr.cardId else cards
  | none => cards

/-- The id-based re-extraction in `undo` of a move: walk the target pile,
pulling out cards whose id is among the moved ids while fewer than `quota`
have been taken, keeping the others in order. -/
def extractByIds (ids : List Nat) (quota : Nat) : List Card → List Card × List Card
  | [] => ([], [])
  | c :: t =>
    if ids.contains c.id ∧ 0 < quota then
      let r := extractByIds ids (quota - 1) t
      (c :: r.1, r.2)
    else
      let r := extractByIds ids quota t
      (r.1, c :: r.2)

/-- `undo()`: pop the last history record and apply its exact inverse (no-op
on an empty history).  A deal record restores any completed sequences, strips
the last card of every pile and prepends the dealt cards back onto the stock;
a move record restores any completed sequences, re-extracts the moved cards
by id from the destination, appends them back onto the source and undoes the
recorded flip.  `moves` decreases by 1 and `gameWon` is recomputed. -/
def undo (st : Store) : Store :=
  match st.history.getLast? with
  | none => st
  | some lastMove =>
    let history' := st.history.dropLast
    if lastMove.htype == some "deal" && lastMove.dealtCards.isSome then
      let rc := restoreCompleted st.state.tableau st.state.completedSequences
        lastMove.completedSequences
      let newTableau := rc.1.map (fun pile => ⟨pile.cards.dropLast⟩)
      let cardsToAddBack := (lastMove.dealtCards.getD []).flatten
      let newStock := cardsToAddBack ++ st.state.stock
      { st with
        state := { st.state with
          tableau := newTableau
          stock := newStock
          completedSequences := rc.2
          gameWon := rc.2.length == 8
          moves := st.state.moves - 1 }
        history := history'
        selectedPile := none, selectedCardIndex := none }
    else
      let rc := restoreCompleted st.state.tableau st.state.completedSequences
        lastMove.completedSequences
      let movedCardIds := lastMove.cards.map (fun c => c.id)
      let targetPile := rc.1.getD lastMove.to_.toNat ⟨[]⟩
      let ex := extractByIds movedCardIds lastMove.cards.length targetPile.cards
      let newTableau := rc.1.mapIdx (fun idx pile =>
        if (idx : Int) = lastMove.to_ then ⟨ex.2⟩
        else if (idx : Int) = lastMove.from_ then
          ⟨undoFlipBack lastMove.flippedCard idx (pile.cards ++ ex.1)⟩
        else pile)
      { st with
        state := { st.state with
          tableau := newTableau
          completedSequences := rc.2
          gameWon := rc.2.length == 8
          moves := st.state.moves - 1 }
        history := history'
        selectedPile := none, selectedCardIndex := none }

/-- The backward walk of `getSequenceLengthFromEnd`: counts cards while they
are face up, of the run's suit, and exactly one rank above the card after
them. -/
def seqLenBack (su : Suit) : Card → List Card → Nat
  | _, [] => 0
  | next, cur :: t =>
    if cur.faceUp && cur.suit == su && (rankValues cur.rank == rankValues next.rank + 1)
    then 1 + seqLenBack su cur t
    else 0

/-- `getSequenceLengthFromEnd(pile)`: length of the face-up same-suit
strictly-descending run ending at the pile's top; 0 for an empty pile or a
face-down top card.  The source's downward index walk is the walk over the
reversed list. -/
def getSequenceLengthFromEnd (pile : Pile) : Nat :=
  match pile.cards.reverse with
  | [] => 0
  | lastCard :: rest =>
    if ¬ lastCard.faceUp then 0
    else 1 + seqLenBack lastCard.suit lastCard rest

/-- `interface MeaningfulMove`. -/
structure MeaningfulMove where
  sourcePile : Nat
  cardIndex : Nat
  targetPile : Nat
  priority : Nat
  reason : String
deriving DecidableEq, Repr

/-- The body of `findMeaningfulMoves`' innermost target loop: `none` stands
for `continue`, `some` for a pushed move.  The source reads the target pile
from `state.tableau[targetPileIdx]`; it is passed in explicitly. -/
def moveCandidate (sourcePile targetPile : Pile) (sourcePileIdx cardIdx targetPileIdx : Nat)
    (movableCards : List Card) (firstCard : Card) (wouldFlipCard : Bool) :
    Option MeaningfulMove :=
  if targetPileIdx = sourcePileIdx then none
  else
    let targetCard := targetPile.cards.getLast?
    if ¬ canPlaceCard firstCard targetCard then none
    else
      match targetCard with
      | none =>
        some ⟨sourcePileIdx, cardIdx, targetPileIdx, if wouldFlipCard then 80 else 50,
          if wouldFlipCard then "Move to empty & flip card" else "Move to empty column"⟩
      | some tc =>
        if wouldFlipCard then
          some ⟨sourcePileIdx, cardIdx, targetPileIdx,
            if firstCard.suit = tc.suit then 100 else 70,
            if firstCard.suit = tc.suit then "Join same suit & flip card"
            else "Flip a face-down card"⟩
        else if firstCard.suit = tc.suit then
          let targetCurrentSeq := getSequenceLengthFromEnd targetPile
          let potentialNewSeq := targetCurrentSeq + movableCards.length
          if 0 < cardIdx ∧
              ((sourcePile.cards.getD (cardIdx - 1) dummyCard).faceUp = true ∧
                (sourcePile.cards.getD (cardIdx - 1) dummyCard).suit = firstCard.suit ∧
                rankValues (sourcePile.cards.getD (cardIdx - 1) dummyCard).rank =
                  rankValues firstCard.rank + 1) then none
          else if movableCards.length < potentialNewSeq then
            some ⟨sourcePileIdx, cardIdx, targetPileIdx, 60, "Build longer sequence"⟩
          else none
        else none

/-- The `moves` array of `findMeaningfulMoves` in discovery order, before the
final sort. -/
def rawMoves (state : GameState) : List MeaningfulMove :=
  (List.range state.tableau.length).flatMap (fun sourcePileIdx =>
    let sourcePile := state.tableau.getD sourcePileIdx ⟨[]⟩
    (List.range sourcePile.cards.length).flatMap (fun cardIdx =>
      if ¬ (sourcePile.cards.getD cardIdx dummyCard).faceUp then []
      else
        let movableCards := getMovableCards sourcePile cardIdx
        if movableCards.isEmpty then []
        else
          let firstCard := movableCards.headD dummyCard
          let wouldFlipCard := decide (0 < cardIdx) &&
            !(sourcePile.cards.getD (cardIdx - 1) dummyCard).faceUp
          (List.range state.tableau.length).filterMap (fun targetPileIdx =>
            moveCandidate sourcePile (state.tableau.getD targetPileIdx ⟨[]⟩)
              sourcePileIdx cardIdx targetPileIdx movableCards firstCard wouldFlipCard)))

/-- Stable insertion by descending priority: a move goes in front of the
first entry whose priority is not larger. -/
def insertDesc (m : MeaningfulMove) : List MeaningfulMove → List MeaningfulMove
  | [] => [m]
  | a :: t => if a.priority ≤ m.priority then m :: a :: t else a :: insertDesc m t

/-- `moves.sort((a, b) => b.priority - a.priority)`: JavaScript's sort is
specified to be stable, so it is modelled as a stable insertion sort by
descending priority (ties keep discovery order). -/
def sortByPriorityDesc (l : List MeaningfulMove) : List MeaningfulMove :=
  l.foldr insertDesc []

/-- `findMeaningfulMoves(state)`: every candidate in discovery order, sorted
by descending priority. -/
def findMeaningfulMoves (state : GameState) : List MeaningfulMove :=
  sortByPriorityDesc (rawMoves state)

/-- The amended claim's scoring table, written from the spec's words as an
independent definition over (source pile, card index, target pile): a face-up
run start with a movable run and a legal landing scores 50 on an empty target
(80 when the move uncovers a face-down card), 100/70 for an uncovering move
onto a non-empty target (same suit / different suit), and 60 for a same-suit
move onto a face-up target top card unless the moved run was already the tail
of a longer same-suit run at its source. -/
def specScoreCore (sourcePile targetPile : Pile) (cardIdx : Nat) (sameIdx : Bool) :
    Option Nat :=
  let run := getMovableCards sourcePile cardIdx
  let first := run.headD dummyCard
  let before := sourcePile.cards.getD (cardIdx - 1) dummyCard
  if (sourcePile.cards.getD cardIdx dummyCard).faceUp = true ∧ run ≠ [] ∧ sameIdx = false ∧
      canPlaceCard first targetPile.cards.getLast? = true then
    let flips := 0 < cardIdx ∧ before.faceUp = false
    match targetPile.cards.getLast? with
    | none => some (if flips then 80 else 50)
    | some top =>
      if flips then some (if first.suit = top.suit then 100 else 70)
      else if first.suit = top.suit ∧ top.faceUp = true ∧
          ¬ (0 < cardIdx ∧ before.faceUp = true ∧ before.suit = first.suit ∧
            rankValues before.rank = rankValues first.rank + 1) then
        some 60
      else none
  else none

/-- The amended scoring applied to a state's pile indices. -/
def specScore (state : GameState) (src cardIdx tgt : Nat) : Option Nat :=
  specScoreCore (state.tableau.getD src ⟨[]⟩) (state.tableau.getD tgt ⟨[]⟩) cardIdx
    (tgt == src)

/-- The spec-side move list: all scored triples in the same discovery order,
projected to (source, cardIndex, target, priority). -/
def specMoves (state : GameState) : List (Nat × Nat × Nat × Nat) :=
  (List.range state.tableau.length).flatMap (fun src =>
    (List.range (state.tableau.getD src ⟨[]⟩).cards.length).flatMap (fun cardIdx =>
      (List.range state.tableau.length).filterMap (fun tgt =>
        (specScore state src cardIdx tgt).map (fun p => (src, cardIdx, tgt, p)))))

/-- Stable insertion sort on the projected quadruples, by descending
priority (the fourth component). -/
def insertQuadDesc (m : Nat × Nat × Nat × Nat) :
    List (Nat × Nat × Nat × Nat) → List (Nat × Nat × Nat × Nat)
  | [] => [m]
  | a :: t => if a.2.2.2 ≤ m.2.2.2 then m :: a :: t else a :: insertQuadDesc m t

def sortQuadDesc (l : List (Nat × Nat × Nat × Nat)) : List (Nat × Nat × Nat × Nat) :=
  l.foldr insertQuadDesc []

/-- Concrete state for the C9 counterexample: pile 0 is the mixed-suit run
[5♠, 4♥] (both face up), pile 1 is a lone face-up 6♠. -/
def mixedRunState : GameState :=
  { tableau := [⟨[⟨0, .spades, .r5, true⟩, ⟨1, .hearts, .r4, true⟩]⟩,
      ⟨[⟨2, .spades, .r6, true⟩]⟩]
    stock := [], completedSequences := [], moves := 0, gameWon := false,
    difficulty := .easy }

/-- Projection of a `MeaningfulMove` to (source, cardIndex, target, priority),
used to compare the engine's list with the spec-side list (the UI `reason`
string carries no information the claim mentions). -/
def projMove (m : MeaningfulMove) : Nat × Nat × Nat × Nat :=
  (m.sourcePile, m.cardIndex, m.targetPile, m.priority)

/-- A deck a new game starts from: 104 cards with pairwise distinct ids,
which `shuffleDeck(createDeck(d))` always produces (the global counter makes
every created id fresh and shuffling permutes). -/
def InitialDeck (deck : List Card) : Prop :=
  deck.length = 104 ∧ (deck.map (fun c => c.id)).Nodup

/-- Stores reachable through the UI: a fresh game (`newGame`/`restartGame`
give the same shape), then any sequence of card selections, card moves onto
an existing pile, deals, undos, and selection clears. -/
inductive Reachable : Store → Prop where
  | init (deck : List Card) (d : Difficulty) (h : InitialDeck deck) :
      Reachable ⟨initializeGame deck d, [], none, none⟩
  | select (st : Store) (p i : Nat) (h : Reachable st) : Reachable (selectCards st p i)
  | move (st : Store) (t : Nat) (ht : t < st.state.tableau.length) (h : Reachable st) :
      Reachable (moveCards st t)
  | dealStep (st : Store) (h : Reachable st) : Reachable (deal st)
  | undoStep (st : Store) (h : Reachable st) : Reachable (undo st)
  | clearSel (st : Store) (h : Reachable st) : Reachable (clearSelection st)

/-- The stock bookkeeping invariant: stock length is a multiple of 10 and
every deal record in the history holds exactly the 10 dealt cards. -/
def StockInv (st : Store) : Prop :=
  st.state.stock.length % 10 = 0 ∧
  ∀ e ∈ st.history, e.htype = some "deal" →
    ∃ dc, e.dealtCards = some dc ∧ dc.flatten.length = 10

/-- Face orientations in a pile are monotone: a face-up card never sits below
a face-down one (face-down cards form a prefix).  True of every reachable
pile: the initial deal, appends of face-up cards, and flips of the top card
all preserve it. -/
def FaceOrder (cards : List Card) : Prop :=
  ∀ i j, i ≤ j → j < cards.length →
    (windowCard cards i).faceUp = true → (windowCard cards j).faceUp = true

/-- No complete K-to-A window anywhere in the pile (stable states have had
all completed windows removed). -/
def NoWindow (cards : List Card) : Prop := ∀ j, ¬ IsCompleteWindow cards j

/-- The multiset of card ids of one pile. -/
def pileBag (p : Pile) : Multiset Nat := ((p.cards.map (fun c => c.id) : List Nat) : Multiset Nat)

/-- The multiset of all card ids in play (tableau plus stock). -/
def idBag (s : GameState) : Multiset Nat :=
  (s.tableau.map pileBag).sum + ((s.stock.map (fun c => c.id) : List Nat) : Multiset Nat)

/-- The state invariant of stable (between-operations) game states. -/
def StateInv (s : GameState) : Prop :=
  s.tableau.length = 10 ∧ (idBag s).Nodup ∧
  (∀ pile ∈ s.tableau, FaceOrder pile.cards) ∧
  (∀ pile ∈ s.tableau, NoWindow pile.cards) ∧
  s.gameWon = decide (s.completedSequences.length = 8)

/-- A pending selection always points at a face-up card of an existing pile:
`selectCards` validates it and every state-changing operation clears it. -/
def SelOK (st : Store) : Prop :=
  ∀ sp ci, st.selectedPile = some sp → st.selectedCardIndex = some ci →
    sp < st.state.tableau.length ∧
    ci < (st.state.tableau.getD sp ⟨[]⟩).cards.length ∧
    ((st.state.tableau.getD sp ⟨[]⟩).cards.getD ci dummyCard).faceUp = true

def StoreInv (st : Store) : Prop := StateInv st.state ∧ SelOK st

/-- The conditions under which `moveCards` actually performs a move (rather
than a selection-clearing no-op). -/
def MoveLegal (st : Store) (t : Nat) : Prop :=
  ∃ sp ci, st.selectedPile = some sp ∧ st.selectedCardIndex = some ci ∧ sp ≠ t ∧
    getMovableCards (st.state.tableau.getD sp ⟨[]⟩) ci ≠ [] ∧
    canPlaceCard ((st.state.tableau.getD sp ⟨[]⟩).cards.getD ci dummyCard)
      (st.state.tableau.getD t ⟨[]⟩).cards.getLast? = true

/-- Stores built without `undo`: every store reachable at all is of this
shape, because a well-formed `undo` lands back on the previous such store. -/
inductive Good : Store → Prop where
  | init (deck : List Card) (d : Difficulty) (h : InitialDeck deck) :
      Good ⟨initializeGame deck d, [], none, none⟩
  | select (st : Store) (p i : Nat) (h : Good st) : Good (selectCards st p i)
  | move (st : Store) (t : Nat) (ht : t < st.state.tableau.length) (h : Good st) :
      Good (moveCards st t)
  | dealStep (st : Store) (h : Good st) : Good (deal st)
  | clearSel (st : Store) (h : Good st) : Good (clearSelection st)

theorem descendingByOne_iff_chain (l : List Card) :
    descendingByOne l = true ↔
      List.Chain' (fun a b => rankValues a.rank = rankValues b.rank + 1) l := by
  induction l with
  | nil => simp [descendingByOne]
  | cons a t ih =>
    cases t with
    | nil => simp [descendingByOne]
    | cons b t' =>
      rw [descendingByOne, List.chain'_cons, Bool.and_eq_true, beq_iff_eq, ih]

/-- C4: assuming the cards from `startIndex` to the top are all face up (as
they are for every run a caller can select), `getMovableCards` returns exactly
those cards iff they form a strictly rank-descending-by-one chain, and returns
the empty run otherwise.  Suit is never consulted. -/
theorem getMovableCards_spec (pile : Pile) (startIndex : Nat)
    (hup : ∀ c ∈ pile.cards.drop startIndex, c.faceUp = true) :
    (getMovableCards pile startIndex = pile.cards.drop startIndex ↔
      List.Chain' (fun a b => rankValues a.rank = rankValues b.rank + 1)
        (pile.cards.drop startIndex)) ∧
    (¬ List.Chain' (fun a b => rankValues a.rank = rankValues b.rank + 1)
        (pile.cards.drop startIndex) → getMovableCards pile startIndex = []) ∧
    (∀ c ∈ getMovableCards pile startIndex, c.faceUp = true) := by
  refine ⟨?_, ?_, ?_⟩
  · constructor
    · intro h
      by_contra hc
      rw [← descendingByOne_iff_chain] at hc
      unfold getMovableCards at h
      simp only [Bool.not_eq_true] at hc
      rw [if_neg (by simp [hc])] at h
      -- the result was [], so the dropped suffix is [] and the chain is trivial
      rw [← h] at hc
      simp [descendingByOne] at hc
    · intro h
      unfold getMovableCards
      rw [if_pos ((descendingByOne_iff_chain _).mpr h)]
  · intro h
    unfold getMovableCards
    rw [if_neg]
    rw [← descendingByOne_iff_chain] at h
    simp [h]
  · intro c hc
    apply hup
    unfold getMovableCards at hc
    by_cases hd : descendingByOne (pile.cards.drop startIndex) = true
    · rwa [if_pos hd] at hc
    · rw [if_neg hd] at hc; cases hc

/-- Witness for C4 at a concrete pile: `[5♠, 4♥, 3♠]` face up from index 0 is
a movable chain. -/
theorem getMovableCards_spec_witness :
    (∀ c ∈ (Pile.mk [⟨0, .spades, .r5, true⟩, ⟨1, .hearts, .r4, true⟩,
        ⟨2, .spades, .r3, true⟩]).cards.drop 0, c.faceUp = true) ∧
    getMovableCards (Pile.mk [⟨0, .spades, .r5, true⟩, ⟨1, .hearts, .r4, true⟩,
        ⟨2, .spades, .r3, true⟩]) 0 =
      [⟨0, .spades, .r5, true⟩, ⟨1, .hearts, .r4, true⟩, ⟨2, .spades, .r3, true⟩] := by
  have hup : ∀ c ∈ (Pile.mk [⟨0, .spades, .r5, true⟩, ⟨1, .hearts, .r4, true⟩,
      ⟨2, .spades, .r3, true⟩]).cards.drop 0, c.faceUp = true := by decide
  refine ⟨hup, ?_⟩
  have h := (getMovableCards_spec (Pile.mk [⟨0, .spades, .r5, true⟩,
    ⟨1, .hearts, .r4, true⟩, ⟨2, .spades, .r3, true⟩]) 0 hup).1
  exact h.mpr ((descendingByOne_iff_chain _).mp (by decide))

/-- C6 counterexample: the claim says the hard deck has 8 cards per suit, but
`createDeck('hard')` assigns each suit to 2 of the 8 sub-decks, giving 26
spades (and 8 ≠ 26). -/
theorem createDeck_hard_not_eight_per_suit :
    (createDeck .hard 0).countP (fun c => c.suit == Suit.spades) = 26 ∧
    ¬ (createDeck .hard 0).countP (fun c => c.suit == Suit.spades) = 8 := by
  constructor
  · rfl
  · decide

/-- C6 (amended): for every difficulty `createDeck` yields exactly 104 face-down
cards in 8 sub-decks, each sub-deck one copy of each of the 13 ranks in a
single suit; cards-per-suit is 26/26/26/26 for hard, 52/52 for medium and
104 for easy. -/
theorem createDeck_spec (d : Difficulty) (startId : Nat) :
    (createDeck d startId).length = 104 ∧
    (∀ c ∈ createDeck d startId, c.faceUp = false) ∧
    (∀ k, k < 8 →
      (((createDeck d startId).drop (13 * k)).take 13).map (·.rank) = ranks ∧
      ∃ su, (((createDeck d startId).drop (13 * k)).take 13).map (·.suit) =
        List.replicate 13 su) ∧
    (∀ su, (createDeck d startId).countP (fun c => c.suit == su) =
      match d with
      | .hard => 26
      | .medium => if su = .spades ∨ su = .hearts then 52 else 0
      | .easy => if su = .spades then 104 else 0) := by
  have hdown : ∀ (d' : Difficulty), ∀ c ∈ createDeck d' startId, c.faceUp = false := by
    intro d' c hc
    have hall : (createDeck d' startId).all (fun c => c.faceUp == false) = true := by
      cases d' <;> rfl
    simpa using List.all_eq_true.mp hall c hc
  refine ⟨?_, hdown d, ?_, ?_⟩
  · cases d <;> rfl
  · intro k hk
    cases d <;> interval_cases k <;> exact ⟨rfl, ⟨_, rfl⟩⟩
  · intro su
    cases d <;> cases su <;> rfl

theorem initializeGame_tableau_getD (deck : List Card) (d : Difficulty) (col : Nat)
    (h : col < 10) :
    (initializeGame deck d).tableau.getD col ⟨[]⟩ = dealtPile deck col := by
  simp [initializeGame, List.getD_eq_getElem?_getD, List.getElem?_map,
    List.getElem?_range, h]

theorem colStart_bound (col : Nat) (h : col < 10) :
    colStart col + (if col < 4 then 6 else 5) ≤ 54 := by
  unfold colStart
  by_cases h4 : col < 4 <;> simp [h4] <;> omega

theorem dealtPile_length (deck : List Card) (col : Nat) (h : col < 10)
    (hd : deck.length = 104) :
    (dealtPile deck col).cards.length = if col < 4 then 6 else 5 := by
  have hb := colStart_bound col h
  by_cases h4 : col < 4 <;> simp [dealtPile, h4, hd] <;>
    [skip; simp [h4] at hb] <;> omega

theorem dealtPile_faceUp (deck : List Card) (col : Nat) (i : Nat)
    (hi : i < (dealtPile deck col).cards.length) :
    ((dealtPile deck col).cards.getD i dummyCard).faceUp = true ↔
      i = (if col < 4 then 6 else 5) - 1 := by
  rw [List.getD_eq_getElem _ _ hi]
  by_cases h4 : col < 4 <;>
    simp [dealtPile, h4, List.getElem_map, List.getElem_enum]

/-- C7: `initializeGame` deals 6 cards to each of the first 4 piles and 5 to
the remaining 6 (54 tableau cards total), leaves exactly 50 cards as the
stock, turns exactly the last-dealt card of each pile face up, and starts
with `moves = 0`, `gameWon = false` and no completed sequences. -/
theorem initializeGame_spec (deck : List Card) (d : Difficulty) (hd : deck.length = 104) :
    (initializeGame deck d).tableau.length = 10 ∧
    (∀ col, col < 10 →
      ((initializeGame deck d).tableau.getD col ⟨[]⟩).cards.length =
        if col < 4 then 6 else 5) ∧
    ((initializeGame deck d).tableau.map (fun p => p.cards.length)).sum = 54 ∧
    (initializeGame deck d).stock.length = 50 ∧
    (∀ col, col < 10 →
      ∀ i, i < ((initializeGame deck d).tableau.getD col ⟨[]⟩).cards.length →
      ((((initializeGame deck d).tableau.getD col ⟨[]⟩).cards.getD i dummyCard).faceUp = true ↔
        i = ((initializeGame deck d).tableau.getD col ⟨[]⟩).cards.length - 1)) ∧
    (initializeGame deck d).moves = 0 ∧
    (initializeGame deck d).gameWon = false ∧
    (initializeGame deck d).completedSequences = [] := by
  refine ⟨by simp [initializeGame], ?_, ?_, ?_, ?_, rfl, rfl, rfl⟩
  · intro col h
    rw [initializeGame_tableau_getD deck d col h]
    exact dealtPile_length deck col h hd
  · have hmap : (initializeGame deck d).tableau.map (fun p => p.cards.length) =
        (List.range 10).map (fun col => if col < 4 then 6 else 5) := by
      show ((List.range 10).map (dealtPile deck)).map (fun p => p.cards.length) = _
      rw [List.map_map]
      apply List.map_congr_left
      intro col hcol
      exact dealtPile_length deck col (List.mem_range.mp hcol) hd
    rw [hmap]; rfl
  · simp [initializeGame, hd]
  · intro col h i hi
    rw [initializeGame_tableau_getD deck d col h] at hi ⊢
    rw [dealtPile_length deck col h hd]
    exact dealtPile_faceUp deck col i hi

/-- Witness for C7 on the concrete (unshuffled) easy deck. -/
theorem initializeGame_spec_witness :
    (createDeck .easy 0).length = 104 ∧
    (initializeGame (createDeck .easy 0) .easy).stock.length = 50 ∧
    ((initializeGame (createDeck .easy 0) .easy).tableau.getD 0 ⟨[]⟩).cards.length = 6 := by
  have h := initializeGame_spec (createDeck .easy 0) .easy (by rfl)
  exact ⟨by rfl, h.2.2.2.1, by simpa using h.2.1 0 (by decide)⟩

theorem rankValues_inj (a b : Rank) (h : rankValues a = rankValues b) : a = b := by
  revert a b h
  decide

theorem ranks_reverse_getD_value :
    ∀ j, j < 13 → rankValues (ranks.reverse.getD j .A) = 13 - j := by
  decide

theorem windowOk_iff (cards : List Card) (i : Nat) :
    windowOk cards i = true ↔ IsCompleteWindow cards i := by
  constructor
  · intro h
    unfold windowOk at h
    rcases hs : (cards.drop i).take 13 with _ | ⟨c, rest⟩
    · rw [hs] at h; simp at h
    · rw [hs] at h
      simp only [Bool.and_eq_true, beq_iff_eq, List.all_eq_true] at h
      obtain ⟨hface, hsuit, hrank⟩ := h
      have hlen13 : (c :: rest).length = 13 := by
        have := congrArg List.length hrank
        simpa [ranks] using this
      have htake : ((cards.drop i).take 13).length = 13 := by rw [hs]; exact hlen13
      have hbound : i + 13 ≤ cards.length := by
        simp only [List.length_take, List.length_drop] at htake
        omega
      have hij : ∀ j, j < 13 → i + j < cards.length := by intro j hj; omega
      have hjc : ∀ j, j < 13 → j < (c :: rest).length := by
        intro j hj; rw [hlen13]; exact hj
      have hjt : ∀ j, j < 13 → j < ((cards.drop i).take 13).length := by
        intro j hj; rw [htake]; exact hj
      have helem : ∀ j, j < 13 → windowCard cards (i + j) = (c :: rest).getD j dummyCard := by
        intro j hj
        have hgd : ((cards.drop i).take 13).getD j dummyCard = (c :: rest).getD j dummyCard :=
          congrArg (fun l => l.getD j dummyCard) hs
        rw [windowCard, List.getD_eq_getElem cards dummyCard (hij j hj), ← hgd,
          List.getD_eq_getElem _ dummyCard (hjt j hj), List.getElem_take, List.getElem_drop]
      have hmem : ∀ j, j < 13 → (c :: rest).getD j dummyCard ∈ c :: rest := by
        intro j hj
        rw [List.getD_eq_getElem _ dummyCard (hjc j hj)]
        exact List.getElem_mem _
      have hc0 : windowCard cards i = c := by
        have h0 := helem 0 (by omega)
        simpa using h0
      refine ⟨hbound, ?_, ?_, ?_⟩
      · intro j hj
        rw [helem j hj]
        exact hface _ (hmem j hj)
      · intro j hj
        rw [helem j hj, hc0]
        exact hsuit _ (hmem j hj)
      · intro j hj
        rw [helem j hj]
        have hmap : ((c :: rest).map (·.rank)).getD j Rank.A = ranks.reverse.getD j Rank.A :=
          congrArg (fun l => l.getD j Rank.A) hrank
        have hb3 : j < ((c :: rest).map (·.rank)).length := by
          rw [List.length_map]; exact hjc j hj
        rw [List.getD_eq_getElem _ Rank.A hb3, List.getElem_map] at hmap
        rw [List.getD_eq_getElem _ dummyCard (hjc j hj)]
        rw [hmap]
        exact ranks_reverse_getD_value j hj
  · rintro ⟨hbound, hface, hsuit, hrank⟩
    have htake : ((cards.drop i).take 13).length = 13 := by
      simp only [List.length_take, List.length_drop]
      omega
    have hij : ∀ j, j < 13 → i + j < cards.length := by intro j hj; omega
    have hjt : ∀ j, j < 13 → j < ((cards.drop i).take 13).length := by
      intro j hj; rw [htake]; exact hj
    have helem : ∀ j, (hj : j < 13) →
        ((cards.drop i).take 13).getD j dummyCard = windowCard cards (i + j) := by
      intro j hj
      rw [windowCard, List.getD_eq_getElem cards dummyCard (hij j hj),
        List.getD_eq_getElem _ dummyCard (hjt j hj), List.getElem_take, List.getElem_drop]
    obtain ⟨c, rest, hs⟩ :=
      List.exists_cons_of_ne_nil (l := (cards.drop i).take 13)
        (by intro hnil; rw [hnil] at htake; simp at htake)
    have hlen13 : (c :: rest).length = 13 := by rw [← hs]; exact htake
    have hjc : ∀ j, j < 13 → j < (c :: rest).length := by
      intro j hj; rw [hlen13]; exact hj
    have helem2 : ∀ j, (hj : j < 13) →
        (c :: rest).getD j dummyCard = windowCard cards (i + j) := by
      intro j hj
      rw [← hs]
      exact helem j hj
    have hc0 : c = windowCard cards i := by
      have h0 := helem2 0 (by omega)
      simpa using h0
    have hmemidx : ∀ x ∈ c :: rest, ∃ j, j < 13 ∧ x = windowCard cards (i + j) := by
      intro x hx
      obtain ⟨j, hj, hxe⟩ := List.mem_iff_getElem.mp hx
      have hj13 : j < 13 := by rw [← hlen13]; exact hj
      refine ⟨j, hj13, ?_⟩
      rw [← helem2 j hj13, List.getD_eq_getElem _ dummyCard hj, hxe]
    unfold windowOk
    rw [hs]
    simp only [Bool.and_eq_true, beq_iff_eq, List.all_eq_true]
    refine ⟨?_, ?_, ?_⟩
    · intro x hx
      obtain ⟨j, hj, hxe⟩ := hmemidx x hx
      rw [hxe]
      exact hface j hj
    · intro x hx
      obtain ⟨j, hj, hxe⟩ := hmemidx x hx
      rw [hxe, hc0]
      exact hsuit j hj
    · apply List.ext_getElem
      · have h13 := hlen13
        simp only [List.length_cons] at h13
        simp [ranks, h13]
      · intro j hjl hjr
        have hj : j < 13 := by simpa [ranks] using hjr
        rw [List.getElem_map]
        apply rankValues_inj
        rw [← List.getD_eq_getElem _ dummyCard (hjc j hj), helem2 j hj]
        rw [← List.getD_eq_getElem _ Rank.A hjr]
        rw [hrank j hj, ranks_reverse_getD_value j hj]

theorem seqScan_eq_none_iff (cards : List Card) (i : Nat) :
    seqScan cards i = none ↔ ∀ k, k ≤ i → windowOk cards k = false := by
  induction i with
  | zero =>
    unfold seqScan
    by_cases hw : windowOk cards 0 = true
    · simp [hw]
    · simp only [Bool.not_eq_true] at hw
      simp only [hw, if_neg]
      constructor
      · intro _ k hk
        interval_cases k
        exact hw
      · intro _; rfl
  | succ i ih =>
    unfold seqScan
    by_cases hw : windowOk cards (i+1) = true
    · simp only [hw, if_pos]
      constructor
      · intro h; cases h
      · intro h
        exact absurd hw (by simp [h (i+1) (Nat.le_refl _)])
    · simp only [Bool.not_eq_true] at hw
      rw [if_neg (by simp [hw])]
      rw [ih]
      constructor
      · intro h k hk
        rcases Nat.lt_or_ge k (i+1) with h1 | h1
        · exact h k (by omega)
        · have : k = i + 1 := by omega
          rw [this]; exact hw
      · intro h k hk
        exact h k (by omega)

theorem seqScan_eq_some_iff (cards : List Card) (i j : Nat) :
    seqScan cards i = some j ↔
      j ≤ i ∧ windowOk cards j = true ∧
        ∀ k, j < k → k ≤ i → windowOk cards k = false := by
  induction i with
  | zero =>
    unfold seqScan
    by_cases hw : windowOk cards 0 = true
    · simp only [hw, if_pos, Option.some.injEq]
      constructor
      · rintro rfl
        exact ⟨Nat.le_refl _, hw, by omega⟩
      · rintro ⟨h1, _, _⟩; omega
    · simp only [Bool.not_eq_true] at hw
      rw [if_neg (by simp [hw])]
      constructor
      · intro h; cases h
      · rintro ⟨h1, h2, _⟩
        interval_cases j
        rw [hw] at h2; cases h2
  | succ i ih =>
    unfold seqScan
    by_cases hw : windowOk cards (i+1) = true
    · simp only [hw, if_pos, Option.some.injEq]
      constructor
      · rintro rfl
        exact ⟨Nat.le_refl _, hw, by omega⟩
      · rintro ⟨h1, h2, h3⟩
        by_contra hne
        have hji : j < i + 1 := by omega
        have := h3 (i+1) (by omega) (Nat.le_refl _)
        rw [hw] at this; cases this
    · simp only [Bool.not_eq_true] at hw
      rw [if_neg (by simp [hw])]
      rw [ih]
      constructor
      · rintro ⟨h1, h2, h3⟩
        refine ⟨by omega, h2, ?_⟩
        intro k hk1 hk2
        rcases Nat.lt_or_ge k (i+1) with hc | hc
        · exact h3 k hk1 (by omega)
        · have : k = i + 1 := by omega
          rw [this]; exact hw
      · rintro ⟨h1, h2, h3⟩
        have hji : j ≤ i := by
          rcases Nat.lt_or_ge j (i+1) with hc | hc
          · omega
          · have : j = i + 1 := by omega
            rw [this] at h2; rw [h2] at hw; cases hw
        exact ⟨hji, h2, fun k hk1 hk2 => h3 k hk1 (by omega)⟩

/-- C3 (amended, part 1): `checkForCompletedSequence` finds a completed run
iff a complete window exists, and the window it reports is the TOP-most valid
window (largest start index), with the window's suit. -/
theorem checkForCompletedSequence_spec (pile : Pile) :
    ((checkForCompletedSequence pile).completed = true ↔
      ∃ i, IsCompleteWindow pile.cards i) ∧
    (∀ i : Nat, ∀ su : Suit,
      checkForCompletedSequence pile = ⟨true, (i : Int), some su⟩ →
      IsCompleteWindow pile.cards i ∧ su = (windowCard pile.cards i).suit ∧
      ∀ j, IsCompleteWindow pile.cards j → j ≤ i) := by
  unfold checkForCompletedSequence
  by_cases hlen : pile.cards.length < 13
  · rw [if_pos hlen]
    constructor
    · simp only [Bool.false_eq_true, false_iff]
      rintro ⟨i, hw, -⟩
      omega
    · intro i su h
      cases h
  · rw [if_neg hlen]
    rcases hscan : seqScan pile.cards (pile.cards.length - 13) with _ | k
    · rw [seqScan_eq_none_iff] at hscan
      constructor
      · simp only [Bool.false_eq_true, false_iff]
        rintro ⟨i, hwin⟩
        have hb : i + 13 ≤ pile.cards.length := hwin.1
        have := hscan i (by omega)
        rw [(windowOk_iff pile.cards i).mpr hwin] at this
        cases this
      · intro i su h
        cases h
    · rw [seqScan_eq_some_iff] at hscan
      obtain ⟨hk1, hk2, hk3⟩ := hscan
      constructor
      · simp only [true_iff]
        exact ⟨k, (windowOk_iff pile.cards k).mp hk2⟩
      · intro i su h
        injection h with h1 h2 h3
        have hik : i = k := by exact_mod_cast h2.symm
        subst hik
        refine ⟨(windowOk_iff pile.cards i).mp hk2, by injection h3 with h4; exact h4.symm, ?_⟩
        intro j hj
        by_contra hc
        have hjb : j + 13 ≤ pile.cards.length := hj.1
        have := hk3 j (by omega) (by omega)
        rw [(windowOk_iff pile.cards j).mpr hj] at this
        cases this

/-- Witness for C3's amended theorem at the two-window pile: the reported
window is the one at start index 13 and every window start is ≤ 13. -/
theorem checkForCompletedSequence_spec_witness :
    IsCompleteWindow twoWindowPile.cards 13 ∧
    Suit.hearts = (windowCard twoWindowPile.cards 13).suit ∧
    ∀ j, IsCompleteWindow twoWindowPile.cards j → j ≤ 13 :=
  (checkForCompletedSequence_spec twoWindowPile).2 13 .hearts (by decide)

/-- C3 counterexample: a pile made of two stacked complete runs has valid
windows at start indices 0 and 13; the claim says the bottom-most (0) wins,
but the code returns start index 13 (the top-most). -/
theorem checkForCompletedSequence_not_bottom_most :
    IsCompleteWindow twoWindowPile.cards 0 ∧
    IsCompleteWindow twoWindowPile.cards 13 ∧
    (checkForCompletedSequence twoWindowPile).startIndex = 13 ∧
    ¬ (checkForCompletedSequence twoWindowPile).startIndex = 0 := by
  refine ⟨by decide, by decide, by decide, by decide⟩

/-- Witness for C6's amended theorem at concrete inputs. -/
theorem createDeck_spec_witness :
    (createDeck .hard 0).length = 104 ∧
    (((createDeck .hard 0).drop (13 * 2)).take 13).map (·.rank) = ranks :=
  ⟨(createDeck_spec .hard 0).1, ((createDeck_spec .hard 0).2.2.1 2 (by omega)).1⟩

/-- C10: with at least 10 stock cards (and the usual 10 piles),
`dealFromStock` appends exactly the `i`-th stock card, turned face up, to
pile `i`, removes the first 10 stock cards, increments `moves` by one, and
leaves `completedSequences`, `gameWon` and `difficulty` unchanged. -/
theorem dealFromStock_frame (s : GameState) (h10 : s.tableau.length = 10)
    (hstock : 10 ≤ s.stock.length) :
    (dealFromStock s).tableau.length = 10 ∧
    (∀ i, i < 10 →
      ((dealFromStock s).tableau.getD i ⟨[]⟩).cards =
        (s.tableau.getD i ⟨[]⟩).cards ++ [{ s.stock.getD i dummyCard with faceUp := true }]) ∧
    (dealFromStock s).stock = s.stock.drop 10 ∧
    (dealFromStock s).moves = s.moves + 1 ∧
    (dealFromStock s).completedSequences = s.completedSequences ∧
    (dealFromStock s).gameWon = s.gameWon ∧
    (dealFromStock s).difficulty = s.difficulty := by
  have hn : ¬ s.stock.length < 10 := by omega
  unfold dealFromStock
  rw [if_neg hn]
  refine ⟨by simpa using h10, ?_, rfl, rfl, rfl, rfl, rfl⟩
  intro i hi
  have hb : i < (s.tableau.mapIdx (fun index pile =>
      (⟨pile.cards ++ [{ s.stock.getD index dummyCard with faceUp := true }]⟩ : Pile))).length := by
    rw [List.length_mapIdx, h10]; exact hi
  have hb2 : i < s.tableau.length := by rw [h10]; exact hi
  rw [List.getD_eq_getElem _ _ hb, List.getElem_mapIdx, List.getD_eq_getElem _ _ hb2]

/-- Witness for C10: dealing onto ten empty piles from a 13-card stock. -/
theorem dealFromStock_frame_witness :
    (dealFromStock
      { tableau := List.replicate 10 ⟨[]⟩, stock := fullRun .spades 0,
        completedSequences := [], moves := 0, gameWon := false,
        difficulty := .easy }).stock = (fullRun .spades 0).drop 10 ∧
    ((dealFromStock
      { tableau := List.replicate 10 ⟨[]⟩, stock := fullRun .spades 0,
        completedSequences := [], moves := 0, gameWon := false,
        difficulty := .easy }).tableau.getD 0 ⟨[]⟩).cards =
      [{ (fullRun .spades 0).getD 0 dummyCard with faceUp := true }] := by
  have h := dealFromStock_frame
    { tableau := List.replicate 10 ⟨[]⟩, stock := fullRun .spades 0,
      completedSequences := [], moves := 0, gameWon := false, difficulty := .easy }
    (by decide) (by decide)
  exact ⟨h.2.2.1, by simpa using h.2.1 0 (by decide)⟩

theorem checkCompletedSequences_history_length (st : Store) :
    (checkCompletedSequences st).history.length = st.history.length := by
  simp only [checkCompletedSequences]
  by_cases hch : ((st.state.tableau.mapIdx ccsPile).filterMap Prod.snd).isEmpty = true
  · rw [if_pos hch]
  · rw [if_neg hch]
    rcases hl : st.history.getLast? with _ | lastm
    · simp
    · have hne : st.history ≠ [] := by
        intro h; rw [h] at hl; simp at hl
      have hpos : 0 < st.history.length := List.length_pos.mpr hne
      simp only [hl, List.length_append, List.length_dropLast, List.length_cons,
        List.length_nil]
      omega

theorem deal_history_length (st : Store) (hc : canDeal st.state = true) :
    (deal st).history.length = st.history.length + 1 := by
  simp only [deal]
  rw [if_neg (by simp [hc]), checkCompletedSequences_history_length]
  simp

theorem canDeal_iff (s : GameState) :
    canDeal s = true ↔ (10 ≤ s.stock.length ∧ ∀ pile ∈ s.tableau, pile.cards ≠ []) := by
  unfold canDeal
  simp only [Bool.and_eq_true, decide_eq_true_eq, List.all_eq_true]
  constructor
  · rintro ⟨h1, h2⟩
    refine ⟨h1, fun pile hp => ?_⟩
    have h3 := h2 pile hp
    intro hnil
    rw [hnil] at h3
    simp at h3
  · rintro ⟨h1, h2⟩
    refine ⟨h1, fun pile hp => ?_⟩
    have h3 := h2 pile hp
    cases hc : pile.cards with
    | nil => exact absurd hc h3
    | cons a t => simp [hc]

/-- C2: the `deal` operation is rejected as an exact no-op precisely when the
stock has fewer than 10 cards or some tableau pile is empty; when both
preconditions hold it is not a no-op (it pushes a history record). -/
theorem deal_legal_iff (st : Store) :
    deal st = st ↔
      ¬ (10 ≤ st.state.stock.length ∧ ∀ pile ∈ st.state.tableau, pile.cards ≠ []) := by
  constructor
  · intro heq hpre
    have hc : canDeal st.state = true := (canDeal_iff st.state).mpr hpre
    have hlen := deal_history_length st hc
    rw [heq] at hlen
    omega
  · intro hpre
    have hc : ¬ canDeal st.state = true := fun h => hpre ((canDeal_iff st.state).mp h)
    rw [deal, if_pos hc]

/-- C5: ordinary invalid input never changes the game state: `moveCards`
without a selection returns the store untouched; with a selection, a
same-pile target, an empty movable run, or an illegal placement reduce to
`clearSelection` (state and history unchanged, pending selection cleared); an
illegal deal and an undo on an empty history return the store untouched.  (In
the total-function embedding no operation can throw.) -/
theorem invalid_input_noop :
    (∀ st t, (st.selectedPile = none ∨ st.selectedCardIndex = none) →
      moveCards st t = st) ∧
    (∀ st t sp ci, st.selectedPile = some sp → st.selectedCardIndex = some ci →
      sp = t → moveCards st t = clearSelection st) ∧
    (∀ st t sp ci, st.selectedPile = some sp → st.selectedCardIndex = some ci →
      sp ≠ t → getMovableCards (st.state.tableau.getD sp ⟨[]⟩) ci = [] →
      moveCards st t = clearSelection st) ∧
    (∀ st t sp ci c cs, st.selectedPile = some sp → st.selectedCardIndex = some ci →
      sp ≠ t → getMovableCards (st.state.tableau.getD sp ⟨[]⟩) ci = c :: cs →
      canPlaceCard c ((st.state.tableau.getD t ⟨[]⟩).cards.getLast?) = false →
      moveCards st t = clearSelection st) ∧
    (∀ st, canDeal st.state = false → deal st = st) ∧
    (∀ st, st.history = [] → undo st = st) := by
  refine ⟨?_, ?_, ?_, ?_, ?_, ?_⟩
  · intro st t h
    rcases h with h | h
    · simp [moveCards, h]
    · cases hsp : st.selectedPile with
      | none => simp [moveCards, hsp]
      | some sp => simp [moveCards, hsp, h]
  · intro st t sp ci hsp hci hspt
    simp [moveCards, hsp, hci, hspt]
  · intro st t sp ci hsp hci hne hmv
    simp only [List.getD_eq_getElem?_getD] at hmv
    simp [moveCards, hsp, hci, hne, hmv]
  · intro st t sp ci c cs hsp hci hne hmv hcp
    simp only [List.getD_eq_getElem?_getD] at hmv hcp
    simp [moveCards, hsp, hci, hne, hmv, hcp]
  · intro st h
    rw [deal, if_pos (by simp [h])]
  · intro st h
    simp [undo, h]

/-- Witness for C5 at a concrete empty store. -/
theorem invalid_input_noop_witness :
    moveCards ⟨⟨[], [], [], 0, false, .easy⟩, [], none, none⟩ 0 =
      ⟨⟨[], [], [], 0, false, .easy⟩, [], none, none⟩ ∧
    undo ⟨⟨[], [], [], 0, false, .easy⟩, [], none, none⟩ =
      ⟨⟨[], [], [], 0, false, .easy⟩, [], none, none⟩ :=
  ⟨invalid_input_noop.1 _ 0 (Or.inl rfl), invalid_input_noop.2.2.2.2.2 _ rfl⟩

theorem getSequenceLengthFromEnd_pos_iff (pile : Pile) (top : Card)
    (h : pile.cards.getLast? = some top) :
    0 < getSequenceLengthFromEnd pile ↔ top.faceUp = true := by
  unfold getSequenceLengthFromEnd
  rcases hr : pile.cards.reverse with _ | ⟨lastCard, rest⟩
  · rw [List.reverse_eq_nil_iff] at hr
    rw [hr] at h
    simp at h
  · have hlast : pile.cards.getLast? = some lastCard := by
      rw [← List.head?_reverse, hr]
      rfl
    rw [h] at hlast
    injection hlast with h2
    subst h2
    by_cases hf : top.faceUp = true
    · simp [hf]
    · simp only [Bool.not_eq_true] at hf
      simp [hf]


theorem moveCandidate_eq_specScoreCore (P T : Pile) (src cardIdx tgt : Nat)
    (hface : (P.cards.getD cardIdx dummyCard).faceUp = true)
    (first : Card) (tail : List Card)
    (hrun : getMovableCards P cardIdx = first :: tail) :
    (moveCandidate P T src cardIdx tgt (first :: tail) first
        (decide (0 < cardIdx) && !(P.cards.getD (cardIdx - 1) dummyCard).faceUp)).map
      projMove =
    (specScoreCore P T cardIdx (tgt == src)).map (fun p => (src, cardIdx, tgt, p)) := by
  simp only [List.getD_eq_getElem?_getD] at hface
  have hwf : (decide (0 < cardIdx) && !(P.cards.getD (cardIdx - 1) dummyCard).faceUp) = true ↔
      (0 < cardIdx ∧ (P.cards[cardIdx - 1]?.getD dummyCard).faceUp = false) := by
    simp [Bool.and_eq_true, List.getD_eq_getElem?_getD]
  by_cases h1 : tgt = src
  · have hss : (tgt == src) = true := by simp [h1]
    simp [moveCandidate, specScoreCore, h1, hss]
  · have hss : (tgt == src) = false := by simp [h1]
    by_cases h2 : canPlaceCard first T.cards.getLast? = true
    · rcases hlast : T.cards.getLast? with _ | top
      · rw [hlast] at h2
        by_cases hf : (decide (0 < cardIdx) && !(P.cards.getD (cardIdx - 1) dummyCard).faceUp)
            = true
        · have hfp := hwf.mp hf
          simp [moveCandidate, specScoreCore, h1, hss, h2, hlast, hrun, hf, hfp, hface,
            projMove]
        · have hnf : ¬ (0 < cardIdx ∧ (P.cards[cardIdx - 1]?.getD dummyCard).faceUp = false) :=
            fun hc => hf (hwf.mpr hc)
          simp [moveCandidate, specScoreCore, h1, hss, h2, hlast, hrun, hf, hnf, hface,
            projMove]
      · rw [hlast] at h2
        by_cases hf : (decide (0 < cardIdx) && !(P.cards.getD (cardIdx - 1) dummyCard).faceUp)
            = true
        · have hfp := hwf.mp hf
          by_cases h3 : first.suit = top.suit <;>
            simp [moveCandidate, specScoreCore, h1, hss, h2, hlast, hrun, hf, hfp, h3, hface,
              projMove]
        · have hnf : ¬ (0 < cardIdx ∧ (P.cards[cardIdx - 1]?.getD dummyCard).faceUp = false) :=
            fun hc => hf (hwf.mpr hc)
          by_cases h3 : first.suit = top.suit
          · by_cases hskip : (0 < cardIdx ∧
                (P.cards[cardIdx - 1]?.getD dummyCard).faceUp = true ∧
                (P.cards[cardIdx - 1]?.getD dummyCard).suit = first.suit ∧
                rankValues (P.cards[cardIdx - 1]?.getD dummyCard).rank =
                  rankValues first.rank + 1)
            · simp [moveCandidate, specScoreCore, h1, hss, h2, hlast, hrun, hf, hnf, h3, hskip,
                hface, projMove, List.getD_eq_getElem?_getD]
            · by_cases htop : top.faceUp = true
              · have hpos := (getSequenceLengthFromEnd_pos_iff T top hlast).mpr htop
                have hlt : ((first :: tail).length <
                    getSequenceLengthFromEnd T + (first :: tail).length) := by omega
                have hskip2 : ¬ (0 < cardIdx ∧
                    (P.cards[cardIdx - 1]?.getD dummyCard).faceUp = true ∧
                    (P.cards[cardIdx - 1]?.getD dummyCard).suit = top.suit ∧
                    rankValues (P.cards[cardIdx - 1]?.getD dummyCard).rank =
                      rankValues first.rank + 1) := by
                  rw [← h3]; exact hskip
                have hchain : (0 < cardIdx →
                    (P.cards[cardIdx - 1]?.getD dummyCard).faceUp = true →
                    (P.cards[cardIdx - 1]?.getD dummyCard).suit = top.suit →
                    ¬ rankValues (P.cards[cardIdx - 1]?.getD dummyCard).rank =
                      rankValues first.rank + 1) := by
                  intro ha hb hc hd
                  exact hskip2 ⟨ha, hb, hc, hd⟩
                simp [moveCandidate, specScoreCore, h1, hss, h2, hlast, hrun, hf, hnf, h3,
                  hskip2, hchain, htop, hface, projMove, hlt, hpos,
                  List.getD_eq_getElem?_getD]
              · have hz : getSequenceLengthFromEnd T = 0 := by
                  by_contra hc
                  exact htop ((getSequenceLengthFromEnd_pos_iff T top hlast).mp
                    (Nat.pos_of_ne_zero hc))
                simp [moveCandidate, specScoreCore, h1, hss, h2, hlast, hrun, hf, hnf, h3,
                  hskip, htop, hface, projMove, hz, List.getD_eq_getElem?_getD]
          · simp [moveCandidate, specScoreCore, h1, hss, h2, hlast, hrun, hf, hnf, h3, hface,
              projMove]
    · have h2' : canPlaceCard first T.cards.getLast? = false := by
        simp only [Bool.not_eq_true] at h2
        exact h2
      simp [moveCandidate, specScoreCore, h1, hss, h2', hrun, hface, projMove]

theorem flatMap_congr_mem {α β : Type} (l : List α) (f g : α → List β)
    (h : ∀ x ∈ l, f x = g x) : l.flatMap f = l.flatMap g := by
  induction l with
  | nil => rfl
  | cons a t ih =>
    simp only [List.flatMap_cons]
    rw [h a (by simp), ih (fun x hx => h x (by simp [hx]))]

theorem filterMap_congr_mem {α β : Type} (l : List α) (f g : α → Option β)
    (h : ∀ x ∈ l, f x = g x) : l.filterMap f = l.filterMap g := by
  induction l with
  | nil => rfl
  | cons a t ih =>
    simp only [List.filterMap_cons]
    rw [h a (by simp), ih (fun x hx => h x (by simp [hx]))]

theorem specScoreCore_eq_none_of_face (P T : Pile) (cardIdx : Nat) (b : Bool)
    (h : ¬ (P.cards.getD cardIdx dummyCard).faceUp = true) :
    specScoreCore P T cardIdx b = none := by
  unfold specScoreCore
  exact if_neg (fun hc => h hc.1)

theorem specScoreCore_eq_none_of_run_nil (P T : Pile) (cardIdx : Nat) (b : Bool)
    (h : getMovableCards P cardIdx = []) :
    specScoreCore P T cardIdx b = none := by
  unfold specScoreCore
  exact if_neg (fun hc => hc.2.1 h)

theorem rawMoves_proj_eq_specMoves (state : GameState) :
    (rawMoves state).map projMove = specMoves state := by
  unfold rawMoves specMoves
  rw [List.map_flatMap]
  apply flatMap_congr_mem
  intro src hsrc
  rw [List.map_flatMap]
  apply flatMap_congr_mem
  intro cardIdx hci
  by_cases hface : ((state.tableau.getD src ⟨[]⟩).cards.getD cardIdx dummyCard).faceUp = true
  · rw [if_neg (by simpa using hface)]
    rcases hrun : getMovableCards (state.tableau.getD src ⟨[]⟩) cardIdx with _ | ⟨first, tail⟩
    · rw [if_pos (by simp)]
      simp only [List.map_nil]
      symm
      rw [List.filterMap_eq_nil_iff]
      intro tgt htgt
      rw [specScore, specScoreCore_eq_none_of_run_nil _ _ _ _ hrun]
      rfl
    · rw [if_neg (by simp)]
      rw [List.map_filterMap]
      apply filterMap_congr_mem
      intro tgt htgt
      rw [specScore]
      have := moveCandidate_eq_specScoreCore (state.tableau.getD src ⟨[]⟩)
        (state.tableau.getD tgt ⟨[]⟩) src cardIdx tgt hface first tail hrun
      simpa using this
  · rw [if_pos (by simpa using hface)]
    simp only [List.map_nil]
    symm
    rw [List.filterMap_eq_nil_iff]
    intro tgt htgt
    rw [specScore, specScoreCore_eq_none_of_face _ _ _ _ hface]
    rfl

theorem projMove_insertDesc (m : MeaningfulMove) (l : List MeaningfulMove) :
    (insertDesc m l).map projMove = insertQuadDesc (projMove m) (l.map projMove) := by
  induction l with
  | nil => rfl
  | cons a t ih =>
    by_cases h : a.priority ≤ m.priority
    · simp [insertDesc, insertQuadDesc, h, projMove]
    · simp [insertDesc, insertQuadDesc, h, projMove, ih]

theorem projMove_sort (l : List MeaningfulMove) :
    (sortByPriorityDesc l).map projMove = sortQuadDesc (l.map projMove) := by
  induction l with
  | nil => rfl
  | cons a t ih =>
    show (insertDesc a (sortByPriorityDesc t)).map projMove =
      insertQuadDesc (projMove a) (sortQuadDesc (t.map projMove))
    rw [projMove_insertDesc, ih]

theorem chain_insertDesc (m : MeaningfulMove) (l : List MeaningfulMove)
    (h : List.Chain' (fun a b => b.priority ≤ a.priority) l) :
    List.Chain' (fun a b => b.priority ≤ a.priority) (insertDesc m l) := by
  induction l with
  | nil => simp [insertDesc]
  | cons a t ih =>
    by_cases hle : a.priority ≤ m.priority
    · rw [insertDesc, if_pos hle, List.chain'_cons]
      exact ⟨hle, h⟩
    · rw [insertDesc, if_neg hle]
      cases t with
      | nil =>
        rw [insertDesc]
        rw [List.chain'_cons]
        exact ⟨by omega, by simp⟩
      | cons b t' =>
        rw [List.chain'_cons] at h
        obtain ⟨hab, hbt⟩ := h
        have hins := ih hbt
        by_cases hbm : b.priority ≤ m.priority
        · rw [insertDesc, if_pos hbm] at hins ⊢
          rw [List.chain'_cons]
          exact ⟨by omega, hins⟩
        · rw [insertDesc, if_neg hbm] at hins ⊢
          rw [List.chain'_cons]
          exact ⟨hab, hins⟩

theorem chain_sortByPriorityDesc (l : List MeaningfulMove) :
    List.Chain' (fun a b => b.priority ≤ a.priority) (sortByPriorityDesc l) := by
  induction l with
  | nil => simp [sortByPriorityDesc]
  | cons a t ih => exact chain_insertDesc a (sortByPriorityDesc t) ih

theorem filter_insertDesc (m : MeaningfulMove) (l : List MeaningfulMove) (p : Nat) :
    (insertDesc m l).filter (fun x => x.priority == p) =
      if m.priority = p then m :: l.filter (fun x => x.priority == p)
      else l.filter (fun x => x.priority == p) := by
  induction l with
  | nil => by_cases h : m.priority = p <;> simp [insertDesc, h]
  | cons a t ih =>
    by_cases hle : a.priority ≤ m.priority
    · rw [insertDesc, if_pos hle]
      by_cases hmp : m.priority = p <;> by_cases hap : a.priority = p <;>
        simp [List.filter_cons, hmp, hap]
    · rw [insertDesc, if_neg hle, List.filter_cons, ih]
      by_cases hmp : m.priority = p
      · have hap : ¬ a.priority = p := by omega
        simp [List.filter_cons, hmp, hap]
      · by_cases hap : a.priority = p <;> simp [List.filter_cons, hmp, hap]

theorem filter_sortByPriorityDesc (l : List MeaningfulMove) (p : Nat) :
    (sortByPriorityDesc l).filter (fun x => x.priority == p) =
      l.filter (fun x => x.priority == p) := by
  induction l with
  | nil => rfl
  | cons a t ih =>
    show (insertDesc a (sortByPriorityDesc t)).filter (fun x => x.priority == p) = _
    rw [filter_insertDesc]
    by_cases hap : a.priority = p
    · rw [if_pos hap, ih]
      simp [hap]
    · rw [if_neg hap, ih]
      simp [hap]

/-- C9 (amended): `findMeaningfulMoves` returns exactly the moves of the
scoring table — with the 60-category condition corrected to "same-suit,
non-flipping move onto a face-up target top card whose run was not already
the tail of a longer same-suit run at the source" — sorted by descending
priority, and ties keep discovery order (the filter at each priority equals
the discovery-order list). -/
theorem findMeaningfulMoves_spec (state : GameState) :
    ((findMeaningfulMoves state).map projMove = sortQuadDesc (specMoves state)) ∧
    List.Chain' (fun a b => b.priority ≤ a.priority) (findMeaningfulMoves state) ∧
    (∀ p, (findMeaningfulMoves state).filter (fun x => x.priority == p) =
      (rawMoves state).filter (fun x => x.priority == p)) :=
  ⟨by rw [findMeaningfulMoves, projMove_sort, rawMoves_proj_eq_specMoves],
   chain_sortByPriorityDesc _,
   fun p => filter_sortByPriorityDesc _ p⟩

/-- C9 counterexample: the code assigns priority 60 to moving the mixed-suit
run [5♠, 4♥] from pile 0 onto the lone 6♠ of pile 1, yet that move does not
strictly grow the destination's contiguous same-suit descending run — the run
has length 1 both before ([6♠]) and after ([6♠, 5♠, 4♥]) the move — so the
claim's scoring table assigns the move no category at all. -/
theorem findMeaningfulMoves_mixed_suit_counterexample :
    (∃ m ∈ findMeaningfulMoves mixedRunState,
      m.sourcePile = 0 ∧ m.cardIndex = 0 ∧ m.targetPile = 1 ∧ m.priority = 60) ∧
    getSequenceLengthFromEnd ⟨[⟨2, .spades, .r6, true⟩, ⟨0, .spades, .r5, true⟩,
      ⟨1, .hearts, .r4, true⟩]⟩ =
      getSequenceLengthFromEnd ⟨[⟨2, .spades, .r6, true⟩]⟩ := by
  exact ⟨by decide, by decide⟩

theorem clearSelection_state (st : Store) :
    (clearSelection st).state = st.state ∧ (clearSelection st).history = st.history :=
  ⟨rfl, rfl⟩

theorem selectCards_state (st : Store) (p i : Nat) :
    (selectCards st p i).state = st.state ∧ (selectCards st p i).history = st.history := by
  simp only [selectCards]
  split
  · exact ⟨rfl, rfl⟩
  · split
    · exact ⟨rfl, rfl⟩
    · exact ⟨rfl, rfl⟩

theorem checkCompletedSequences_stock (st : Store) :
    (checkCompletedSequences st).state.stock = st.state.stock := by
  simp only [checkCompletedSequences]
  split
  · rfl
  · rfl

theorem checkCompletedSequences_history_mem (st : Store) (e : MoveHistory)
    (he : e ∈ (checkCompletedSequences st).history) :
    ∃ e' ∈ st.history, e.htype = e'.htype ∧ e.dealtCards = e'.dealtCards := by
  simp only [checkCompletedSequences] at he
  by_cases hch : ((st.state.tableau.mapIdx ccsPile).filterMap Prod.snd).isEmpty = true
  · rw [if_pos hch] at he
    exact ⟨e, he, rfl, rfl⟩
  · rw [if_neg hch] at he
    simp only [] at he
    rcases hl : st.history.getLast? with _ | lastm
    · rw [hl] at he
      exact ⟨e, he, rfl, rfl⟩
    · rw [hl] at he
      rw [List.mem_append] at he
      rcases he with he | he
      · exact ⟨e, (List.dropLast_sublist st.history).subset he, rfl, rfl⟩
      · simp only [List.mem_singleton] at he
        subst he
        have hmem : lastm ∈ st.history := by
          have hne : st.history ≠ [] := by
            intro hh; rw [hh] at hl; simp at hl
          have := List.getLast?_eq_getLast st.history hne
          rw [this] at hl
          injection hl with hl2
          rw [← hl2]
          exact List.getLast_mem hne
        exact ⟨lastm, hmem, rfl, rfl⟩

theorem moveCards_stock (st : Store) (t : Nat) :
    (moveCards st t).state.stock = st.state.stock := by
  cases hsp : st.selectedPile with
  | none => simp [moveCards, hsp]
  | some sp =>
    cases hci : st.selectedCardIndex with
    | none => simp [moveCards, hsp, hci]
    | some ci =>
      simp only [moveCards, hsp, hci]
      split
      · rfl
      · split
        · rfl
        · split
          · rfl
          · rw [checkCompletedSequences_stock]

theorem moveCards_history_mem (st : Store) (t : Nat) (e : MoveHistory)
    (he : e ∈ (moveCards st t).history) :
    e.htype = none ∨ ∃ e' ∈ st.history, e.htype = e'.htype ∧ e.dealtCards = e'.dealtCards := by
  cases hsp : st.selectedPile with
  | none =>
    simp only [moveCards, hsp] at he
    exact Or.inr ⟨e, he, rfl, rfl⟩
  | some sp =>
    cases hci : st.selectedCardIndex with
    | none =>
      simp only [moveCards, hsp, hci] at he
      exact Or.inr ⟨e, he, rfl, rfl⟩
    | some ci =>
      simp only [moveCards, hsp, hci] at he
      revert he
      split
      · intro he; exact Or.inr ⟨e, he, rfl, rfl⟩
      · split
        · intro he; exact Or.inr ⟨e, he, rfl, rfl⟩
        · split
          · intro he; exact Or.inr ⟨e, he, rfl, rfl⟩
          · intro he
            obtain ⟨e', he', h1, h2⟩ := checkCompletedSequences_history_mem _ e he
            simp only [List.mem_append, List.mem_singleton] at he'
            rcases he' with he' | he'
            · exact Or.inr ⟨e', he', h1, h2⟩
            · subst he'
              exact Or.inl h1

theorem deal_stock (st : Store) (hc : canDeal st.state = true) :
    (deal st).state.stock = st.state.stock.drop 10 := by
  rw [deal, if_neg (by simp [hc])]
  rw [checkCompletedSequences_stock]
  have h10 : 10 ≤ st.state.stock.length := ((canDeal_iff st.state).mp hc).1
  show (dealFromStock st.state).stock = _
  rw [dealFromStock, if_neg (by omega)]

theorem dealtCards_flatten_length (stock : List Card) :
    (((List.range 10).map (fun i => [stock.getD i dummyCard])).flatten).length = 10 := by
  rw [List.length_flatten, List.map_map]
  have hone : (List.length ∘ fun i => [stock.getD i dummyCard]) = fun _ => 1 := by
    funext i; rfl
  rw [hone]
  decide

theorem deal_history_mem (st : Store) (e : MoveHistory)
    (he : e ∈ (deal st).history) :
    (∃ e' ∈ st.history, e.htype = e'.htype ∧ e.dealtCards = e'.dealtCards) ∨
      (e.htype = some "deal" ∧
        e.dealtCards = some ((List.range 10).map (fun i => [st.state.stock.getD i dummyCard]))) := by
  by_cases hc : canDeal st.state = true
  · rw [deal, if_neg (by simp [hc])] at he
    obtain ⟨e', he', h1, h2⟩ := checkCompletedSequences_history_mem _ e he
    simp only [List.mem_append, List.mem_singleton] at he'
    rcases he' with he' | he'
    · exact Or.inl ⟨e', he', h1, h2⟩
    · subst he'
      exact Or.inr ⟨h1, h2⟩
  · rw [deal, if_pos (by simpa using hc)] at he
    exact Or.inl ⟨e, he, rfl, rfl⟩

theorem undo_stock (st : Store) :
    (undo st).state.stock = st.state.stock ∨
      ∃ e, st.history.getLast? = some e ∧
        (e.htype == some "deal" && e.dealtCards.isSome) = true ∧
        (undo st).state.stock = (e.dealtCards.getD []).flatten ++ st.state.stock := by
  rcases hl : st.history.getLast? with _ | lastm
  · left; simp [undo, hl]
  · by_cases hg : (lastm.htype == some "deal" && lastm.dealtCards.isSome) = true
    · right
      refine ⟨lastm, rfl, hg, ?_⟩
      simp only [undo, hl]
      rw [if_pos hg]
    · left
      simp only [undo, hl]
      rw [if_neg hg]

theorem undo_history (st : Store) :
    (undo st).history = st.history ∨ (undo st).history = st.history.dropLast := by
  rcases hl : st.history.getLast? with _ | lastm
  · left; simp [undo, hl]
  · by_cases hg : (lastm.htype == some "deal" && lastm.dealtCards.isSome) = true
    · right
      simp only [undo, hl]
      rw [if_pos hg]
    · right
      simp only [undo, hl]
      rw [if_neg hg]

theorem stockInv_reachable (st : Store) (h : Reachable st) : StockInv st := by
  induction h with
  | init deck d hd =>
    constructor
    · show (deck.drop 54).length % 10 = 0
      rw [List.length_drop, hd.1]
    · intro e he
      cases he
  | select st p i h ih =>
    obtain ⟨h1, h2⟩ := selectCards_state st p i
    exact ⟨by rw [h1]; exact ih.1, by rw [h2]; exact ih.2⟩
  | move st t ht h ih =>
    constructor
    · rw [moveCards_stock]; exact ih.1
    · intro e he hty
      rcases moveCards_history_mem st t e he with hn | ⟨e', he', h1, h2⟩
      · rw [hn] at hty; cases hty
      · rw [h1] at hty
        obtain ⟨dc, hdc, hlen⟩ := ih.2 e' he' hty
        exact ⟨dc, by rw [h2]; exact hdc, hlen⟩
  | dealStep st h ih =>
    by_cases hc : canDeal st.state = true
    · constructor
      · rw [deal_stock st hc, List.length_drop]
        have h10 : 10 ≤ st.state.stock.length := ((canDeal_iff st.state).mp hc).1
        have hmod := ih.1
        omega
      · intro e he hty
        rcases deal_history_mem st e he with ⟨e', he', h1, h2⟩ | ⟨h1, h2⟩
        · rw [h1] at hty
          obtain ⟨dc, hdc, hlen⟩ := ih.2 e' he' hty
          exact ⟨dc, by rw [h2]; exact hdc, hlen⟩
        · exact ⟨_, h2, dealtCards_flatten_length st.state.stock⟩
    · rw [deal, if_pos (by simpa using hc)]
      exact ih
  | undoStep st h ih =>
    constructor
    · rcases undo_stock st with hs | ⟨e, hl, hg, hs⟩
      · rw [hs]; exact ih.1
      · rw [hs, List.length_append]
        have hmem : e ∈ st.history := by
          have hne : st.history ≠ [] := by
            intro hh; rw [hh] at hl; simp at hl
          have := List.getLast?_eq_getLast st.history hne
          rw [this] at hl
          injection hl with hl2
          rw [← hl2]
          exact List.getLast_mem hne
        simp only [Bool.and_eq_true, beq_iff_eq, Option.isSome_iff_exists] at hg
        obtain ⟨hty, dc0, hdc0⟩ := hg
        obtain ⟨dc, hdc, hlen⟩ := ih.2 e hmem hty
        rw [hdc]
        simp only [Option.getD_some]
        have := ih.1
        omega
    · intro e he hty
      rcases undo_history st with hh | hh
      · rw [hh] at he
        exact ih.2 e he hty
      · rw [hh] at he
        exact ih.2 e ((List.dropLast_sublist st.history).subset he) hty
  | clearSel st h ih => exact ih

/-- C8: in every reachable store the stock length is a multiple of 10;
`initializeGame` leaves exactly 50 stock cards, a legal deal removes exactly
the first 10, undoing a deal record puts exactly 10 cards back on the front
of the stock, and neither a card move nor a selection touches the stock. -/
theorem stock_mod_ten :
    (∀ st, Reachable st → st.state.stock.length % 10 = 0) ∧
    (∀ deck (d : Difficulty), deck.length = 104 →
      (initializeGame deck d).stock.length = 50) ∧
    (∀ st, canDeal st.state = true →
      (deal st).state.stock = st.state.stock.drop 10 ∧
      (deal st).state.stock.length + 10 = st.state.stock.length) ∧
    (∀ st, Reachable st → ∀ e, st.history.getLast? = some e →
      (e.htype == some "deal" && e.dealtCards.isSome) = true →
      ∃ dealt, (undo st).state.stock = dealt ++ st.state.stock ∧ dealt.length = 10) ∧
    (∀ st t, (moveCards st t).state.stock = st.state.stock) ∧
    (∀ st p i, (selectCards st p i).state.stock = st.state.stock) := by
  refine ⟨?_, ?_, ?_, ?_, ?_, ?_⟩
  · intro st h
    exact (stockInv_reachable st h).1
  · intro deck d hd
    show (deck.drop 54).length = 50
    rw [List.length_drop, hd]
  · intro st hc
    have h10 : 10 ≤ st.state.stock.length := ((canDeal_iff st.state).mp hc).1
    refine ⟨deal_stock st hc, ?_⟩
    rw [deal_stock st hc, List.length_drop]
    omega
  · intro st h e hl hg
    have hne : st.history ≠ [] := by
      intro hh; rw [hh] at hl; simp at hl
    have hmem : e ∈ st.history := by
      have := List.getLast?_eq_getLast st.history hne
      rw [this] at hl
      injection hl with hl2
      rw [← hl2]
      exact List.getLast_mem hne
    have hg2 := hg
    simp only [Bool.and_eq_true, beq_iff_eq, Option.isSome_iff_exists] at hg2
    obtain ⟨hty, dc0, hdc0⟩ := hg2
    obtain ⟨dc, hdc, hlen⟩ := (stockInv_reachable st h).2 e hmem hty
    refine ⟨(e.dealtCards.getD []).flatten, ?_, ?_⟩
    · simp only [undo, hl]
      rw [if_pos hg]
    · rw [hdc]
      simpa using hlen
  · intro st t
    exact moveCards_stock st t
  · intro st p i
    rw [(selectCards_state st p i).1]

/-- Witness for C8 at the concrete unshuffled easy game. -/
theorem stock_mod_ten_witness :
    (initializeGame (createDeck .easy 0) .easy).stock.length % 10 = 0 ∧
    (initializeGame (createDeck .easy 0) .easy).stock.length = 50 :=
  ⟨stock_mod_ten.1 ⟨initializeGame (createDeck .easy 0) .easy, [], none, none⟩
      (Reachable.init (createDeck .easy 0) .easy ⟨by rfl, by decide⟩),
   stock_mod_ten.2.1 (createDeck .easy 0) .easy (by rfl)⟩

theorem getMovableCards_eq_drop (P : Pile) (ci : Nat) (h : getMovableCards P ci ≠ []) :
    getMovableCards P ci = P.cards.drop ci ∧ descendingByOne (P.cards.drop ci) = true := by
  by_cases hd : descendingByOne (P.cards.drop ci) = true
  · constructor
    · rw [getMovableCards]; exact if_pos hd
    · exact hd
  · exfalso
    apply h
    rw [getMovableCards]
    exact if_neg hd

theorem windowCard_lt_length (l : List Card) (k : Nat) (h : k < l.length) :
    windowCard l k = l[k] := List.getD_eq_getElem l dummyCard h

theorem windowCard_append_left (A B : List Card) (k : Nat) (h : k < A.length) :
    windowCard (A ++ B) k = windowCard A k := by
  rw [windowCard, windowCard, List.getD_eq_getElem?_getD, List.getD_eq_getElem?_getD,
    List.getElem?_append, if_pos h]

theorem windowCard_append_right (A B : List Card) (k : Nat) (h : A.length ≤ k) :
    windowCard (A ++ B) k = windowCard B (k - A.length) := by
  rw [windowCard, windowCard, List.getD_eq_getElem?_getD, List.getD_eq_getElem?_getD,
    List.getElem?_append, if_neg (by omega)]

theorem windowCard_take (l : List Card) (n k : Nat) (h : k < n) :
    windowCard (l.take n) k = windowCard l k := by
  rw [windowCard, windowCard, List.getD_eq_getElem?_getD, List.getD_eq_getElem?_getD,
    List.getElem?_take, if_pos h]

theorem windowCard_dropLast (l : List Card) (k : Nat) (h : k < l.length - 1) :
    windowCard l.dropLast k = windowCard l k := by
  rw [windowCard, windowCard, List.getD_eq_getElem?_getD, List.getD_eq_getElem?_getD,
    List.getElem?_dropLast, if_pos h]

theorem windowCard_last (l : List Card) (a : Card) (h : l.getLast? = some a) :
    windowCard l (l.length - 1) = a := by
  rw [List.getLast?_eq_getElem?] at h
  rw [windowCard, List.getD_eq_getElem?_getD, h]
  rfl

theorem isCompleteWindow_congr (X Y : List Card) (j : Nat) (hlen : j + 13 ≤ Y.length)
    (hagree : ∀ k, j ≤ k → k < j + 13 → windowCard Y k = windowCard X k)
    (hX : IsCompleteWindow X j) : IsCompleteWindow Y j := by
  obtain ⟨h1, h2, h3, h4⟩ := hX
  refine ⟨hlen, ?_, ?_, ?_⟩
  · intro k hk
    rw [hagree (j + k) (by omega) (by omega)]
    exact h2 k hk
  · intro k hk
    rw [hagree (j + k) (by omega) (by omega), hagree j (by omega) (by omega)]
    exact h3 k hk
  · intro k hk
    rw [hagree (j + k) (by omega) (by omega)]
    exact h4 k hk

theorem noWindow_take (l : List Card) (n : Nat) (h : NoWindow l) : NoWindow (l.take n) := by
  intro j hw
  apply h j
  have hlen : j + 13 ≤ (l.take n).length := hw.1
  have hn : (l.take n).length ≤ l.length := by
    simp [List.length_take]
  have hnn : (l.take n).length ≤ n := by
    simp [List.length_take]
  exact isCompleteWindow_congr (l.take n) l j (by omega)
    (fun k hk1 hk2 => (windowCard_take l n k (by omega)).symm) hw

theorem noWindow_append_left (A B : List Card) (h : NoWindow A) (j : Nat)
    (hj : j + 13 ≤ A.length) : ¬ IsCompleteWindow (A ++ B) j := by
  intro hw
  apply h j
  exact isCompleteWindow_congr (A ++ B) A j hj
    (fun k hk1 hk2 => (windowCard_append_left A B k (by omega)).symm) hw

theorem rankValues_pos : ∀ r : Rank, 1 ≤ rankValues r := by decide

theorem descendingByOne_getD (R : List Card) (h : descendingByOne R = true) :
    ∀ k, k + 1 < R.length →
      rankValues (R.getD k dummyCard).rank = rankValues (R.getD (k+1) dummyCard).rank + 1 := by
  induction R with
  | nil => intro k hk; simp at hk
  | cons a t ih =>
    intro k hk
    cases t with
    | nil => simp at hk
    | cons b t' =>
      rw [descendingByOne, Bool.and_eq_true, beq_iff_eq] at h
      cases k with
      | zero => simpa using h.1
      | succ k' =>
        have := ih h.2 k' (by simpa using hk)
        simpa using this

/-- Any complete window in `T ++ R`, where `T` has no windows and `R` is a
strictly descending run, is flush with the top: below an Ace (value 1) a run
card would need value 0. -/
theorem window_flush_append (T R : List Card) (hNoT : NoWindow T)
    (hR : descendingByOne R = true) (j : Nat) (hw : IsCompleteWindow (T ++ R) j) :
    j + 13 = (T ++ R).length := by
  by_contra hne
  have hlt : j + 13 < (T ++ R).length := lt_of_le_of_ne hw.1 hne
  by_cases hA : j + 13 ≤ T.length
  · exact noWindow_append_left T R hNoT j hA hw
  · have hlapp : (T ++ R).length = T.length + R.length := by simp
    have h1 : T.length ≤ j + 12 := by omega
    have htop : rankValues (windowCard (T ++ R) (j + 12)).rank = 1 := by
      have := hw.2.2.2 12 (by omega)
      simpa using this
    rw [windowCard_append_right T R (j + 12) h1] at htop
    have hsucc := descendingByOne_getD R hR (j + 12 - T.length) (by omega)
    rw [windowCard] at htop
    rw [htop] at hsucc
    have := rankValues_pos (R.getD (j + 12 - T.length + 1) dummyCard).rank
    omega

theorem faceOrder_take (l : List Card) (n : Nat) (h : FaceOrder l) :
    FaceOrder (l.take n) := by
  intro i j hij hj hup
  have hn : (l.take n).length ≤ n := by simp [List.length_take]
  have hll : (l.take n).length ≤ l.length := by simp [List.length_take]
  rw [windowCard_take l n i (by omega)] at hup
  rw [windowCard_take l n j (by omega)]
  exact h i j hij (by omega) hup

theorem faceOrder_append_up (A B : List Card) (hA : FaceOrder A)
    (hB : ∀ c ∈ B, c.faceUp = true) : FaceOrder (A ++ B) := by
  intro i j hij hj hup
  by_cases hjA : j < A.length
  · rw [windowCard_append_left A B j hjA]
    rw [windowCard_append_left A B i (by omega)] at hup
    exact hA i j hij hjA hup
  · rw [windowCard_append_right A B j (by omega)]
    have hjb : j - A.length < B.length := by
      rw [List.length_append] at hj
      omega
    rw [windowCard, List.getD_eq_getElem B dummyCard hjb]
    exact hB _ (List.getElem_mem _)

theorem faceOrder_flip (A : List Card) (last : Card) (hlast : A.getLast? = some last)
    (hford : FaceOrder A) :
    FaceOrder (A.dropLast ++ [{ last with faceUp := true }]) := by
  have hne : A ≠ [] := by
    intro h; rw [h] at hlast; simp at hlast
  have hlen : (A.dropLast ++ [{ last with faceUp := true }]).length = A.length := by
    simp [List.length_dropLast]
    have : 0 < A.length := List.length_pos.mpr hne
    omega
  intro i j hij hj hup
  rw [hlen] at hj
  by_cases hjl : j < A.length - 1
  · have hil : i < A.length - 1 := by omega
    rw [windowCard_append_left _ _ j (by rw [List.length_dropLast]; omega),
      windowCard_dropLast A j hjl]
    rw [windowCard_append_left _ _ i (by rw [List.length_dropLast]; omega),
      windowCard_dropLast A i hil] at hup
    exact hford i j hij (by omega) hup
  · have hje : j = A.length - 1 := by omega
    rw [hje, windowCard_append_right _ _ _ (List.length_dropLast A).le]
    rw [List.length_dropLast]
    have : A.length - 1 - (A.length - 1) = 0 := by omega
    rw [this]
    rfl

theorem faceOrder_drop_up (l : List Card) (ci : Nat) (h : FaceOrder l)
    (hci : ci < l.length) (hup : (l.getD ci dummyCard).faceUp = true) :
    ∀ c ∈ l.drop ci, c.faceUp = true := by
  intro c hc
  obtain ⟨k, hk, hke⟩ := List.mem_iff_getElem.mp hc
  have hkl : ci + k < l.length := by
    rw [List.length_drop] at hk
    omega
  have : (l.drop ci)[k] = l[ci + k] := List.getElem_drop ..
  rw [this] at hke
  have hcw : c = windowCard l (ci + k) := by
    rw [windowCard_lt_length l _ hkl, ← hke]
  rw [hcw]
  exact h ci (ci + k) (by omega) hkl hup

/-- Flipping the face-down top card of a windowless, face-ordered pile face
up cannot create a window: the card below the top would have to be face up
already, contradicting face order. -/
theorem noWindow_flip (A : List Card) (last : Card) (hlast : A.getLast? = some last)
    (hdown : last.faceUp = false) (hford : FaceOrder A) (hno : NoWindow A) :
    NoWindow (A.dropLast ++ [{ last with faceUp := true }]) := by
  have hne : A ≠ [] := by
    intro h; rw [h] at hlast; simp at hlast
  have hpos : 0 < A.length := List.length_pos.mpr hne
  have hlen : (A.dropLast ++ [{ last with faceUp := true }]).length = A.length := by
    simp [List.length_dropLast]
    omega
  intro j hw
  have hj13 : j + 13 ≤ A.length := by
    have := hw.1
    rw [hlen] at this
    exact this
  by_cases hflush : j + 13 = A.length
  · -- the window would contain the flipped top card; the card below it is
    -- face up in the window but was below a face-down card in A
    have h11 : (windowCard (A.dropLast ++ [{ last with faceUp := true }]) (j + 11)).faceUp
        = true := hw.2.1 11 (by omega)
    have hj11 : j + 11 < A.length - 1 := by omega
    rw [windowCard_append_left _ _ _ (by rw [List.length_dropLast]; omega),
      windowCard_dropLast A _ hj11] at h11
    have := hford (j + 11) (A.length - 1) (by omega) (by omega) h11
    rw [windowCard_last A last hlast] at this
    rw [hdown] at this
    cases this
  · have hlt : j + 13 < A.length := by omega
    apply hno j
    refine isCompleteWindow_congr _ A j (by omega) ?_ hw
    intro k hk1 hk2
    rw [windowCard_append_left _ _ k (by rw [List.length_dropLast]; omega),
      windowCard_dropLast A k (by omega)]

theorem extractByIds_all (ids : List Nat) (B : List Card)
    (hB : ∀ c ∈ B, ids.contains c.id = true) :
    extractByIds ids B.length B = (B, []) := by
  induction B with
  | nil => rfl
  | cons b t ih =>
    rw [extractByIds, if_pos ⟨hB b (by simp), by simp⟩]
    have hq : (b :: t).length - 1 = t.length := by simp
    rw [hq, ih (fun c hc => hB c (by simp [hc]))]

theorem extractByIds_skip (ids : List Nat) (q : Nat) (A B : List Card)
    (hA : ∀ c ∈ A, ids.contains c.id = false) :
    extractByIds ids q (A ++ B) =
      ((extractByIds ids q B).1, A ++ (extractByIds ids q B).2) := by
  induction A with
  | nil => simp
  | cons a t ih =>
    rw [List.cons_append, extractByIds, if_neg]
    · rw [ih (fun c hc => hA c (by simp [hc]))]
      simp
    · intro hc
      have := hA a (by simp)
      rw [this] at hc
      cases hc.1

theorem extractByIds_append (ids : List Nat) (A B : List Card)
    (hA : ∀ c ∈ A, ids.contains c.id = false)
    (hB : ∀ c ∈ B, ids.contains c.id = true) :
    extractByIds ids B.length (A ++ B) = (B, A) := by
  rw [extractByIds_skip ids B.length A B hA, extractByIds_all ids B hB]
  simp

theorem flipDownById_append_miss (A B : List Card) (cid : Nat)
    (hA : ∀ c ∈ A, c.id ≠ cid) :
    flipDownById (A ++ B) cid = A ++ flipDownById B cid := by
  induction A with
  | nil => simp
  | cons a t ih =>
    rw [List.cons_append, flipDownById, if_neg (hA a (by simp))]
    rw [ih (fun c hc => hA c (by simp [hc]))]
    rfl

theorem card_refaced_eq (c : Card) (h : c.faceUp = false) :
    ({ id := c.id, suit := c.suit, rank := c.rank, faceUp := false } : Card) = c := by
  cases c
  simp_all

/-- Reassembling a pile whose face-down top card was flipped up: finding the
card by id (unique in the pile) and flipping it back recovers the original
list. -/
theorem flipDownById_rebuild (A : List Card) (last : Card) (B : List Card)
    (hlast : A.getLast? = some last) (hdown : last.faceUp = false)
    (hnd : (A.map (fun c => c.id)).Nodup) :
    flipDownById ((A.dropLast ++ [{ last with faceUp := true }]) ++ B) last.id =
      A ++ B := by
  have hne : A ≠ [] := by
    intro h; rw [h] at hlast; simp at hlast
  have hdecomp : A.dropLast ++ [last] = A := by
    have hdc := List.dropLast_concat_getLast hne
    rw [List.getLast?_eq_getLast A hne] at hlast
    injection hlast with h2
    rw [h2] at hdc
    exact hdc
  have hmiss : ∀ c ∈ A.dropLast, c.id ≠ last.id := by
    intro c hc
    have hnd2 : ((A.dropLast ++ [last]).map (fun c => c.id)).Nodup := by
      rw [hdecomp]; exact hnd
    rw [List.map_append, List.nodup_append] at hnd2
    intro he
    exact hnd2.2.2 (List.mem_map_of_mem (fun c => c.id) hc) (by simp [he])
  rw [List.append_assoc, flipDownById_append_miss _ _ _ hmiss]
  rw [List.cons_append]
  rw [flipDownById, if_pos rfl]
  simp only [List.nil_append]
  rw [card_refaced_eq last hdown]
  rw [List.append_cons, hdecomp]

theorem mapIdx_getD (l : List Pile) (f : Nat → Pile → Pile) (i : Nat) (hi : i < l.length) :
    (l.mapIdx f).getD i ⟨[]⟩ = f i (l.getD i ⟨[]⟩) := by
  rw [List.getD_eq_getElem _ _ (by rw [List.length_mapIdx]; exact hi),
    List.getElem_mapIdx, List.getD_eq_getElem _ _ hi]

theorem mapIdx_eq_set_set (l : List Pile) (sp t : Nat) (A B : Pile)
    (hne : sp ≠ t) :
    l.mapIdx (fun idx pile => if idx = sp then A else if idx = t then B else pile) =
      (l.set sp A).set t B := by
  apply List.ext_getElem
  · simp
  · intro i h1 h2
    rw [List.getElem_mapIdx, List.getElem_set, List.getElem_set]
    by_cases h3 : i = sp
    · rw [if_pos h3, if_neg (by omega), if_pos (by omega)]
    · rw [if_neg h3]
      by_cases h4 : i = t
      · rw [if_pos h4, if_pos (by omega)]
      · rw [if_neg h4, if_neg (by omega), if_neg (by omega)]

theorem sum_map_set (l : List Pile) (g : Pile → Multiset Nat) (i : Nat) (a : Pile)
    (hi : i < l.length) :
    ((l.set i a).map g).sum + g (l.getD i ⟨[]⟩) = (l.map g).sum + g a := by
  induction l generalizing i with
  | nil => simp at hi
  | cons x t ih =>
    cases i with
    | zero =>
      simp only [List.set_cons_zero, List.map_cons, List.sum_cons, List.getD_cons_zero]
      abel
    | succ n =>
      simp only [List.set_cons_succ, List.map_cons, List.sum_cons, List.getD_cons_succ]
      rw [add_assoc, ih n (by simpa using hi), ← add_assoc]

theorem single_le_sum_piles (l : List Pile) (g : Pile → Multiset Nat) (i : Nat)
    (hi : i < l.length) : g (l.getD i ⟨[]⟩) ≤ (l.map g).sum := by
  induction l generalizing i with
  | nil => simp at hi
  | cons x t ih =>
    cases i with
    | zero =>
      simp only [List.getD_cons_zero, List.map_cons, List.sum_cons]
      exact le_add_of_nonneg_right (Multiset.zero_le _)
    | succ n =>
      simp only [List.getD_cons_succ, List.map_cons, List.sum_cons]
      exact le_add_of_nonneg_left (Multiset.zero_le _) |>.trans
        (add_le_add_left (le_refl _) _) |>.trans
        (by exact add_le_add_left (ih n (by simpa using hi)) _)

theorem pair_le_sum_piles (l : List Pile) (g : Pile → Multiset Nat) (i j : Nat)
    (hij : i < j) (hj : j < l.length) :
    g (l.getD i ⟨[]⟩) + g (l.getD j ⟨[]⟩) ≤ (l.map g).sum := by
  induction l generalizing i j with
  | nil => simp at hj
  | cons x t ih =>
    cases i with
    | zero =>
      cases j with
      | zero => omega
      | succ m =>
        simp only [List.getD_cons_zero, List.getD_cons_succ, List.map_cons, List.sum_cons]
        exact add_le_add_left (single_le_sum_piles t g m (by simpa using hj)) _
    | succ n =>
      cases j with
      | zero => omega
      | succ m =>
        simp only [List.getD_cons_succ, List.map_cons, List.sum_cons]
        calc g (t.getD n ⟨[]⟩) + g (t.getD m ⟨[]⟩) ≤ (t.map g).sum :=
              ih n m (by omega) (by simpa using hj)
          _ ≤ g x + (t.map g).sum := le_add_of_nonneg_left (Multiset.zero_le _)

theorem singleton_sum (L : List Nat) :
    (L.map (fun x => ({x} : Multiset Nat))).sum = (L : Multiset Nat) := by
  induction L with
  | nil => rfl
  | cons a t ih =>
    simp only [List.map_cons, List.sum_cons, ih]
    rfl

theorem range_map_getD_eq_take (l : List Card) (n : Nat) (hn : n ≤ l.length) :
    (List.range n).map (fun i => l.getD i dummyCard) = l.take n := by
  apply List.ext_getElem
  · simp
    omega
  · intro i h1 h2
    rw [List.getElem_map, List.getElem_range]
    have hi : i < n := by simpa using h1
    rw [List.getD_eq_getElem _ _ (by omega), List.getElem_take]

theorem sum_map_mapIdx_add (l : List Pile) (f : Nat → Pile → Pile) (g : Pile → Multiset Nat)
    (h : Nat → Multiset Nat) (H : ∀ i x, g (f i x) = g x + h i) :
    ((l.mapIdx f).map g).sum = (l.map g).sum + ((List.range l.length).map h).sum := by
  induction l generalizing f h with
  | nil => simp
  | cons a t ih =>
    rw [List.mapIdx_cons]
    simp only [List.map_cons, List.sum_cons, List.length_cons, List.range_succ_eq_map,
      List.map_map]
    rw [H 0 a, ih (fun i => f (i + 1)) (fun i => h (i + 1)) (fun i x => H (i + 1) x)]
    have hmm : (List.map (h ∘ Nat.succ) (List.range t.length)).sum =
        ((List.range t.length).map (fun i => h (i + 1))).sum := rfl
    rw [hmm]
    abel

theorem beq_nat_decide (a b : Nat) : (a == b) = decide (a = b) := by
  by_cases h : a = b <;> simp [h]

theorem contains_id_iff (ids : List Nat) (x : Nat) : ids.contains x = true ↔ x ∈ ids := by
  simp [List.contains]

theorem getD_set_self (l : List Pile) (i : Nat) (a : Pile) (hi : i < l.length) :
    (l.set i a).getD i ⟨[]⟩ = a := by
  rw [List.getD_eq_getElem _ _ (by simpa using hi), List.getElem_set, if_pos rfl]

theorem getD_set_ne (l : List Pile) (i j : Nat) (a : Pile) (hne : i ≠ j) :
    (l.set i a).getD j ⟨[]⟩ = l.getD j ⟨[]⟩ := by
  rw [List.getD_eq_getElem?_getD, List.getD_eq_getElem?_getD, List.getElem?_set_ne hne]

theorem set_getD_eq_self (l : List Pile) (i : Nat) (hi : i < l.length) :
    l.set i (l.getD i ⟨[]⟩) = l := by
  apply List.ext_getElem
  · simp
  · intro j h1 h2
    rw [List.getElem_set]
    by_cases h : i = j
    · subst h
      rw [if_pos rfl, List.getD_eq_getElem _ _ hi]
    · rw [if_neg h]

theorem mapIdx_eq_set_of (l : List Pile) (f : Nat → Pile → Pile) (t : Nat) (B : Pile)
    (hft : f t (l.getD t ⟨[]⟩) = B)
    (hother : ∀ i, i < l.length → i ≠ t → f i (l.getD i ⟨[]⟩) = l.getD i ⟨[]⟩) :
    l.mapIdx f = l.set t B := by
  apply List.ext_getElem
  · simp
  · intro i h1 h2
    rw [List.getElem_mapIdx, List.getElem_set]
    have hil : i < l.length := by simpa using h1
    by_cases h : t = i
    · subst h
      rw [if_pos rfl, ← hft, List.getD_eq_getElem _ _ hil]
    · rw [if_neg h]
      have ho := hother i hil (fun he => h he.symm)
      rw [List.getD_eq_getElem _ _ hil] at ho
      exact ho

theorem mapIdx_eq_set_set_of (l : List Pile) (f : Nat → Pile → Pile) (s t : Nat) (A B : Pile)
    (hfs : f s (l.getD s ⟨[]⟩) = A) (hft : f t (l.getD t ⟨[]⟩) = B)
    (hother : ∀ i, i < l.length → i ≠ s → i ≠ t → f i (l.getD i ⟨[]⟩) = l.getD i ⟨[]⟩) :
    l.mapIdx f = (l.set s A).set t B := by
  apply List.ext_getElem
  · simp
  · intro i h1 h2
    rw [List.getElem_mapIdx, List.getElem_set, List.getElem_set]
    have hil : i < l.length := by simpa using h1
    by_cases hit : t = i
    · subst hit
      rw [if_pos rfl, ← hft, List.getD_eq_getElem _ _ hil]
    · rw [if_neg hit]
      by_cases his : s = i
      · subst his
        rw [if_pos rfl, ← hfs, List.getD_eq_getElem _ _ hil]
      · rw [if_neg his]
        have ho := hother i hil (fun he => his he.symm) (fun he => hit he.symm)
        rw [List.getD_eq_getElem _ _ hil] at ho
        exact ho

theorem checkForCompletedSequence_none (pile : Pile) (h : NoWindow pile.cards) :
    checkForCompletedSequence pile = ⟨false, -1, none⟩ := by
  unfold checkForCompletedSequence
  by_cases hlen : pile.cards.length < 13
  · rw [if_pos hlen]
  · rw [if_neg hlen]
    rcases hscan : seqScan pile.cards (pile.cards.length - 13) with _ | k
    · rfl
    · rw [seqScan_eq_some_iff] at hscan
      exact absurd ((windowOk_iff _ _).mp hscan.2.1) (h k)

theorem ccsPile_none (i : Nat) (pile : Pile) (h : NoWindow pile.cards) :
    ccsPile i pile = (pile, none) := by
  unfold ccsPile
  rw [checkForCompletedSequence_none pile h]

theorem checkForCompletedSequence_flush (X : List Card)
    (h : IsCompleteWindow X (X.length - 13)) :
    checkForCompletedSequence ⟨X⟩ =
      ⟨true, ((X.length - 13 : Nat) : Int), some (windowCard X (X.length - 13)).suit⟩ := by
  have hb := h.1
  have hscan : seqScan X (X.length - 13) = some (X.length - 13) := by
    rw [seqScan_eq_some_iff]
    exact ⟨le_refl _, (windowOk_iff X _).mpr h, fun k hk1 hk2 => by omega⟩
  simp only [checkForCompletedSequence]
  rw [if_neg (by omega : ¬ X.length < 13), hscan]

theorem ccsPile_eq_of_check (t : Nat) (X : List Card) (i : Nat) (su : Suit)
    (h : checkForCompletedSequence ⟨X⟩ = ⟨true, (i : Int), some su⟩) :
    ccsPile t ⟨X⟩ =
      match (X.take i).getLast? with
      | some last =>
        if ¬ last.faceUp then
          (⟨(X.take i).dropLast ++ [{ last with faceUp := true }]⟩,
            some ⟨t, (X.drop i).take 13, su, some last.id⟩)
        else (⟨X.take i⟩, some ⟨t, (X.drop i).take 13, su, none⟩)
      | none => (⟨X.take i⟩, some ⟨t, (X.drop i).take 13, su, none⟩) := by
  unfold ccsPile
  rw [h]
  rfl

theorem descendingByOne_singleton (c : Card) : descendingByOne [c] = true := rfl

theorem isCompleteWindow_of_take (l : List Card) (n j : Nat)
    (hw : IsCompleteWindow (l.take n) j) : IsCompleteWindow l j := by
  have hlen : j + 13 ≤ (l.take n).length := hw.1
  have hll : (l.take n).length ≤ l.length := by simp [List.length_take]
  exact isCompleteWindow_congr (l.take n) l j (by omega)
    (fun k hk1 hk2 => (windowCard_take l n k (by simp [List.length_take] at hlen; omega)).symm) hw

/-- What `ccsPile` does to a face-ordered pile with unique ids whose complete
windows (if any) are flush with the top: either there is no window and the
pile is untouched, or the top 13 cards are removed, the uncovered card is
flipped if face down, and the recorded information rebuilds the pile
exactly (`restoredCards`), with the remainder windowless and face-ordered
and the ids conserved. -/
theorem ccsPile_cases (t : Nat) (X : List Card)
    (hflush : ∀ j, IsCompleteWindow X j → j + 13 = X.length)
    (hford : FaceOrder X) (hnd : (X.map (fun c => c.id)).Nodup) :
    (ccsPile t ⟨X⟩ = (⟨X⟩, none) ∧ NoWindow X) ∨
    (∃ P' info, ccsPile t ⟨X⟩ = (P', some info) ∧ info.pileIndex = t ∧
      restoredCards P'.cards info = X ∧ NoWindow P'.cards ∧ FaceOrder P'.cards ∧
      P'.cards.map (fun c => c.id) ++ info.cards.map (fun c => c.id)
        = X.map (fun c => c.id)) := by
  by_cases hW : NoWindow X
  · left
    exact ⟨ccsPile_none t ⟨X⟩ hW, hW⟩
  · right
    unfold NoWindow at hW
    push_neg at hW
    obtain ⟨j, hj⟩ := hW
    have hj13 : j + 13 = X.length := hflush j hj
    have h13 : 13 ≤ X.length := by omega
    have hji : j = X.length - 13 := by omega
    subst hji
    have hcfs := checkForCompletedSequence_flush X hj
    set i := X.length - 13 with hidef
    have hcc : (X.drop i).take 13 = X.drop i :=
      List.take_of_length_le (by rw [List.length_drop]; omega)
    have hremNoW : NoWindow (X.take i) := by
      intro k hk
      have hkX := isCompleteWindow_of_take X i k hk
      have hk13 := hflush k hkX
      have hkb : k + 13 ≤ (X.take i).length := hk.1
      have hkb2 : (X.take i).length ≤ i := by simp [List.length_take]
      omega
    have hremFord : FaceOrder (X.take i) := faceOrder_take X i hford
    have hndrem : ((X.take i).map (fun c => c.id)).Nodup :=
      List.Nodup.sublist (List.Sublist.map _ (List.take_sublist i X)) hnd
    have heq := ccsPile_eq_of_check t X i ((windowCard X i).suit) hcfs
    rcases hlastq : (X.take i).getLast? with _ | last
    · rw [hlastq] at heq
      refine ⟨⟨X.take i⟩, ⟨t, (X.drop i).take 13, (windowCard X i).suit, none⟩,
        heq, rfl, ?_, hremNoW, hremFord, ?_⟩
      · show X.take i ++ (X.drop i).take 13 = X
        rw [hcc, List.take_append_drop]
      · show (X.take i).map (fun c => c.id) ++ ((X.drop i).take 13).map (fun c => c.id)
          = X.map (fun c => c.id)
        rw [hcc, ← List.map_append, List.take_append_drop]
    · rw [hlastq] at heq
      have heq2 : ccsPile t ⟨X⟩ =
          (if ¬ last.faceUp = true then
              (⟨(X.take i).dropLast ++ [{ last with faceUp := true }]⟩,
                some ⟨t, (X.drop i).take 13, (windowCard X i).suit, some last.id⟩)
            else (⟨X.take i⟩,
              some ⟨t, (X.drop i).take 13, (windowCard X i).suit, none⟩)) := heq
      clear heq
      by_cases hfu : last.faceUp = true
      · rw [if_neg (by simp [hfu])] at heq2
        refine ⟨⟨X.take i⟩, ⟨t, (X.drop i).take 13, (windowCard X i).suit, none⟩,
          heq2, rfl, ?_, hremNoW, hremFord, ?_⟩
        · show X.take i ++ (X.drop i).take 13 = X
          rw [hcc, List.take_append_drop]
        · show (X.take i).map (fun c => c.id) ++ ((X.drop i).take 13).map (fun c => c.id)
            = X.map (fun c => c.id)
          rw [hcc, ← List.map_append, List.take_append_drop]
      · have hdown : last.faceUp = false := by simpa using hfu
        rw [if_pos (by simp [hdown])] at heq2
        have hne : X.take i ≠ [] := by
          intro hnil
          rw [hnil] at hlastq
          simp at hlastq
        have hdecomp : (X.take i).dropLast ++ [last] = X.take i := by
          have hdc := List.dropLast_concat_getLast hne
          rw [List.getLast?_eq_getLast _ hne] at hlastq
          injection hlastq with h2
          rw [h2] at hdc
          exact hdc
        refine ⟨⟨(X.take i).dropLast ++ [{ last with faceUp := true }]⟩,
          ⟨t, (X.drop i).take 13, (windowCard X i).suit, some last.id⟩,
          heq2, rfl, ?_, ?_, ?_, ?_⟩
        · show flipDownById (((X.take i).dropLast ++ [{ last with faceUp := true }])
            ++ (X.drop i).take 13) last.id = X
          rw [hcc, flipDownById_rebuild (X.take i) last (X.drop i) hlastq hdown hndrem,
            List.take_append_drop]
        · exact noWindow_flip (X.take i) last hlastq hdown hremFord hremNoW
        · exact faceOrder_flip (X.take i) last hlastq hremFord
        · show ((X.take i).dropLast ++ [{ last with faceUp := true }]).map (fun (c : Card) => c.id)
            ++ ((X.drop i).take 13).map (fun (c : Card) => c.id) = X.map (fun (c : Card) => c.id)
          rw [hcc, List.map_append, List.append_assoc]
          have h1 : ([({ last with faceUp := true } : Card)].map (fun c => c.id))
              ++ (X.drop i).map (fun c => c.id)
              = ([last].map (fun c => c.id)) ++ (X.drop i).map (fun c => c.id) := rfl
          rw [h1, ← List.map_append, ← List.map_append, ← List.append_assoc, hdecomp,
            List.take_append_drop]

theorem ccsPile_eq_of_check_int (t : Nat) (p : Pile) (si : Int) (su : Suit)
    (h : checkForCompletedSequence p = ⟨true, si, some su⟩) :
    ccsPile t p =
      match (p.cards.take si.toNat).getLast? with
      | some last =>
        if ¬ last.faceUp then
          (⟨(p.cards.take si.toNat).dropLast ++ [{ last with faceUp := true }]⟩,
            some ⟨t, (p.cards.drop si.toNat).take 13, su, some last.id⟩)
        else (⟨p.cards.take si.toNat⟩, some ⟨t, (p.cards.drop si.toNat).take 13, su, none⟩)
      | none => (⟨p.cards.take si.toNat⟩,
          some ⟨t, (p.cards.drop si.toNat).take 13, su, none⟩) := by
  unfold ccsPile
  rw [h]

theorem ccsPile_snd_pileIndex (i : Nat) (p : Pile) (info : CompletedInfo)
    (h : (ccsPile i p).2 = some info) : info.pileIndex = i := by
  rcases hc : checkForCompletedSequence p with ⟨comp, si, su⟩
  cases comp with
  | false =>
    unfold ccsPile at h
    rw [hc] at h
    exact absurd (show (none : Option CompletedInfo) = some info from h) (by simp)
  | true =>
    cases su with
    | none =>
      unfold ccsPile at h
      rw [hc] at h
      exact absurd (show (none : Option CompletedInfo) = some info from h) (by simp)
    | some s =>
      rw [ccsPile_eq_of_check_int i p si s hc] at h
      rcases hl : (p.cards.take si.toNat).getLast? with _ | last
      · rw [hl] at h
        have h4 : some (⟨i, (p.cards.drop si.toNat).take 13, s, none⟩ : CompletedInfo)
            = some info := h
        injection h4 with h3
        rw [← h3]
      · rw [hl] at h
        have h2 : (if ¬ last.faceUp = true then
            ((⟨(p.cards.take si.toNat).dropLast ++ [{ last with faceUp := true }]⟩ : Pile),
              some (⟨i, (p.cards.drop si.toNat).take 13, s, some last.id⟩ : CompletedInfo))
          else ((⟨p.cards.take si.toNat⟩ : Pile),
              some (⟨i, (p.cards.drop si.toNat).take 13, s, none⟩ : CompletedInfo))).2
            = some info := h
        by_cases hfu : ¬ last.faceUp = true
        · rw [if_pos hfu] at h2
          have h4 : some (⟨i, (p.cards.drop si.toNat).take 13, s, some last.id⟩ : CompletedInfo)
              = some info := h2
          injection h4 with h3
          rw [← h3]
        · rw [if_neg hfu] at h2
          have h4 : some (⟨i, (p.cards.drop si.toNat).take 13, s, none⟩ : CompletedInfo)
              = some info := h2
          injection h4 with h3
          rw [← h3]

theorem mem_ccs_infos (L : List Pile) (info : CompletedInfo) :
    info ∈ (L.mapIdx ccsPile).filterMap Prod.snd ↔
      ∃ i, i < L.length ∧ (ccsPile i (L.getD i ⟨[]⟩)).2 = some info := by
  rw [List.mem_filterMap]
  constructor
  · rintro ⟨a, ha, hsnd⟩
    obtain ⟨i, hi, hel⟩ := List.mem_iff_getElem.mp ha
    have hil : i < L.length := by simpa using hi
    refine ⟨i, hil, ?_⟩
    rw [← hel, List.getElem_mapIdx] at hsnd
    rw [List.getD_eq_getElem _ _ hil]
    exact hsnd
  · rintro ⟨i, hi, hsnd⟩
    rw [List.getD_eq_getElem _ _ hi] at hsnd
    refine ⟨ccsPile i L[i], ?_, hsnd⟩
    rw [List.mem_iff_getElem]
    exact ⟨i, by simpa using hi, by rw [List.getElem_mapIdx]⟩

theorem find_unique {α : Type} (l : List α) (p : α → Bool) (x : α)
    (hmem : x ∈ l) (hpx : p x = true) (huniq : ∀ y ∈ l, p y = true → y = x) :
    l.find? p = some x := by
  induction l with
  | nil => simp at hmem
  | cons a t ih =>
    by_cases hpa : p a = true
    · have hax : a = x := huniq a (by simp) hpa
      rw [List.find?_cons_of_pos _ hpa, hax]
    · rw [List.find?_cons_of_neg _ (by simpa using hpa)]
      have hxt : x ∈ t := by
        rcases List.mem_cons.mp hmem with h | h
        · exact absurd (h ▸ hpx) hpa
        · exact h
      exact ih hxt (fun y hy hpy => huniq y (by simp [hy]) hpy)

theorem ccs_fst_getD (L : List Pile) (i : Nat) (hi : i < L.length) :
    ((L.mapIdx ccsPile).map Prod.fst).getD i ⟨[]⟩ = (ccsPile i (L.getD i ⟨[]⟩)).1 := by
  rw [List.getD_eq_getElem _ _ (by simpa using hi), List.getElem_map, List.getElem_mapIdx,
    List.getD_eq_getElem _ _ hi]

theorem sum_map_le_pointwise (A B : List Pile) (hlen : A.length = B.length)
    (h : ∀ i, i < B.length → pileBag (A.getD i ⟨[]⟩) ≤ pileBag (B.getD i ⟨[]⟩)) :
    (A.map pileBag).sum ≤ (B.map pileBag).sum := by
  induction B generalizing A with
  | nil =>
    cases A with
    | nil => simp
    | cons a ta => simp at hlen
  | cons b tb ih =>
    cases A with
    | nil => simp at hlen
    | cons a ta =>
      simp only [List.map_cons, List.sum_cons]
      have h0 := h 0 (by simp)
      simp only [List.getD_cons_zero] at h0
      refine add_le_add h0 (ih ta (by simpa using hlen) ?_)
      intro i hi
      have hs := h (i+1) (by simpa using Nat.succ_lt_succ hi)
      simpa using hs

/-- Master description of `checkCompletedSequences` on a store whose piles
are face-ordered with per-pile unique ids and whose complete windows (if
any) sit flush with the pile tops, and whose history ends in a fresh entry:
every field except the tableau, the completed-sequence list, `gameWon` and
the last history entry is untouched, and `restoreCompleted` (as `undo` calls
it) undoes the removals exactly.  The output piles are windowless and
face-ordered and the tableau id-bag does not grow. -/
theorem ccs_restore (st1 : Store) (H0 : List MoveHistory) (e : MoveHistory)
    (hh : st1.history = H0 ++ [e]) (hce : e.completedSequences = none)
    (hflush : ∀ pile ∈ st1.state.tableau, ∀ j,
      IsCompleteWindow pile.cards j → j + 13 = pile.cards.length)
    (hford : ∀ pile ∈ st1.state.tableau, FaceOrder pile.cards)
    (hnd : ∀ pile ∈ st1.state.tableau, (pile.cards.map (fun c => c.id)).Nodup) :
    ∃ e2 : MoveHistory,
      (checkCompletedSequences st1).history = H0 ++ [e2] ∧
      e2.htype = e.htype ∧ e2.from_ = e.from_ ∧ e2.to_ = e.to_ ∧
      e2.cards = e.cards ∧ e2.flippedCard = e.flippedCard ∧
      e2.dealtCards = e.dealtCards ∧
      restoreCompleted (checkCompletedSequences st1).state.tableau
          (checkCompletedSequences st1).state.completedSequences e2.completedSequences
        = (st1.state.tableau, st1.state.completedSequences) ∧
      (checkCompletedSequences st1).state.stock = st1.state.stock ∧
      (checkCompletedSequences st1).state.moves = st1.state.moves ∧
      (checkCompletedSequences st1).state.difficulty = st1.state.difficulty ∧
      (checkCompletedSequences st1).selectedPile = st1.selectedPile ∧
      (checkCompletedSequences st1).selectedCardIndex = st1.selectedCardIndex ∧
      (checkCompletedSequences st1).state.tableau.length = st1.state.tableau.length ∧
      (∀ pile ∈ (checkCompletedSequences st1).state.tableau,
        NoWindow pile.cards ∧ FaceOrder pile.cards) ∧
      ((checkCompletedSequences st1).state.tableau.map pileBag).sum
        ≤ (st1.state.tableau.map pileBag).sum ∧
      (st1.state.gameWon = decide (st1.state.completedSequences.length = 8) →
        (checkCompletedSequences st1).state.gameWon
          = decide ((checkCompletedSequences st1).state.completedSequences.length = 8)) := by
  classical
  have hcases : ∀ i, i < st1.state.tableau.length →
      (ccsPile i (st1.state.tableau.getD i ⟨[]⟩) = (st1.state.tableau.getD i ⟨[]⟩, none) ∧
        NoWindow (st1.state.tableau.getD i ⟨[]⟩).cards) ∨
      (∃ P' info, ccsPile i (st1.state.tableau.getD i ⟨[]⟩) = (P', some info) ∧
        info.pileIndex = i ∧
        restoredCards P'.cards info = (st1.state.tableau.getD i ⟨[]⟩).cards ∧
        NoWindow P'.cards ∧ FaceOrder P'.cards ∧
        P'.cards.map (fun c => c.id) ++ info.cards.map (fun c => c.id)
          = (st1.state.tableau.getD i ⟨[]⟩).cards.map (fun c => c.id)) := by
    intro i hi
    have hmem : st1.state.tableau.getD i ⟨[]⟩ ∈ st1.state.tableau := by
      rw [List.getD_eq_getElem _ _ hi]
      exact List.getElem_mem _
    exact ccsPile_cases i (st1.state.tableau.getD i ⟨[]⟩).cards
      (hflush _ hmem) (hford _ hmem) (hnd _ hmem)
  have hfind : ∀ idx, idx < st1.state.tableau.length →
      ((st1.state.tableau.mapIdx ccsPile).filterMap Prod.snd).find?
          (fun info => info.pileIndex == idx)
        = (ccsPile idx (st1.state.tableau.getD idx ⟨[]⟩)).2 := by
    intro idx hidx
    rcases hsnd : (ccsPile idx (st1.state.tableau.getD idx ⟨[]⟩)).2 with _ | info
    · rw [List.find?_eq_none]
      intro y hy
      rw [mem_ccs_infos] at hy
      obtain ⟨i, hi, hsy⟩ := hy
      have hpi := ccsPile_snd_pileIndex i _ y hsy
      simp only [beq_iff_eq]
      intro hbe
      rw [hbe] at hpi
      rw [← hpi] at hsy
      rw [hsnd] at hsy
      exact Option.noConfusion hsy
    · apply find_unique
      · rw [mem_ccs_infos]
        exact ⟨idx, hidx, hsnd⟩
      · have hpi := ccsPile_snd_pileIndex idx _ info hsnd
        simp [hpi]
      · intro y hy hpy
        rw [mem_ccs_infos] at hy
        obtain ⟨i, hi, hsy⟩ := hy
        have h1 := ccsPile_snd_pileIndex i _ y hsy
        have h2 : y.pileIndex = idx := by simpa using hpy
        rw [h2] at h1
        rw [← h1] at hsy
        rw [hsnd] at hsy
        injection hsy with h3
        exact h3.symm
  have hfst : ∀ i, i < st1.state.tableau.length →
      ((st1.state.tableau.mapIdx ccsPile).map Prod.fst).getD i ⟨[]⟩
        = (ccsPile i (st1.state.tableau.getD i ⟨[]⟩)).1 :=
    fun i hi => ccs_fst_getD st1.state.tableau i hi
  by_cases hch : ((st1.state.tableau.mapIdx ccsPile).filterMap Prod.snd).isEmpty = true
  · have hid : checkCompletedSequences st1 = st1 := by
      simp only [checkCompletedSequences]
      rw [if_pos hch]
    have hnone : ∀ i, i < st1.state.tableau.length →
        NoWindow (st1.state.tableau.getD i ⟨[]⟩).cards := by
      intro i hi
      rcases hcases i hi with h | ⟨P', info, heq, _⟩
      · exact h.2
      · exfalso
        have hmemi : info ∈ (st1.state.tableau.mapIdx ccsPile).filterMap Prod.snd := by
          rw [mem_ccs_infos]
          exact ⟨i, hi, by rw [heq]⟩
        rw [List.isEmpty_iff] at hch
        rw [hch] at hmemi
        simp at hmemi
    refine ⟨e, by rw [hid, hh], rfl, rfl, rfl, rfl, rfl, rfl, ?_, by rw [hid], by rw [hid],
      by rw [hid], by rw [hid], by rw [hid], by rw [hid], ?_, le_of_eq (by rw [hid]), ?_⟩
    · rw [hid, hce]
      rfl
    · rw [hid]
      intro pile hp
      obtain ⟨i, hi, hel⟩ := List.mem_iff_getElem.mp hp
      have hni := hnone i hi
      rw [List.getD_eq_getElem _ _ hi, hel] at hni
      exact ⟨hni, hford pile hp⟩
    · rw [hid]
      exact fun hgw => hgw
  · have hCCS : checkCompletedSequences st1 = { st1 with
        state := { st1.state with
          tableau := (st1.state.tableau.mapIdx ccsPile).map Prod.fst
          completedSequences := st1.state.completedSequences ++
            ((st1.state.tableau.mapIdx ccsPile).filterMap Prod.snd).map
              (fun info => ⟨info.suit, info.pileIndex⟩)
          gameWon := (st1.state.completedSequences ++
            ((st1.state.tableau.mapIdx ccsPile).filterMap Prod.snd).map
              (fun info => (⟨info.suit, info.pileIndex⟩ : CompletedSequence))).length == 8 }
        history := H0 ++ [⟨e.htype, e.from_, e.to_, e.cards, e.flippedCard, e.dealtCards,
          some ((st1.state.tableau.mapIdx ccsPile).filterMap Prod.snd)⟩] } := by
      simp only [checkCompletedSequences]
      rw [if_neg hch, hh, List.getLast?_concat, List.dropLast_concat]
    set infos := (st1.state.tableau.mapIdx ccsPile).filterMap Prod.snd with hinfosdef
    set NT := (st1.state.tableau.mapIdx ccsPile).map Prod.fst with hNTdef
    have hNTlen : NT.length = st1.state.tableau.length := by
      rw [hNTdef]
      simp
    have hine : infos ≠ [] := by
      intro hn
      apply hch
      rw [hn]
      rfl
    have hrc : restoreCompleted NT
        (st1.state.completedSequences ++ infos.map (fun info => ⟨info.suit, info.pileIndex⟩))
        (some infos) = (st1.state.tableau, st1.state.completedSequences) := by
      simp only [restoreCompleted]
      rw [if_pos (List.length_pos.mpr hine)]
      simp only [Prod.mk.injEq]
      refine ⟨?_, ?_⟩
      · apply List.ext_getElem
        · rw [List.length_mapIdx, hNTlen]
        · intro i h1 h2
          have hil : i < st1.state.tableau.length := h2
          rw [List.getElem_mapIdx]
          rcases hcases i hil with ⟨heq, hnw⟩ | ⟨P', info, heq, hpi, hrest, hnwP, hfoP, hids⟩
          · have hf2 : infos.find? (fun info => info.pileIndex == i) = none := by
              rw [hfind i hil, heq]
            simp only [hf2]
            rw [← List.getD_eq_getElem NT ⟨[]⟩ (by rw [hNTlen]; exact hil),
              ← List.getD_eq_getElem st1.state.tableau ⟨[]⟩ hil]
            rw [hfst i hil, heq]
          · have hf2 : infos.find? (fun info => info.pileIndex == i) = some info := by
              rw [hfind i hil, heq]
            simp only [hf2]
            rw [← List.getD_eq_getElem NT ⟨[]⟩ (by rw [hNTlen]; exact hil),
              ← List.getD_eq_getElem st1.state.tableau ⟨[]⟩ hil]
            rw [hfst i hil, heq]
            show (⟨restoredCards P'.cards info⟩ : Pile) = _
            rw [hrest]
      · have hlenm : (st1.state.completedSequences ++ infos.map
            (fun info => (⟨info.suit, info.pileIndex⟩ : CompletedSequence))).length
              - infos.length = st1.state.completedSequences.length := by
          simp
        rw [hlenm]
        exact List.take_left _ _
    refine ⟨⟨e.htype, e.from_, e.to_, e.cards, e.flippedCard, e.dealtCards, some infos⟩,
      by rw [hCCS], rfl, rfl, rfl, rfl,
      rfl, rfl, ?_, by rw [hCCS], by rw [hCCS], by rw [hCCS], by rw [hCCS], by rw [hCCS],
      ?_, ?_, ?_, ?_⟩
    · rw [hCCS]
      exact hrc
    · rw [hCCS]
      exact hNTlen
    · rw [hCCS]
      intro pile hp
      obtain ⟨i, hi, hel⟩ := List.mem_iff_getElem.mp hp
      have hil : i < st1.state.tableau.length := by
        rw [← hNTlen]
        exact hi
      have hgetD : NT.getD i ⟨[]⟩ = pile := by
        rw [List.getD_eq_getElem _ _ hi, hel]
      rcases hcases i hil with ⟨heq, hnw⟩ | ⟨P', info, heq, hpi, hrest, hnwP, hfoP, hids⟩
      · have hpe : pile = st1.state.tableau.getD i ⟨[]⟩ := by
          rw [← hgetD, hfst i hil, heq]
        rw [hpe]
        refine ⟨hnw, hford _ ?_⟩
        rw [List.getD_eq_getElem _ _ hil]
        exact List.getElem_mem _
      · have hpe : pile = P' := by
          rw [← hgetD, hfst i hil, heq]
        rw [hpe]
        exact ⟨hnwP, hfoP⟩
    · rw [hCCS]
      apply sum_map_le_pointwise _ _ hNTlen
      intro i hil
      rcases hcases i hil with ⟨heq, hnw⟩ | ⟨P', info, heq, hpi, hrest, hnwP, hfoP, hids⟩
      · exact le_of_eq (by rw [hfst i hil, heq])
      · rw [hfst i hil, heq]
        have hb : pileBag (st1.state.tableau.getD i ⟨[]⟩) = pileBag P'
            + ((info.cards.map (fun c => c.id) : List Nat) : Multiset Nat) := by
          unfold pileBag
          rw [← hids]
          rfl
        rw [hb]
        exact le_add_of_nonneg_right (Multiset.zero_le _)
    · rw [hCCS]
      intro _
      exact beq_nat_decide _ 8

theorem pile_ids_nodup (s : GameState) (hnd : (idBag s).Nodup) (pile : Pile)
    (hmem : pile ∈ s.tableau) : (pile.cards.map (fun c => c.id)).Nodup := by
  have h1 : pileBag pile ≤ (s.tableau.map pileBag).sum :=
    List.single_le_sum (fun x _ => Multiset.zero_le x) _ (List.mem_map_of_mem pileBag hmem)
  have h2 : pileBag pile ≤ idBag s := h1.trans (le_add_of_nonneg_right (Multiset.zero_le _))
  have h3 : (pileBag pile).Nodup := Multiset.nodup_of_le h2 hnd
  exact Multiset.coe_nodup.mp h3

theorem pile_ids_disjoint (s : GameState) (hnd : (idBag s).Nodup) (i j : Nat)
    (hne : i ≠ j) (hi : i < s.tableau.length) (hj : j < s.tableau.length) :
    ∀ a ∈ (s.tableau.getD i ⟨[]⟩).cards.map (fun c => c.id),
      a ∉ (s.tableau.getD j ⟨[]⟩).cards.map (fun c => c.id) := by
  have hpair : pileBag (s.tableau.getD i ⟨[]⟩) + pileBag (s.tableau.getD j ⟨[]⟩)
      ≤ (s.tableau.map pileBag).sum := by
    rcases Nat.lt_or_ge i j with h | h
    · exact pair_le_sum_piles _ _ i j h hj
    · have hji : j < i := by omega
      calc pileBag (s.tableau.getD i ⟨[]⟩) + pileBag (s.tableau.getD j ⟨[]⟩)
          = pileBag (s.tableau.getD j ⟨[]⟩) + pileBag (s.tableau.getD i ⟨[]⟩) := add_comm _ _
        _ ≤ _ := pair_le_sum_piles _ _ j i hji hi
  have h2 : (pileBag (s.tableau.getD i ⟨[]⟩) + pileBag (s.tableau.getD j ⟨[]⟩)).Nodup :=
    Multiset.nodup_of_le (hpair.trans (le_add_of_nonneg_right (Multiset.zero_le _))) hnd
  rw [Multiset.nodup_add] at h2
  intro a ha haj
  exact (Multiset.disjoint_left.mp h2.2.2) (Multiset.mem_coe.mpr ha)
    (Multiset.mem_coe.mpr haj)

theorem mem_set_set {TB : List Pile} {sp t : Nat} {A B pile : Pile}
    (h : pile ∈ (TB.set sp A).set t B) : pile = B ∨ pile = A ∨ pile ∈ TB := by
  rcases List.mem_or_eq_of_mem_set h with h1 | h1
  · rcases List.mem_or_eq_of_mem_set h1 with h2 | h2
    · exact Or.inr (Or.inr h2)
    · exact Or.inr (Or.inl h2)
  · exact Or.inl h1

theorem sum_set_set_eq (TB : List Pile) (sp t : Nat) (A B : Pile)
    (hsp : sp < TB.length) (ht : t < TB.length) (hne : sp ≠ t)
    (hbags : pileBag A + pileBag B
      = pileBag (TB.getD sp ⟨[]⟩) + pileBag (TB.getD t ⟨[]⟩)) :
    (((TB.set sp A).set t B).map pileBag).sum = (TB.map pileBag).sum := by
  have eq1 := sum_map_set TB pileBag sp A hsp
  have eq2 := sum_map_set (TB.set sp A) pileBag t B (by rw [List.length_set]; exact ht)
  rw [getD_set_ne TB sp t A hne] at eq2
  have step : (((TB.set sp A).set t B).map pileBag).sum + pileBag (TB.getD t ⟨[]⟩)
      + pileBag (TB.getD sp ⟨[]⟩)
      = (TB.map pileBag).sum + pileBag (TB.getD t ⟨[]⟩) + pileBag (TB.getD sp ⟨[]⟩) := by
    calc (((TB.set sp A).set t B).map pileBag).sum + pileBag (TB.getD t ⟨[]⟩)
          + pileBag (TB.getD sp ⟨[]⟩)
        = ((TB.set sp A).map pileBag).sum + pileBag B + pileBag (TB.getD sp ⟨[]⟩) := by
          rw [eq2]
      _ = ((TB.set sp A).map pileBag).sum + pileBag (TB.getD sp ⟨[]⟩) + pileBag B := by
          abel
      _ = (TB.map pileBag).sum + pileBag A + pileBag B := by rw [eq1]
      _ = (TB.map pileBag).sum + (pileBag A + pileBag B) := by rw [add_assoc]
      _ = (TB.map pileBag).sum + (pileBag (TB.getD sp ⟨[]⟩) + pileBag (TB.getD t ⟨[]⟩)) := by
          rw [hbags]
      _ = (TB.map pileBag).sum + pileBag (TB.getD t ⟨[]⟩) + pileBag (TB.getD sp ⟨[]⟩) := by
          abel
  exact add_right_cancel (add_right_cancel step)

/-- The positive path of `moveCards`: with a valid selection, a distinct
in-range target and a legal placement, the store moves the run, records the
history entry and runs the completed-sequence check. -/
theorem moveCards_eq_pos (st : Store) (t sp ci : Nat) (c0 : Card) (rest : List Card)
    (hsp : st.selectedPile = some sp) (hci : st.selectedCardIndex = some ci)
    (hspt : sp ≠ t)
    (hM' : getMovableCards (st.state.tableau.getD sp ⟨[]⟩) ci = c0 :: rest)
    (hplace' : canPlaceCard c0 (st.state.tableau.getD t ⟨[]⟩).cards.getLast? = true) :
    moveCards st t =
      (let flipStep : Option FlippedRef × List Card :=
        match ((st.state.tableau.getD sp ⟨[]⟩).cards.take ci).getLast? with
        | some last =>
          if ¬ last.faceUp then
            (some ⟨sp, last.id⟩,
              ((st.state.tableau.getD sp ⟨[]⟩).cards.take ci).dropLast
                ++ [{ last with faceUp := true }])
          else (none, (st.state.tableau.getD sp ⟨[]⟩).cards.take ci)
        | none => (none, (st.state.tableau.getD sp ⟨[]⟩).cards.take ci)
      checkCompletedSequences
        { st with
          state := { st.state with
            tableau := st.state.tableau.mapIdx (fun idx pile =>
              if idx = sp then ⟨flipStep.2⟩
              else if idx = t then
                ⟨(st.state.tableau.getD t ⟨[]⟩).cards ++ (c0 :: rest)⟩
              else pile)
            moves := st.state.moves + 1 }
          history := st.history ++ [⟨none, (sp : Int), (t : Int), c0 :: rest,
            flipStep.1, none, none⟩]
          selectedPile := none
          selectedCardIndex := none }) := by
  simp only [moveCards, hsp, hci]
  rw [if_neg hspt]
  simp only [hM']
  rw [if_neg (by rw [hplace']; exact not_not_intro rfl)]

/-- Resolving `moveCards`' flip step: the moved-onto tableau in `set` form,
the id-preservation of the new source pile, its invariants, and the exact
inverse computed by `undoFlipBack`. -/
theorem moveCards_shape (st : Store) (t sp ci : Nat) (c0 : Card) (rest : List Card)
    (hsp : st.selectedPile = some sp) (hci : st.selectedCardIndex = some ci)
    (hspt : sp ≠ t)
    (hM' : getMovableCards (st.state.tableau.getD sp ⟨[]⟩) ci = c0 :: rest)
    (hplace' : canPlaceCard c0 (st.state.tableau.getD t ⟨[]⟩).cards.getLast? = true)
    (hndS : ((st.state.tableau.getD sp ⟨[]⟩).cards.map (fun c => c.id)).Nodup)
    (hdropeq : (st.state.tableau.getD sp ⟨[]⟩).cards.drop ci = c0 :: rest) :
    ∃ (fl : Option FlippedRef) (A' : List Card),
      moveCards st t = checkCompletedSequences
        { st with
          state := { st.state with
            tableau := (st.state.tableau.set sp ⟨A'⟩).set t
              ⟨(st.state.tableau.getD t ⟨[]⟩).cards ++ (c0 :: rest)⟩
            moves := st.state.moves + 1 }
          history := st.history ++ [⟨none, (sp : Int), (t : Int), c0 :: rest, fl, none, none⟩]
          selectedPile := none
          selectedCardIndex := none } ∧
      A'.map (fun c => c.id)
        = ((st.state.tableau.getD sp ⟨[]⟩).cards.take ci).map (fun c => c.id) ∧
      (NoWindow (st.state.tableau.getD sp ⟨[]⟩).cards →
        FaceOrder (st.state.tableau.getD sp ⟨[]⟩).cards →
        NoWindow A' ∧ FaceOrder A') ∧
      undoFlipBack fl sp (A' ++ (c0 :: rest)) = (st.state.tableau.getD sp ⟨[]⟩).cards := by
  have hmc := moveCards_eq_pos st t sp ci c0 rest hsp hci hspt hM' hplace'
  rcases hlast : ((st.state.tableau.getD sp ⟨[]⟩).cards.take ci).getLast? with _ | last
  · simp only [hlast] at hmc
    refine ⟨none, (st.state.tableau.getD sp ⟨[]⟩).cards.take ci, ?_, rfl, ?_, ?_⟩
    · rw [hmc]
      have hmap : st.state.tableau.mapIdx (fun idx pile =>
          if idx = sp then ⟨(st.state.tableau.getD sp ⟨[]⟩).cards.take ci⟩
          else if idx = t then ⟨(st.state.tableau.getD t ⟨[]⟩).cards ++ (c0 :: rest)⟩
          else pile)
          = (st.state.tableau.set sp ⟨(st.state.tableau.getD sp ⟨[]⟩).cards.take ci⟩).set t
              ⟨(st.state.tableau.getD t ⟨[]⟩).cards ++ (c0 :: rest)⟩ :=
        mapIdx_eq_set_set_of _ _ sp t _ _ (by simp only []; rw [if_pos trivial])
          (by simp only []; rw [if_neg (fun h => hspt h.symm), if_pos trivial])
          (fun i hi hisp hit => by rw [if_neg hisp, if_neg hit])
      rw [hmap]
    · intro hnw hford
      exact ⟨noWindow_take _ ci hnw, faceOrder_take _ ci hford⟩
    · show (st.state.tableau.getD sp ⟨[]⟩).cards.take ci ++ (c0 :: rest) = _
      rw [← hdropeq, List.take_append_drop]
  · by_cases hfu : last.faceUp = true
    · simp only [hlast] at hmc
      rw [if_neg (by rw [hfu]; exact not_not_intro rfl)] at hmc
      have hmc2 : moveCards st t = checkCompletedSequences
          { st with
            state := { st.state with
              tableau := st.state.tableau.mapIdx (fun idx pile =>
                if idx = sp then ⟨(st.state.tableau.getD sp ⟨[]⟩).cards.take ci⟩
                else if idx = t then
                  ⟨(st.state.tableau.getD t ⟨[]⟩).cards ++ (c0 :: rest)⟩
                else pile)
              moves := st.state.moves + 1 }
            history := st.history ++ [⟨none, (sp : Int), (t : Int), c0 :: rest,
              none, none, none⟩]
            selectedPile := none
            selectedCardIndex := none } := hmc
      refine ⟨none, (st.state.tableau.getD sp ⟨[]⟩).cards.take ci, ?_, rfl, ?_, ?_⟩
      · rw [hmc2]
        have hmap : st.state.tableau.mapIdx (fun idx pile =>
            if idx = sp then ⟨(st.state.tableau.getD sp ⟨[]⟩).cards.take ci⟩
            else if idx = t then ⟨(st.state.tableau.getD t ⟨[]⟩).cards ++ (c0 :: rest)⟩
            else pile)
            = (st.state.tableau.set sp ⟨(st.state.tableau.getD sp ⟨[]⟩).cards.take ci⟩).set t
                ⟨(st.state.tableau.getD t ⟨[]⟩).cards ++ (c0 :: rest)⟩ :=
          mapIdx_eq_set_set_of _ _ sp t _ _ (by simp only []; rw [if_pos trivial])
            (by simp only []; rw [if_neg (fun h => hspt h.symm), if_pos trivial])
            (fun i hi hisp hit => by rw [if_neg hisp, if_neg hit])
        rw [hmap]
      · intro hnw hford
        exact ⟨noWindow_take _ ci hnw, faceOrder_take _ ci hford⟩
      · show (st.state.tableau.getD sp ⟨[]⟩).cards.take ci ++ (c0 :: rest) = _
        rw [← hdropeq, List.take_append_drop]
    · have hdown : last.faceUp = false := by simpa using hfu
      simp only [hlast] at hmc
      rw [if_pos hfu] at hmc
      have hmc2 : moveCards st t = checkCompletedSequences
          { st with
            state := { st.state with
              tableau := st.state.tableau.mapIdx (fun idx pile =>
                if idx = sp then ⟨((st.state.tableau.getD sp ⟨[]⟩).cards.take ci).dropLast
                  ++ [{ last with faceUp := true }]⟩
                else if idx = t then
                  ⟨(st.state.tableau.getD t ⟨[]⟩).cards ++ (c0 :: rest)⟩
                else pile)
              moves := st.state.moves + 1 }
            history := st.history ++ [⟨none, (sp : Int), (t : Int), c0 :: rest,
              some ⟨sp, last.id⟩, none, none⟩]
            selectedPile := none
            selectedCardIndex := none } := hmc
      have hne : (st.state.tableau.getD sp ⟨[]⟩).cards.take ci ≠ [] := by
        intro hnil
        rw [hnil] at hlast
        simp at hlast
      have hdecomp : ((st.state.tableau.getD sp ⟨[]⟩).cards.take ci).dropLast ++ [last]
          = (st.state.tableau.getD sp ⟨[]⟩).cards.take ci := by
        have hdc := List.dropLast_concat_getLast hne
        rw [List.getLast?_eq_getLast _ hne] at hlast
        injection hlast with h2
        rw [h2] at hdc
        exact hdc
      refine ⟨some ⟨sp, last.id⟩,
        ((st.state.tableau.getD sp ⟨[]⟩).cards.take ci).dropLast
          ++ [{ last with faceUp := true }], ?_, ?_, ?_, ?_⟩
      · rw [hmc2]
        have hmap : st.state.tableau.mapIdx (fun idx pile =>
            if idx = sp then ⟨((st.state.tableau.getD sp ⟨[]⟩).cards.take ci).dropLast
              ++ [{ last with faceUp := true }]⟩
            else if idx = t then ⟨(st.state.tableau.getD t ⟨[]⟩).cards ++ (c0 :: rest)⟩
            else pile)
            = (st.state.tableau.set sp
                ⟨((st.state.tableau.getD sp ⟨[]⟩).cards.take ci).dropLast
                  ++ [{ last with faceUp := true }]⟩).set t
                ⟨(st.state.tableau.getD t ⟨[]⟩).cards ++ (c0 :: rest)⟩ :=
          mapIdx_eq_set_set_of _ _ sp t _ _ (by simp only []; rw [if_pos trivial])
            (by simp only []; rw [if_neg (fun h => hspt h.symm), if_pos trivial])
            (fun i hi hisp hit => by rw [if_neg hisp, if_neg hit])
        rw [hmap]
      · rw [List.map_append,
          show ([{ last with faceUp := true }] : List Card).map (fun c => c.id)
            = [last].map (fun c => c.id) from rfl,
          ← List.map_append, hdecomp]
      · intro hnw hford
        exact ⟨noWindow_flip _ last hlast hdown (faceOrder_take _ ci hford)
            (noWindow_take _ ci hnw),
          faceOrder_flip _ last hlast (faceOrder_take _ ci hford)⟩
      · show (if sp = sp then
            flipDownById ((((st.state.tableau.getD sp ⟨[]⟩).cards.take ci).dropLast
              ++ [{ last with faceUp := true }]) ++ (c0 :: rest)) last.id
          else (((st.state.tableau.getD sp ⟨[]⟩).cards.take ci).dropLast
              ++ [{ last with faceUp := true }]) ++ (c0 :: rest))
          = (st.state.tableau.getD sp ⟨[]⟩).cards
        rw [if_pos rfl,
          flipDownById_rebuild ((st.state.tableau.getD sp ⟨[]⟩).cards.take ci) last
            (c0 :: rest) hlast hdown
            (List.Nodup.sublist (List.Sublist.map _ (List.take_sublist ci _)) hndS),
          ← hdropeq, List.take_append_drop]

/-- Master lemma for a legal move: `undo` after `moveCards` restores the
pre-move store exactly (with the selection cleared), and the store invariant
is preserved by the move. -/
theorem moveCards_core (st : Store) (t : Nat) (ht : t < st.state.tableau.length)
    (hinv : StoreInv st) (hleg : MoveLegal st t) :
    undo (moveCards st t) = { st with selectedPile := none, selectedCardIndex := none } ∧
    StoreInv (moveCards st t) := by
  obtain ⟨⟨hlen10, hndbag, hfordAll, hnwAll, hgw⟩, hsel⟩ := hinv
  obtain ⟨sp, ci, hsp, hci, hspt, hmv, hplace⟩ := hleg
  obtain ⟨hsplen, hcilen, hface⟩ := hsel sp ci hsp hci
  obtain ⟨hMd, hdesc⟩ := getMovableCards_eq_drop _ ci hmv
  have hdropne : (st.state.tableau.getD sp ⟨[]⟩).cards.drop ci ≠ [] := by
    rw [← hMd]; exact hmv
  obtain ⟨c0, rest, hdropeq⟩ := List.exists_cons_of_ne_nil hdropne
  have hM' : getMovableCards (st.state.tableau.getD sp ⟨[]⟩) ci = c0 :: rest := by
    rw [hMd, hdropeq]
  have htklen : ((st.state.tableau.getD sp ⟨[]⟩).cards.take ci).length = ci := by
    rw [List.length_take]; omega
  have hc0 : (st.state.tableau.getD sp ⟨[]⟩).cards.getD ci dummyCard = c0 := by
    have hsplit : (st.state.tableau.getD sp ⟨[]⟩).cards
        = (st.state.tableau.getD sp ⟨[]⟩).cards.take ci ++ (c0 :: rest) := by
      rw [← hdropeq, List.take_append_drop]
    conv_lhs => rw [hsplit]
    show windowCard _ ci = c0
    rw [windowCard_append_right _ _ ci (le_of_eq htklen), htklen, Nat.sub_self]
    rfl
  have hplace' : canPlaceCard c0 (st.state.tableau.getD t ⟨[]⟩).cards.getLast? = true := by
    rw [← hc0]; exact hplace
  have hSmem : st.state.tableau.getD sp ⟨[]⟩ ∈ st.state.tableau := by
    rw [List.getD_eq_getElem _ _ hsplen]; exact List.getElem_mem _
  have hTmem : st.state.tableau.getD t ⟨[]⟩ ∈ st.state.tableau := by
    rw [List.getD_eq_getElem _ _ ht]; exact List.getElem_mem _
  have hndS := pile_ids_nodup st.state hndbag _ hSmem
  have hndT := pile_ids_nodup st.state hndbag _ hTmem
  obtain ⟨fl, A', hmc, hidsA, hnwfoA, hundoflip⟩ :=
    moveCards_shape st t sp ci c0 rest hsp hci hspt hM' hplace' hndS hdropeq
  obtain ⟨hnwA, hfoA⟩ := hnwfoA (hnwAll _ hSmem) (hfordAll _ hSmem)
  have hMup : ∀ c ∈ c0 :: rest, c.faceUp = true := by
    rw [← hdropeq]
    exact faceOrder_drop_up _ ci (hfordAll _ hSmem) hcilen hface
  have hMdesc : descendingByOne (c0 :: rest) = true := by
    rw [← hdropeq]; exact hdesc
  have hMidsub : List.Sublist ((c0 :: rest).map (fun c => c.id))
      ((st.state.tableau.getD sp ⟨[]⟩).cards.map (fun c => c.id)) := by
    rw [← hdropeq]
    exact List.Sublist.map _ (List.drop_sublist _ _)
  set st1 : Store := { st with
    state := { st.state with
      tableau := (st.state.tableau.set sp ⟨A'⟩).set t
        ⟨(st.state.tableau.getD t ⟨[]⟩).cards ++ (c0 :: rest)⟩
      moves := st.state.moves + 1 }
    history := st.history ++ [⟨none, (sp : Int), (t : Int), c0 :: rest, fl, none, none⟩]
    selectedPile := none
    selectedCardIndex := none } with hst1def
  have hst1tab : st1.state.tableau = (st.state.tableau.set sp ⟨A'⟩).set t
      ⟨(st.state.tableau.getD t ⟨[]⟩).cards ++ (c0 :: rest)⟩ := rfl
  have hst1hist : st1.history
      = st.history ++ [⟨none, (sp : Int), (t : Int), c0 :: rest, fl, none, none⟩] := rfl
  have hflush1 : ∀ pile ∈ st1.state.tableau, ∀ j,
      IsCompleteWindow pile.cards j → j + 13 = pile.cards.length := by
    intro pile hp
    rw [hst1tab] at hp
    rcases mem_set_set hp with hB | hA | hTB
    · rw [hB]
      exact fun j hw => window_flush_append _ _ (hnwAll _ hTmem) hMdesc j hw
    · rw [hA]
      exact fun j hw => absurd hw (hnwA j)
    · exact fun j hw => absurd hw (hnwAll pile hTB j)
  have hford1 : ∀ pile ∈ st1.state.tableau, FaceOrder pile.cards := by
    intro pile hp
    rw [hst1tab] at hp
    rcases mem_set_set hp with hB | hA | hTB
    · rw [hB]
      exact faceOrder_append_up _ _ (hfordAll _ hTmem) hMup
    · rw [hA]
      exact hfoA
    · exact hfordAll pile hTB
  have hnd1 : ∀ pile ∈ st1.state.tableau, (pile.cards.map (fun c => c.id)).Nodup := by
    intro pile hp
    rw [hst1tab] at hp
    rcases mem_set_set hp with hB | hA | hTB
    · rw [hB]
      show (((st.state.tableau.getD t ⟨[]⟩).cards ++ (c0 :: rest)).map
        (fun c => c.id)).Nodup
      rw [List.map_append, List.nodup_append]
      refine ⟨hndT, List.Nodup.sublist hMidsub hndS, ?_⟩
      intro a haT haM
      exact pile_ids_disjoint st.state hndbag t sp (fun h => hspt h.symm) ht hsplen a haT
        (hMidsub.subset haM)
    · rw [hA]
      show (A'.map (fun c => c.id)).Nodup
      rw [hidsA]
      exact List.Nodup.sublist (List.Sublist.map _ (List.take_sublist ci _)) hndS
    · exact pile_ids_nodup st.state hndbag pile hTB
  have hgw1 : st1.state.gameWon = decide (st1.state.completedSequences.length = 8) := hgw
  obtain ⟨e2, hhist2, he2ht, he2from, he2to, he2cards, he2flip, he2dealt, hrc, hstock2,
    hmoves2, hdiff2, hselp2, hselc2, hlen2, hNWFO, hsum2, hgwi⟩ :=
    ccs_restore st1 st.history ⟨none, (sp : Int), (t : Int), c0 :: rest, fl, none, none⟩
      hst1hist rfl hflush1 hford1 hnd1
  have hT1 : st1.state.tableau.getD t ⟨[]⟩
      = ⟨(st.state.tableau.getD t ⟨[]⟩).cards ++ (c0 :: rest)⟩ := by
    rw [hst1tab]
    exact getD_set_self _ t _ (by rw [List.length_set]; exact ht)
  have hS1 : st1.state.tableau.getD sp ⟨[]⟩ = ⟨A'⟩ := by
    rw [hst1tab, getD_set_ne _ t sp _ (fun h => hspt h.symm)]
    exact getD_set_self _ sp _ hsplen
  have hsum1 : (st1.state.tableau.map pileBag).sum = (st.state.tableau.map pileBag).sum := by
    rw [hst1tab]
    apply sum_set_set_eq _ sp t _ _ hsplen ht hspt
    show ((A'.map (fun c => c.id) : List Nat) : Multiset Nat)
        + ((((st.state.tableau.getD t ⟨[]⟩).cards ++ (c0 :: rest)).map (fun c => c.id)
            : List Nat) : Multiset Nat)
        = (((st.state.tableau.getD sp ⟨[]⟩).cards.map (fun c => c.id) : List Nat)
            : Multiset Nat)
          + (((st.state.tableau.getD t ⟨[]⟩).cards.map (fun c => c.id) : List Nat)
            : Multiset Nat)
    rw [hidsA, List.map_append]
    have hSids : (st.state.tableau.getD sp ⟨[]⟩).cards.map (fun c => c.id)
        = ((st.state.tableau.getD sp ⟨[]⟩).cards.take ci).map (fun c => c.id)
          ++ ((c0 :: rest).map (fun c => c.id)) := by
      conv_lhs => rw [← List.take_append_drop ci (st.state.tableau.getD sp ⟨[]⟩).cards]
      rw [List.map_append, hdropeq]
    rw [hSids]
    have e1 : ((((st.state.tableau.getD t ⟨[]⟩).cards.map (fun c => c.id))
          ++ ((c0 :: rest).map (fun c => c.id)) : List Nat) : Multiset Nat)
        = (((st.state.tableau.getD t ⟨[]⟩).cards.map (fun c => c.id) : List Nat)
            : Multiset Nat)
          + (((c0 :: rest).map (fun c => c.id) : List Nat) : Multiset Nat) := rfl
    have e2 : (((((st.state.tableau.getD sp ⟨[]⟩).cards.take ci).map (fun c => c.id))
          ++ ((c0 :: rest).map (fun c => c.id)) : List Nat) : Multiset Nat)
        = ((((st.state.tableau.getD sp ⟨[]⟩).cards.take ci).map (fun c => c.id)
            : List Nat) : Multiset Nat)
          + (((c0 :: rest).map (fun c => c.id) : List Nat) : Multiset Nat) := rfl
    rw [e1, e2]
    abel
  have hMids : ∀ c ∈ c0 :: rest, ((c0 :: rest).map (fun c => c.id)).contains c.id = true := by
    intro c hc
    rw [contains_id_iff]
    exact List.mem_map_of_mem _ hc
  have hTdisj : ∀ c ∈ (st.state.tableau.getD t ⟨[]⟩).cards,
      ((c0 :: rest).map (fun c => c.id)).contains c.id = false := by
    intro c hc
    by_contra hcon
    rw [Bool.not_eq_false, contains_id_iff] at hcon
    exact pile_ids_disjoint st.state hndbag t sp (fun h => hspt h.symm) ht hsplen c.id
      (List.mem_map_of_mem _ hc) (hMidsub.subset hcon)
  have hex : extractByIds ((c0 :: rest).map (fun c => c.id)) (c0 :: rest).length
      ((st.state.tableau.getD t ⟨[]⟩).cards ++ (c0 :: rest))
      = (c0 :: rest, (st.state.tableau.getD t ⟨[]⟩).cards) :=
    extractByIds_append _ _ _ hTdisj hMids
  refine ⟨?_, ?_⟩
  · rw [hmc]
    have hget : (checkCompletedSequences st1).history.getLast? = some e2 := by
      rw [hhist2]
      exact List.getLast?_concat _
    have hcond : (e2.htype == some "deal" && e2.dealtCards.isSome) = false := by
      rw [he2ht]
      rfl
    simp only [undo, hget]
    rw [hcond]
    rw [if_neg (by simp)]
    simp only [hrc, he2cards, he2to, he2from, he2flip, Int.toNat_natCast, hT1, hex]
    have hmapeq : st1.state.tableau.mapIdx (fun idx pile =>
        if (idx : Int) = ((t : Nat) : Int) then
          (⟨(st.state.tableau.getD t ⟨[]⟩).cards⟩ : Pile)
        else if (idx : Int) = ((sp : Nat) : Int) then
          ⟨undoFlipBack fl idx (pile.cards ++ (c0 :: rest))⟩
        else pile)
        = (st1.state.tableau.set t ⟨(st.state.tableau.getD t ⟨[]⟩).cards⟩).set sp
            ⟨(st.state.tableau.getD sp ⟨[]⟩).cards⟩ := by
      apply mapIdx_eq_set_set_of _ _ t sp
      · show (if ((t : Nat) : Int) = ((t : Nat) : Int) then
            (⟨(st.state.tableau.getD t ⟨[]⟩).cards⟩ : Pile)
          else if ((t : Nat) : Int) = ((sp : Nat) : Int) then
            ⟨undoFlipBack fl t ((st1.state.tableau.getD t ⟨[]⟩).cards ++ (c0 :: rest))⟩
          else st1.state.tableau.getD t ⟨[]⟩)
          = ⟨(st.state.tableau.getD t ⟨[]⟩).cards⟩
        rw [if_pos rfl]
      · show (if ((sp : Nat) : Int) = ((t : Nat) : Int) then
            (⟨(st.state.tableau.getD t ⟨[]⟩).cards⟩ : Pile)
          else if ((sp : Nat) : Int) = ((sp : Nat) : Int) then
            ⟨undoFlipBack fl sp ((st1.state.tableau.getD sp ⟨[]⟩).cards ++ (c0 :: rest))⟩
          else st1.state.tableau.getD sp ⟨[]⟩)
          = ⟨(st.state.tableau.getD sp ⟨[]⟩).cards⟩
        rw [if_neg (fun h => hspt (by exact_mod_cast h)), if_pos rfl]
        have hc : (st1.state.tableau.getD sp ⟨[]⟩).cards = A' := by rw [hS1]
        rw [hc, hundoflip]
      · intro i hi hit hisp
        show (if ((i : Nat) : Int) = ((t : Nat) : Int) then
            (⟨(st.state.tableau.getD t ⟨[]⟩).cards⟩ : Pile)
          else if ((i : Nat) : Int) = ((sp : Nat) : Int) then
            ⟨undoFlipBack fl i ((st1.state.tableau.getD i ⟨[]⟩).cards ++ (c0 :: rest))⟩
          else st1.state.tableau.getD i ⟨[]⟩)
          = st1.state.tableau.getD i ⟨[]⟩
        rw [if_neg (fun h => hit (by exact_mod_cast h)),
          if_neg (fun h => hisp (by exact_mod_cast h))]
    rw [hmapeq]
    have hback : (st1.state.tableau.set t ⟨(st.state.tableau.getD t ⟨[]⟩).cards⟩).set sp
        ⟨(st.state.tableau.getD sp ⟨[]⟩).cards⟩ = st.state.tableau := by
      rw [hst1tab, List.set_set, List.set_comm _ _ _ hspt, List.set_set]
      have h1 : (⟨(st.state.tableau.getD t ⟨[]⟩).cards⟩ : Pile)
          = st.state.tableau.getD t ⟨[]⟩ := rfl
      have h2 : (⟨(st.state.tableau.getD sp ⟨[]⟩).cards⟩ : Pile)
          = st.state.tableau.getD sp ⟨[]⟩ := rfl
      rw [h1, h2, set_getD_eq_self _ t ht, set_getD_eq_self _ sp hsplen]
    rw [hback, hstock2, hmoves2, hdiff2, hhist2, List.dropLast_concat, beq_nat_decide]
    show Store.mk (GameState.mk st.state.tableau st.state.stock st.state.completedSequences
        (st.state.moves + 1 - 1) (decide (st.state.completedSequences.length = 8))
        st.state.difficulty) st.history none none
      = { st with selectedPile := none, selectedCardIndex := none }
    rw [add_sub_cancel_right, ← hgw]
  · rw [hmc]
    refine ⟨⟨?_, ?_, ?_, ?_, ?_⟩, ?_⟩
    · rw [hlen2, hst1tab]
      simp only [List.length_set]
      exact hlen10
    · have hbag1 : idBag st1.state = idBag st.state := by
        show (st1.state.tableau.map pileBag).sum
            + ((st.state.stock.map (fun c => c.id) : List Nat) : Multiset Nat)
          = idBag st.state
        rw [hsum1]
        rfl
      have hle : idBag (checkCompletedSequences st1).state ≤ idBag st.state := by
        rw [← hbag1]
        show ((checkCompletedSequences st1).state.tableau.map pileBag).sum
            + (((checkCompletedSequences st1).state.stock.map (fun c => c.id) : List Nat)
              : Multiset Nat)
          ≤ idBag st1.state
        rw [hstock2]
        exact add_le_add_right hsum2 _
      exact Multiset.nodup_of_le hle hndbag
    · exact fun pile hp => (hNWFO pile hp).2
    · exact fun pile hp => (hNWFO pile hp).1
    · exact hgwi hgw1
    · intro sp' ci' h1 h2
      rw [hselp2] at h1
      exact Option.noConfusion (show (none : Option Nat) = some sp' from h1)

theorem pile_stock_disjoint (s : GameState) (hnd : (idBag s).Nodup) (pile : Pile)
    (hmem : pile ∈ s.tableau) :
    ∀ a ∈ pile.cards.map (fun c => c.id), a ∉ s.stock.map (fun c => c.id) := by
  have h0 : pileBag pile ≤ (s.tableau.map pileBag).sum :=
    List.single_le_sum (fun x _ => Multiset.zero_le x) _ (List.mem_map_of_mem pileBag hmem)
  have h1 : pileBag pile + ((s.stock.map (fun c => c.id) : List Nat) : Multiset Nat)
      ≤ idBag s := add_le_add_right h0 _
  have h2 := Multiset.nodup_of_le h1 hnd
  rw [Multiset.nodup_add] at h2
  intro a ha has
  exact (Multiset.disjoint_left.mp h2.2.2) (Multiset.mem_coe.mpr ha)
    (Multiset.mem_coe.mpr has)

theorem flatten_map_singleton (f : Nat → Card) (l : List Nat) :
    (l.map (fun i => [f i])).flatten = l.map f := by
  induction l with
  | nil => rfl
  | cons a t ih => simp [ih]

theorem mem_mapIdx_exists {f : Nat → Pile → Pile} (TB : List Pile) (pile : Pile)
    (hp : pile ∈ TB.mapIdx f) : ∃ i, ∃ hi : i < TB.length, pile = f i TB[i] := by
  obtain ⟨i, hi, hel⟩ := List.mem_iff_getElem.mp hp
  have hil : i < TB.length := by simpa using hi
  refine ⟨i, hil, ?_⟩
  rw [← hel, List.getElem_mapIdx]

/-- Master lemma for a deal: `undo` after `deal` restores the pre-deal store
exactly (with the selection cleared), and the store invariant is preserved. -/
theorem deal_core (st : Store) (hinv : StoreInv st) (hc : canDeal st.state = true) :
    undo (deal st) = { st with selectedPile := none, selectedCardIndex := none } ∧
    StoreInv (deal st) := by
  obtain ⟨⟨hlen10, hndbag, hfordAll, hnwAll, hgw⟩, hsel⟩ := hinv
  have hc' := hc
  rw [canDeal, Bool.and_eq_true, decide_eq_true_eq] at hc'
  have h10 : 10 ≤ st.state.stock.length := hc'.1
  have hstock10 : ¬ st.state.stock.length < 10 := by omega
  have hdfs : dealFromStock st.state = { st.state with
      tableau := st.state.tableau.mapIdx (fun index pile =>
        ⟨pile.cards ++ [{ st.state.stock.getD index dummyCard with faceUp := true }]⟩)
      stock := st.state.stock.drop 10
      moves := st.state.moves + 1 } := by
    rw [dealFromStock, if_neg hstock10]
  have hdc : deal st = checkCompletedSequences
      { st with
        state := { st.state with
          tableau := st.state.tableau.mapIdx (fun index pile =>
            ⟨pile.cards ++ [{ st.state.stock.getD index dummyCard with faceUp := true }]⟩)
          stock := st.state.stock.drop 10
          moves := st.state.moves + 1 }
        history := st.history ++ [⟨some "deal", -1, -1, [], none,
          some ((List.range 10).map (fun i => [st.state.stock.getD i dummyCard])), none⟩]
        selectedPile := none
        selectedCardIndex := none } := by
    rw [deal, if_neg (by rw [hc]; exact not_not_intro rfl), hdfs]
  set st1 : Store := { st with
    state := { st.state with
      tableau := st.state.tableau.mapIdx (fun index pile =>
        ⟨pile.cards ++ [{ st.state.stock.getD index dummyCard with faceUp := true }]⟩)
      stock := st.state.stock.drop 10
      moves := st.state.moves + 1 }
    history := st.history ++ [⟨some "deal", -1, -1, [], none,
      some ((List.range 10).map (fun i => [st.state.stock.getD i dummyCard])), none⟩]
    selectedPile := none
    selectedCardIndex := none } with hst1def
  have hst1tab : st1.state.tableau = st.state.tableau.mapIdx (fun index pile =>
      ⟨pile.cards ++ [{ st.state.stock.getD index dummyCard with faceUp := true }]⟩) := rfl
  have hst1hist : st1.history = st.history ++ [⟨some "deal", -1, -1, [], none,
      some ((List.range 10).map (fun i => [st.state.stock.getD i dummyCard])), none⟩] := rfl
  have hflush1 : ∀ pile ∈ st1.state.tableau, ∀ j,
      IsCompleteWindow pile.cards j → j + 13 = pile.cards.length := by
    intro pile hp
    rw [hst1tab] at hp
    obtain ⟨i, hi, hpe⟩ := mem_mapIdx_exists _ _ hp
    rw [hpe]
    exact fun j hw => window_flush_append _ _ (hnwAll _ (List.getElem_mem _))
      (descendingByOne_singleton _) j hw
  have hford1 : ∀ pile ∈ st1.state.tableau, FaceOrder pile.cards := by
    intro pile hp
    rw [hst1tab] at hp
    obtain ⟨i, hi, hpe⟩ := mem_mapIdx_exists _ _ hp
    rw [hpe]
    exact faceOrder_append_up _ _ (hfordAll _ (List.getElem_mem _))
      (fun c hcm => by rw [List.mem_singleton.mp hcm])
  have hnd1 : ∀ pile ∈ st1.state.tableau, (pile.cards.map (fun c => c.id)).Nodup := by
    intro pile hp
    rw [hst1tab] at hp
    obtain ⟨i, hi, hpe⟩ := mem_mapIdx_exists _ _ hp
    rw [hpe]
    show ((st.state.tableau[i].cards
      ++ [{ st.state.stock.getD i dummyCard with faceUp := true }]).map
        (fun (c : Card) => c.id)).Nodup
    rw [List.map_append, List.nodup_append]
    refine ⟨pile_ids_nodup st.state hndbag _ (List.getElem_mem _), by simp, ?_⟩
    intro a hpa hsa
    have hsa' : a = (st.state.stock.getD i dummyCard).id := by
      simpa using hsa
    apply pile_stock_disjoint st.state hndbag _ (List.getElem_mem _) a hpa
    rw [hsa']
    apply List.mem_map_of_mem
    rw [List.getD_eq_getElem _ _ (by omega : i < st.state.stock.length)]
    exact List.getElem_mem _
  have hgw1 : st1.state.gameWon = decide (st1.state.completedSequences.length = 8) := hgw
  obtain ⟨e2, hhist2, he2ht, he2from, he2to, he2cards, he2flip, he2dealt, hrc, hstock2,
    hmoves2, hdiff2, hselp2, hselc2, hlen2, hNWFO, hsum2, hgwi⟩ :=
    ccs_restore st1 st.history ⟨some "deal", -1, -1, [], none,
      some ((List.range 10).map (fun i => [st.state.stock.getD i dummyCard])), none⟩
      hst1hist rfl hflush1 hford1 hnd1
  refine ⟨?_, ?_⟩
  · rw [hdc]
    have hget : (checkCompletedSequences st1).history.getLast? = some e2 := by
      rw [hhist2]
      exact List.getLast?_concat _
    have hcond : (e2.htype == some "deal" && e2.dealtCards.isSome) = true := by
      rw [he2ht, he2dealt]
      rfl
    simp only [undo, hget]
    rw [if_pos hcond]
    simp only [hrc, he2dealt, Option.getD_some]
    have hstrip : st1.state.tableau.map (fun pile => (⟨pile.cards.dropLast⟩ : Pile))
        = st.state.tableau := by
      rw [hst1tab]
      apply List.ext_getElem
      · simp
      · intro i h1 h2
        rw [List.getElem_map, List.getElem_mapIdx]
        show (⟨(st.state.tableau[i].cards
          ++ [{ st.state.stock.getD i dummyCard with faceUp := true }]).dropLast⟩ : Pile)
          = st.state.tableau[i]
        rw [List.dropLast_concat]
    rw [hstrip]
    have hflat : ((List.range 10).map (fun i => [st.state.stock.getD i dummyCard])).flatten
        = st.state.stock.take 10 := by
      rw [flatten_map_singleton (fun i => st.state.stock.getD i dummyCard)]
      exact range_map_getD_eq_take _ 10 h10
    rw [hflat, hstock2]
    have hs1stock : st1.state.stock = st.state.stock.drop 10 := rfl
    rw [hs1stock, List.take_append_drop, hhist2, List.dropLast_concat, beq_nat_decide,
      hmoves2, hdiff2]
    show Store.mk (GameState.mk st.state.tableau st.state.stock st.state.completedSequences
        (st.state.moves + 1 - 1) (decide (st.state.completedSequences.length = 8))
        st.state.difficulty) st.history none none
      = { st with selectedPile := none, selectedCardIndex := none }
    rw [add_sub_cancel_right, ← hgw]
  · rw [hdc]
    refine ⟨⟨?_, ?_, ?_, ?_, ?_⟩, ?_⟩
    · rw [hlen2, hst1tab, List.length_mapIdx]
      exact hlen10
    · have hH : ∀ i (x : Pile), pileBag ((fun index pile =>
            (⟨pile.cards ++ [{ st.state.stock.getD index dummyCard with faceUp := true }]⟩
              : Pile)) i x)
          = pileBag x + ({(st.state.stock.getD i dummyCard).id} : Multiset Nat) := by
        intro i x
        show ((((x.cards
            ++ [({ st.state.stock.getD i dummyCard with faceUp := true } : Card)]).map
          (fun (c : Card) => c.id)) : List Nat) : Multiset Nat)
          = pileBag x + ({(st.state.stock.getD i dummyCard).id} : Multiset Nat)
        rw [List.map_append]
        rfl
      have hsum1 := sum_map_mapIdx_add st.state.tableau _ pileBag
        (fun i => ({(st.state.stock.getD i dummyCard).id} : Multiset Nat)) hH
      rw [hlen10] at hsum1
      have hsing : ((List.range 10).map (fun i =>
          ({(st.state.stock.getD i dummyCard).id} : Multiset Nat))).sum
          = (((st.state.stock.take 10).map (fun c => c.id) : List Nat) : Multiset Nat) := by
        have hmm : (List.range 10).map (fun i =>
            ({(st.state.stock.getD i dummyCard).id} : Multiset Nat))
            = ((List.range 10).map (fun i => (st.state.stock.getD i dummyCard).id)).map
              (fun x => ({x} : Multiset Nat)) := by
          rw [List.map_map]
          rfl
        rw [hmm, singleton_sum]
        congr 1
        have hmm2 : (List.range 10).map (fun i => (st.state.stock.getD i dummyCard).id)
            = ((List.range 10).map (fun i => st.state.stock.getD i dummyCard)).map
              (fun c => c.id) := by
          rw [List.map_map]
          rfl
        rw [hmm2, range_map_getD_eq_take _ 10 h10]
      have hbag1 : idBag st1.state = idBag st.state := by
        have hids : (((st.state.stock.take 10).map (fun c => c.id)) : List Nat)
            ++ ((st.state.stock.drop 10).map (fun c => c.id))
            = st.state.stock.map (fun c => c.id) := by
          rw [← List.map_append, List.take_append_drop]
        calc idBag st1.state
            = ((st.state.tableau.mapIdx (fun index pile =>
                (⟨pile.cards
                  ++ [({ st.state.stock.getD index dummyCard with faceUp := true }
                    : Card)]⟩
                  : Pile))).map pileBag).sum
              + (((st.state.stock.drop 10).map (fun c => c.id) : List Nat)
                : Multiset Nat) := rfl
          _ = (st.state.tableau.map pileBag).sum
              + (((st.state.stock.take 10).map (fun c => c.id) : List Nat) : Multiset Nat)
              + (((st.state.stock.drop 10).map (fun c => c.id) : List Nat)
                : Multiset Nat) := by
              rw [hsum1, hsing]
          _ = (st.state.tableau.map pileBag).sum
              + ((((st.state.stock.take 10).map (fun c => c.id))
                  ++ ((st.state.stock.drop 10).map (fun c => c.id)) : List Nat)
                : Multiset Nat) := by
              rw [add_assoc]
              rfl
          _ = (st.state.tableau.map pileBag).sum
              + ((st.state.stock.map (fun c => c.id) : List Nat) : Multiset Nat) := by
              rw [hids]
          _ = idBag st.state := rfl
      have hle : idBag (checkCompletedSequences st1).state ≤ idBag st.state := by
        rw [← hbag1]
        show ((checkCompletedSequences st1).state.tableau.map pileBag).sum
            + (((checkCompletedSequences st1).state.stock.map (fun c => c.id) : List Nat)
              : Multiset Nat) ≤ idBag st1.state
        rw [hstock2]
        exact add_le_add_right hsum2 _
      exact Multiset.nodup_of_le hle hndbag
    · exact fun pile hp => (hNWFO pile hp).2
    · exact fun pile hp => (hNWFO pile hp).1
    · exact hgwi hgw1
    · intro sp' ci' h1 h2
      rw [hselp2] at h1
      exact Option.noConfusion (show (none : Option Nat) = some sp' from h1)

theorem movable_head_getD (P : Pile) (ci : Nat) (c0 : Card) (rest : List Card)
    (hM : getMovableCards P ci = c0 :: rest) :
    P.cards.getD ci dummyCard = c0 ∧ P.cards.drop ci = c0 :: rest := by
  obtain ⟨hMd, hdesc⟩ := getMovableCards_eq_drop P ci (by rw [hM]; intro h; cases h)
  have hdropeq : P.cards.drop ci = c0 :: rest := by rw [← hMd, hM]
  have hlt : ci < P.cards.length := by
    by_contra hcon
    rw [List.drop_eq_nil_of_le (by omega)] at hdropeq
    cases hdropeq
  have htklen : (P.cards.take ci).length = ci := by rw [List.length_take]; omega
  refine ⟨?_, hdropeq⟩
  have hsplit : P.cards = P.cards.take ci ++ (c0 :: rest) := by
    rw [← hdropeq, List.take_append_drop]
  conv_lhs => rw [hsplit]
  show windowCard _ ci = c0
  rw [windowCard_append_right _ _ ci (le_of_eq htklen), htklen, Nat.sub_self]
  rfl

theorem dealtPile_ids (deck : List Card) (col : Nat) :
    (dealtPile deck col).cards.map (fun c => c.id)
      = ((deck.drop (colStart col)).take (if col < 4 then 6 else 5)).map
          (fun c => c.id) := by
  show (((deck.drop (colStart col)).take (if col < 4 then 6 else 5)).enum.map
      (fun rc => ({ rc.2 with faceUp := rc.1 == (if col < 4 then 6 else 5) - 1 }
        : Card))).map (fun (c : Card) => c.id) = _
  rw [List.map_map]
  have h1 : ((fun (c : Card) => c.id) ∘ (fun rc : Nat × Card =>
      ({ rc.2 with faceUp := rc.1 == (if col < 4 then 6 else 5) - 1 } : Card)))
      = (fun (c : Card) => c.id) ∘ Prod.snd := rfl
  rw [h1, ← List.map_map, List.enum_map_snd]

theorem ids_chunk (l : List Card) (k n m : Nat) (hm : k + n = m) :
    ((((l.drop k).take n).map (fun c => c.id) : List Nat) : Multiset Nat)
      + (((l.drop m).map (fun c => c.id) : List Nat) : Multiset Nat)
      = (((l.drop k).map (fun c => c.id) : List Nat) : Multiset Nat) := by
  subst hm
  have h2 : (l.drop k).drop n = l.drop (k + n) := by
    rw [List.drop_drop, Nat.add_comm]
  rw [← h2]
  show ((((l.drop k).take n).map (fun c => c.id)
      ++ ((l.drop k).drop n).map (fun c => c.id) : List Nat) : Multiset Nat)
    = (((l.drop k).map (fun c => c.id) : List Nat) : Multiset Nat)
  rw [← List.map_append, List.take_append_drop]

theorem dealtPile_faceOrder (deck : List Card) (col : Nat) (h : col < 10)
    (hd : deck.length = 104) : FaceOrder (dealtPile deck col).cards := by
  intro i j hij hj hup
  have hlen := dealtPile_length deck col h hd
  have hii : i < (dealtPile deck col).cards.length := by omega
  have hi' := (dealtPile_faceUp deck col i hii).mp hup
  have hgoal := dealtPile_faceUp deck col j hj
  by_cases h4 : col < 4
  · simp only [h4, if_true] at hi' hlen hgoal
    exact hgoal.mpr (by omega)
  · simp only [h4, if_false] at hi' hlen hgoal
    exact hgoal.mpr (by omega)

theorem dealtPile_noWindow (deck : List Card) (col : Nat) (h : col < 10)
    (hd : deck.length = 104) : NoWindow (dealtPile deck col).cards := by
  intro j hw
  have hlen := dealtPile_length deck col h hd
  have hb := hw.1
  by_cases h4 : col < 4 <;> simp only [h4, if_true, if_false] at hlen <;> omega

theorem initializeGame_idBag (deck : List Card) (d : Difficulty) :
    idBag (initializeGame deck d)
      = ((deck.map (fun c => c.id) : List Nat) : Multiset Nat) := by
  have hpb : ∀ col, pileBag (dealtPile deck col)
      = ((((deck.drop (colStart col)).take (if col < 4 then 6 else 5)).map
          (fun c => c.id) : List Nat) : Multiset Nat) := by
    intro col
    unfold pileBag
    rw [dealtPile_ids]
  show (((List.range 10).map (dealtPile deck)).map pileBag).sum
      + (((deck.drop 54).map (fun c => c.id) : List Nat) : Multiset Nat)
    = ((deck.map (fun c => c.id) : List Nat) : Multiset Nat)
  rw [show List.range 10 = [0, 1, 2, 3, 4, 5, 6, 7, 8, 9] from rfl]
  simp only [List.map_cons, List.map_nil, List.sum_cons, List.sum_nil, hpb]
  show ((((deck.drop 0).take 6).map (fun c => c.id) : List Nat) : Multiset Nat)
      + (((((deck.drop 6).take 6).map (fun c => c.id) : List Nat) : Multiset Nat)
      + (((((deck.drop 12).take 6).map (fun c => c.id) : List Nat) : Multiset Nat)
      + (((((deck.drop 18).take 6).map (fun c => c.id) : List Nat) : Multiset Nat)
      + (((((deck.drop 24).take 5).map (fun c => c.id) : List Nat) : Multiset Nat)
      + (((((deck.drop 29).take 5).map (fun c => c.id) : List Nat) : Multiset Nat)
      + (((((deck.drop 34).take 5).map (fun c => c.id) : List Nat) : Multiset Nat)
      + (((((deck.drop 39).take 5).map (fun c => c.id) : List Nat) : Multiset Nat)
      + (((((deck.drop 44).take 5).map (fun c => c.id) : List Nat) : Multiset Nat)
      + (((((deck.drop 49).take 5).map (fun c => c.id) : List Nat) : Multiset Nat)
      + 0)))))))))
      + (((deck.drop 54).map (fun c => c.id) : List Nat) : Multiset Nat)
    = ((deck.map (fun c => c.id) : List Nat) : Multiset Nat)
  have hbig : ((deck.map (fun c => c.id) : List Nat) : Multiset Nat)
      = ((((deck.drop 0).take 6).map (fun c => c.id) : List Nat) : Multiset Nat)
      + (((((deck.drop 6).take 6).map (fun c => c.id) : List Nat) : Multiset Nat)
      + (((((deck.drop 12).take 6).map (fun c => c.id) : List Nat) : Multiset Nat)
      + (((((deck.drop 18).take 6).map (fun c => c.id) : List Nat) : Multiset Nat)
      + (((((deck.drop 24).take 5).map (fun c => c.id) : List Nat) : Multiset Nat)
      + (((((deck.drop 29).take 5).map (fun c => c.id) : List Nat) : Multiset Nat)
      + (((((deck.drop 34).take 5).map (fun c => c.id) : List Nat) : Multiset Nat)
      + (((((deck.drop 39).take 5).map (fun c => c.id) : List Nat) : Multiset Nat)
      + (((((deck.drop 44).take 5).map (fun c => c.id) : List Nat) : Multiset Nat)
      + (((((deck.drop 49).take 5).map (fun c => c.id) : List Nat) : Multiset Nat)
      + (((deck.drop 54).map (fun c => c.id) : List Nat) : Multiset Nat))))))))))
      := by
    calc ((deck.map (fun c => c.id) : List Nat) : Multiset Nat)
        = (((deck.drop 0).map (fun c => c.id) : List Nat) : Multiset Nat) := rfl
      _ = ((((deck.drop 0).take 6).map (fun c => c.id) : List Nat) : Multiset Nat)
          + (((deck.drop 6).map (fun c => c.id) : List Nat) : Multiset Nat) :=
          (ids_chunk deck 0 6 6 (by decide)).symm
      _ = _ := by
        rw [← ids_chunk deck 6 6 12 (by decide), ← ids_chunk deck 12 6 18 (by decide),
          ← ids_chunk deck 18 6 24 (by decide), ← ids_chunk deck 24 5 29 (by decide),
          ← ids_chunk deck 29 5 34 (by decide), ← ids_chunk deck 34 5 39 (by decide),
          ← ids_chunk deck 39 5 44 (by decide), ← ids_chunk deck 44 5 49 (by decide),
          ← ids_chunk deck 49 5 54 (by decide)]
  rw [hbig]
  abel

theorem initializeGame_storeInv (deck : List Card) (d : Difficulty) (h : InitialDeck deck) :
    StoreInv ⟨initializeGame deck d, [], none, none⟩ := by
  obtain ⟨hd, hnd⟩ := h
  refine ⟨⟨by simp [initializeGame], ?_, ?_, ?_, rfl⟩, ?_⟩
  · show (idBag (initializeGame deck d)).Nodup
    rw [initializeGame_idBag]
    exact Multiset.coe_nodup.mpr hnd
  · intro pile hp
    obtain ⟨col, hcol, hpe⟩ := List.mem_map.mp hp
    rw [← hpe]
    exact dealtPile_faceOrder deck col (List.mem_range.mp hcol) hd
  · intro pile hp
    obtain ⟨col, hcol, hpe⟩ := List.mem_map.mp hp
    rw [← hpe]
    exact dealtPile_noWindow deck col (List.mem_range.mp hcol) hd
  · intro sp ci h1 h2
    exact Option.noConfusion (show (none : Option Nat) = some sp from h1)

theorem storeInv_clearSel (st : Store) (hinv : StoreInv st) : StoreInv (clearSelection st) :=
  ⟨hinv.1, fun sp _ h1 _ =>
    Option.noConfusion (show (none : Option Nat) = some sp from h1)⟩

theorem storeInv_select (st : Store) (p i : Nat) (hinv : StoreInv st) :
    StoreInv (selectCards st p i) := by
  obtain ⟨hstate, hsel⟩ := hinv
  simp only [selectCards]
  by_cases hface : ((st.state.tableau.getD p ⟨[]⟩).cards.getD i dummyCard).faceUp = true
  · rw [if_neg (not_not_intro hface)]
    by_cases hmov : (getMovableCards (st.state.tableau.getD p ⟨[]⟩) i).isEmpty = true
    · rw [if_pos hmov]
      exact ⟨hstate, hsel⟩
    · rw [if_neg hmov]
      refine ⟨hstate, ?_⟩
      intro sp ci h1 h2
      have h1' : some p = some sp := h1
      have h2' : some i = some ci := h2
      injection h1' with h1e
      injection h2' with h2e
      subst h1e
      subst h2e
      have hplen : p < st.state.tableau.length := by
        by_contra hcon
        rw [List.getD_eq_default _ _ (Nat.le_of_not_lt hcon)] at hface
        simp [dummyCard] at hface
      have hilen : i < (st.state.tableau.getD p ⟨[]⟩).cards.length := by
        by_contra hcon
        rw [List.getD_eq_default _ _ (Nat.le_of_not_lt hcon)] at hface
        simp [dummyCard] at hface
      exact ⟨hplen, hilen, hface⟩
  · rw [if_pos hface]
    exact ⟨hstate, hsel⟩

theorem undo_empty (st : Store) (h : st.history = []) : undo st = st := by
  have hg : st.history.getLast? = none := by rw [h]; rfl
  simp only [undo, hg]

theorem undo_eq_of_eq (st1 st2 : Store) (hs : st1.state = st2.state)
    (hh : st1.history = st2.history) (hne : st2.history ≠ []) : undo st1 = undo st2 := by
  have he : st2.history.getLast? = some (st2.history.getLast hne) :=
    List.getLast?_eq_getLast _ hne
  have he1 : st1.history.getLast? = some (st2.history.getLast hne) := by
    rw [hh]; exact he
  simp only [undo, he1, he, hs, hh]

theorem moveCards_not_legal (st : Store) (t : Nat) (hn : ¬ MoveLegal st t) :
    moveCards st t = st ∨ moveCards st t = clearSelection st := by
  cases hsp : st.selectedPile with
  | none => left; simp [moveCards, hsp]
  | some sp =>
    cases hci : st.selectedCardIndex with
    | none => left; simp [moveCards, hsp, hci]
    | some ci =>
      by_cases hspt : sp = t
      · right
        simp only [moveCards, hsp, hci]
        rw [if_pos hspt]
      · rcases hM : getMovableCards (st.state.tableau.getD sp ⟨[]⟩) ci with _ | ⟨c0, rest⟩
        · right
          simp only [moveCards, hsp, hci]
          rw [if_neg hspt]
          simp only [hM]
        · have hplace : ¬ canPlaceCard c0
              (st.state.tableau.getD t ⟨[]⟩).cards.getLast? = true := by
            intro hp
            apply hn
            refine ⟨sp, ci, hsp, hci, hspt, by rw [hM]; simp, ?_⟩
            rw [(movable_head_getD _ ci c0 rest hM).1]
            exact hp
          right
          simp only [moveCards, hsp, hci]
          rw [if_neg hspt]
          simp only [hM]
          rw [if_pos hplace]

theorem moveCards_disj (st : Store) (t : Nat) (ht : t < st.state.tableau.length)
    (hinv : StoreInv st) :
    (moveCards st t = st ∨ moveCards st t = clearSelection st) ∨
    (undo (moveCards st t) = clearSelection st ∧ StoreInv (moveCards st t)) := by
  by_cases hleg : MoveLegal st t
  · right
    exact moveCards_core st t ht hinv hleg
  · left
    exact moveCards_not_legal st t hleg

theorem deal_disj (st : Store) (hinv : StoreInv st) :
    deal st = st ∨ (undo (deal st) = clearSelection st ∧ StoreInv (deal st)) := by
  by_cases hc : canDeal st.state = true
  · right
    exact deal_core st hinv hc
  · left
    rw [deal, if_pos hc]

theorem goodStoreInv (st : Store) (h : Good st) : StoreInv st := by
  induction h with
  | init deck d hdk => exact initializeGame_storeInv deck d hdk
  | select st p i hg ih => exact storeInv_select st p i ih
  | move st t ht hg ih =>
    rcases moveCards_disj st t ht ih with (h1 | h1) | h1
    · rw [h1]; exact ih
    · rw [h1]; exact storeInv_clearSel st ih
    · exact h1.2
  | dealStep st hg ih =>
    rcases deal_disj st ih with h1 | h1
    · rw [h1]; exact ih
    · exact h1.2
  | clearSel st hg ih => exact storeInv_clearSel st ih

theorem good_undo (st : Store) (h : Good st) : Good (undo st) := by
  induction h with
  | init deck d hdk =>
    rw [undo_empty _ rfl]
    exact Good.init deck d hdk
  | select st p i hg ih =>
    obtain ⟨hstate, hhist⟩ := selectCards_state st p i
    by_cases hne : st.history = []
    · rw [undo_empty _ (by rw [hhist]; exact hne)]
      exact Good.select st p i hg
    · rw [undo_eq_of_eq (selectCards st p i) st hstate hhist hne]
      exact ih
  | move st t ht hg ih =>
    rcases moveCards_disj st t ht (goodStoreInv st hg) with (h1 | h1) | h1
    · rw [h1]
      exact ih
    · rw [h1]
      by_cases hne : st.history = []
      · rw [undo_empty _ (show (clearSelection st).history = [] from hne)]
        exact Good.clearSel st hg
      · rw [undo_eq_of_eq (clearSelection st) st rfl rfl hne]
        exact ih
    · rw [h1.1]
      exact Good.clearSel st hg
  | dealStep st hg ih =>
    rcases deal_disj st (goodStoreInv st hg) with h1 | h1
    · rw [h1]
      exact ih
    · rw [h1.1]
      exact Good.clearSel st hg
  | clearSel st hg ih =>
    by_cases hne : st.history = []
    · rw [undo_empty _ (show (clearSelection st).history = [] from hne)]
      exact Good.clearSel st hg
    · rw [undo_eq_of_eq (clearSelection st) st rfl rfl hne]
      exact ih

theorem reachable_good (st : Store) (h : Reachable st) : Good st := by
  induction h with
  | init deck d hdk => exact Good.init deck d hdk
  | select st p i hr ih => exact Good.select st p i ih
  | move st t ht hr ih => exact Good.move st t ht ih
  | dealStep st hr ih => exact Good.dealStep st ih
  | undoStep st hr ih => exact good_undo st ih
  | clearSel st hr ih => exact Good.clearSel st ih

/-- C1: round-trip of `undo` over reachable stores.  For every reachable
store, a successful card move (`moveCards` with a legal selection placed on
a distinct in-range pile) followed by `undo` restores exactly the prior
store with the selection cleared — same tableau contents, stock,
`completedSequences`, `gameWon` and `moves`, including reversal of the
recorded face-up flip and of any completed-sequence removals the move
triggered — and likewise a deal followed by `undo`. -/
theorem undo_roundtrip (st : Store) (h : Reachable st) (t : Nat) :
    (t < st.state.tableau.length → MoveLegal st t →
      undo (moveCards st t)
        = { st with selectedPile := none, selectedCardIndex := none }) ∧
    (canDeal st.state = true →
      undo (deal st)
        = { st with selectedPile := none, selectedCardIndex := none }) := by
  have hinv := goodStoreInv st (reachable_good st h)
  exact ⟨fun ht hleg => (moveCards_core st t ht hinv hleg).1,
    fun hc => (deal_core st hinv hc).1⟩

/-- Witness for C1 at a concrete reachable store: in the fresh unshuffled
easy game, selecting pile 2's top card (a 5) and moving it onto pile 0's 6
then undoing lands back on the pre-move store, and dealing then undoing
does too. -/
theorem undo_roundtrip_witness :
    (undo (moveCards (selectCards
        ⟨initializeGame (createDeck .easy 0) .easy, [], none, none⟩ 2 5) 0)
      = { selectCards ⟨initializeGame (createDeck .easy 0) .easy, [], none, none⟩ 2 5 with
          selectedPile := none, selectedCardIndex := none }) ∧
    (undo (deal (selectCards
        ⟨initializeGame (createDeck .easy 0) .easy, [], none, none⟩ 2 5))
      = { selectCards ⟨initializeGame (createDeck .easy 0) .easy, [], none, none⟩ 2 5 with
          selectedPile := none, selectedCardIndex := none }) := by
  have hdeck : InitialDeck (createDeck .easy 0) := by
    refine ⟨rfl, ?_⟩
    rw [show (createDeck .easy 0).map (fun c => c.id) = List.range 104 from rfl]
    exact List.nodup_range 104
  have hr : Reachable (selectCards
      ⟨initializeGame (createDeck .easy 0) .easy, [], none, none⟩ 2 5) :=
    Reachable.select _ 2 5 (Reachable.init _ .easy hdeck)
  have h := undo_roundtrip _ hr 0
  refine ⟨h.1 (by decide) ?_, h.2 (by decide)⟩
  exact ⟨2, 5, by decide, by decide, by decide, by decide, by decide⟩
